import Mathlib

/-!
# gosnyk-sdk: request execution, retry policy, cursor pagination, domain operations

A shallow embedding of `snyk/client.go` and `snyk/resource.go`, and of the functions of
`snyk/org.go`, `snyk/project.go`, `snyk/issue_ignore.go` and `snyk/issue_v2.go` that the
theorems are about.

* Go strings are Lean strings; every scanning function works on the character list.
* `int` and `time.Duration` are 64-bit: arithmetic on them is done in `Int` and wrapped
  by `wrap64`.
* The HTTP round trip `c.httpClient.Do(req)` is an oracle (`Transport`) giving the outcome
  of the k-th round trip; the wall clock is a log of the arguments given to `time.Sleep`.
* A Go function returning `(value, error)` returns a `Ret`; the third constructor of `Ret`
  records a nil-pointer dereference, which aborts the Go process.
-/

namespace Snyk

/-! ## Constants of `client.go` -/

def baseURL : String := "https://api.snyk.io/"

def defaultAPIVersion : String := "2023-09-14~beta"

def defaultMaxRetries : Nat := 6

/-- The `Client` struct: the fields that hold data. The `httpClient` field is the
`Transport` oracle handed to `send`; the service handles alias the client itself. -/
structure Client where
  token : String
  APIVersion : String
  maxRetries : Int
deriving DecidableEq, Repr

/-- `NewClient`. -/
def NewClient (token : String) : Client :=
  { token := token, APIVersion := defaultAPIVersion, maxRetries := defaultMaxRetries }

/-- `(*Client).SetMaxRetries`: `c.maxRetries = retries`. -/
def Client.SetMaxRetries (c : Client) (retries : Int) : Client :=
  { c with maxRetries := retries }

/-! ## Requests, responses, the transport oracle -/

/-- What `http.NewRequest` plus the three `Header.Set` calls of `send` build. -/
structure Request where
  Method : String
  URL : String
  Authorization : String
  Accept : String
  ContentType : String
  Body : Option String
deriving DecidableEq, Repr

/-- The parts of `*http.Response` that `send` and its callers read: the status code, the
`Retry-After` header (`none` when the header is absent) and the body text (`none` when
`io.ReadAll` on the body fails). -/
structure Response where
  StatusCode : Int
  RetryAfter : Option String
  Body : Option String
deriving DecidableEq, Repr

/-- Outcome of one `c.httpClient.Do(req)`: a response with a nil error, or a network-level
failure, for which `net/http` returns a nil response and the error. -/
inductive Outcome where
  | resp (r : Response)
  | fail (e : String)
deriving DecidableEq, Repr

/-- The outcome of the k-th round trip (k counted from 0 over the life of the client),
as a function of the request sent. -/
abbrev Transport := Nat → Request → Outcome

/-- Observable effects so far: the requests handed to `httpClient.Do`, oldest first, and
the arguments (nanoseconds) of the calls to `time.Sleep`, oldest first. -/
structure World where
  sent : List Request
  slept : List Int
deriving DecidableEq, Repr

/-- No request sent, no sleep yet. -/
def World.init : World := { sent := [], slept := [] }

/-- `time.Sleep(d)`. -/
def World.sleep (w : World) (d : Int) : World :=
  { w with slept := w.slept ++ [d] }

/-- `c.httpClient.Do(req)`. -/
def httpClientDo (t : Transport) (req : Request) (w : World) : Outcome × World :=
  (t w.sent.length req, { w with sent := w.sent ++ [req] })

/-- The error values the client returns: an error of `net/url`, the invalid-method error
of `http.NewRequest`, the error of a failed round trip, an error built by `fmt.Errorf`
(with its message), an error of the JSON decoder, and an error of `io.ReadAll` on a
response body. -/
inductive GoError where
  | url
  | method
  | transport (e : String)
  | errorf (msg : String)
  | decode
  | read
deriving DecidableEq, Repr

deriving instance DecidableEq for Except

/-- Result of a Go function returning `(value, error)`: the value with a nil error, a nil
value with the error, or a nil-pointer dereference on the way. -/
inductive Ret (α : Type) where
  | ok (a : α)
  | error (e : GoError)
  | nilDeref
deriving DecidableEq, Repr

/-! ## Helpers -/

/-- `isInSlice` (project.go). -/
def isInSlice {α : Type} [DecidableEq α] (item : α) : List α → Bool
  | [] => false
  | value :: rest => if item = value then true else isInSlice item rest

/-- Two's-complement wrap of a 64-bit signed integer. -/
def wrap64 (x : Int) : Int := (x + 2 ^ 63) % 2 ^ 64 - 2 ^ 63

/-- `time.Second`, in nanoseconds. -/
def Second : Int := 1000000000

/-- Value of a decimal digit. -/
def digitVal (ch : Char) : Option Nat :=
  if '0' ≤ ch ∧ ch ≤ '9' then some (ch.toNat - '0'.toNat) else none

/-- Decimal digits to a number; `none` at the first character that is not a digit. -/
def parseDigits : List Char → Nat → Option Nat
  | [], n => some n
  | ch :: cs, n =>
    match digitVal ch with
    | none => none
    | some d => parseDigits cs (n * 10 + d)

/-- Magnitude accepted by `strconv.Atoi` after the optional sign: at least one digit. -/
def parseMagnitude (cs : List Char) : Option Nat :=
  if cs = [] then none else parseDigits cs 0

/-- `strconv.Atoi` on a 64-bit platform: an optional sign, then one or more decimal
digits, and a value that fits `int`; `none` is the error return. -/
def Atoi (s : String) : Option Int :=
  match s.toList with
  | [] => none
  | '-' :: cs =>
    match parseMagnitude cs with
    | some n => if n ≤ 2 ^ 63 then some (-(n : Int)) else none
    | none => none
  | '+' :: cs =>
    match parseMagnitude cs with
    | some n => if n < 2 ^ 63 then some (n : Int) else none
    | none => none
  | cs =>
    match parseMagnitude cs with
    | some n => if n < 2 ^ 63 then some (n : Int) else none
    | none => none

/-- `resp.Header.Get("Retry-After")`: the empty string when the header is absent. -/
def Response.retryAfterHeader (resp : Response) : String :=
  resp.RetryAfter.getD ""

/-- `getRespBody`. -/
def getRespBody (resp : Response) : String :=
  match resp.Body with
  | none => "Could not get reponse body"
  | some bodyString => "'" ++ toString resp.StatusCode ++ "': '" ++ bodyString ++ "'"

/-! ## The parts of Go's `net/url` and `path` that the client calls

A Go string is a byte string: the model reads a Lean string as one character per byte
(the same thing for ASCII text). Each function below follows the standard library
function of the same name; an `Option` result is `none` exactly when the Go function
returns an error. -/

/-- The `encoding` modes of `net/url`. -/
inductive Encoding where
  | encodePath
  | encodePathSegment
  | encodeHost
  | encodeZone
  | encodeUserPassword
  | encodeQueryComponent
  | encodeFragment
deriving DecidableEq, Repr

def isAlpha (c : Char) : Bool :=
  (decide ('a' ≤ c) && decide (c ≤ 'z')) || (decide ('A' ≤ c) && decide (c ≤ 'Z'))

def isDigit (c : Char) : Bool := decide ('0' ≤ c) && decide (c ≤ '9')

/-- `ishex`. -/
def ishex (c : Char) : Bool :=
  isDigit c || (decide ('a' ≤ c) && decide (c ≤ 'f')) || (decide ('A' ≤ c) && decide (c ≤ 'F'))

/-- `unhex`. -/
def unhex (c : Char) : Nat :=
  if isDigit c then c.toNat - 48
  else if decide ('a' ≤ c) && decide (c ≤ 'f') then c.toNat - 97 + 10
  else if decide ('A' ≤ c) && decide (c ≤ 'F') then c.toNat - 65 + 10
  else 0

/-- One digit of `upperhex`. -/
def upperhex (n : Nat) : Char :=
  "0123456789ABCDEF".toList.getD (n % 16) '0'

/-- `shouldEscape`. -/
def shouldEscape (c : Char) (mode : Encoding) : Bool :=
  if isAlpha c || isDigit c then false
  else if (mode = Encoding.encodeHost ∨ mode = Encoding.encodeZone) ∧
      c ∈ ['!', '$', '&', Char.ofNat 39, '(', ')', '*', '+', ',', ';', '=', ':', '[', ']', '<', '>',
        Char.ofNat 34]
  then false
  else if c ∈ ['-', '_', '.', '~'] then false
  else if c ∈ ['$', '&', '+', ',', '/', ':', ';', '=', '?', '@'] then
    match mode with
    | Encoding.encodePath => c == '?'
    | Encoding.encodePathSegment => c == '/' || c == ';' || c == ',' || c == '?'
    | Encoding.encodeUserPassword => c == '@' || c == '/' || c == '?' || c == ':'
    | Encoding.encodeQueryComponent => true
    | Encoding.encodeFragment => false
    | _ => true
  else if mode = Encoding.encodeFragment ∧ c ∈ ['!', '(', ')', '*'] then false
  else true

/-- `unescape` on the byte list: `none` for a malformed `%` escape, and in the host
modes for an escape or a byte that a host may not hold. -/
def unescapeChars (mode : Encoding) : List Char → Option (List Char)
  | [] => some []
  | c :: rest =>
    if c = '%' then
      match rest with
      | a :: b :: rest2 =>
        if ishex a && ishex b then
          let v := Char.ofNat (unhex a * 16 + unhex b)
          if mode = Encoding.encodeHost ∧ unhex a < 8 ∧ ¬ (a = '2' ∧ b = '5') then none
          else if mode = Encoding.encodeZone ∧ ¬ (a = '2' ∧ b = '5') ∧ v ≠ ' ' ∧
              shouldEscape v Encoding.encodeHost = true then none
          else (unescapeChars mode rest2).map (fun t => v :: t)
        else none
      | _ => none
    else if c = '+' then
      (unescapeChars mode rest).map
        (fun t => (if mode = Encoding.encodeQueryComponent then ' ' else '+') :: t)
    else if (mode = Encoding.encodeHost ∨ mode = Encoding.encodeZone) ∧ c.toNat < 128 ∧
        shouldEscape c mode = true then none
    else (unescapeChars mode rest).map (fun t => c :: t)

/-- `unescape`. -/
def unescape (s : String) (mode : Encoding) : Option String :=
  (unescapeChars mode s.toList).map String.mk

/-- `escape` on the byte list. -/
def escapeChars (mode : Encoding) : List Char → List Char
  | [] => []
  | c :: rest =>
    if c = ' ' ∧ mode = Encoding.encodeQueryComponent then '+' :: escapeChars mode rest
    else if shouldEscape c mode then
      '%' :: upperhex (c.toNat / 16) :: upperhex (c.toNat % 16) :: escapeChars mode rest
    else c :: escapeChars mode rest

/-- `escape`. -/
def escape (s : String) (mode : Encoding) : String :=
  String.mk (escapeChars mode s.toList)

/-- `validEncoded`. -/
def validEncoded (s : String) (mode : Encoding) : Bool :=
  s.toList.all fun c =>
    if c ∈ ['!', '$', '&', Char.ofNat 39, '(', ')', '*', '+', ',', ';', '=', ':', '@', '[', ']', '%']
    then true else !shouldEscape c mode

/-- `strings.Cut` on the byte list, for a one-byte separator: the text before the first
separator, the text after it, and whether a separator was found. -/
def cutChars (sep : Char) : List Char → List Char × List Char × Bool
  | [] => ([], [], false)
  | c :: rest =>
    if c = sep then ([], rest, true)
    else
      let r := cutChars sep rest
      (c :: r.1, r.2.1, r.2.2)

/-- `strings.LastIndex` for a one-byte separator, as a cut at the last occurrence: the
text before it and the text from it on; `none` when the separator does not occur. -/
def cutLastChars (sep : Char) : List Char → Option (List Char × List Char)
  | [] => none
  | c :: rest =>
    match cutLastChars sep rest with
    | some (pre, post) => some (c :: pre, post)
    | none => if c = sep then some ([], c :: rest) else none

/-- `strings.HasPrefix`. -/
def hasPrefix (s p : String) : Bool := p.toList.isPrefixOf s.toList

/-- `strings.HasSuffix`. -/
def hasSuffix (s p : String) : Bool := p.toList.isSuffixOf s.toList

/-- `stringContainsCTLByte`. -/
def stringContainsCTLByte (s : List Char) : Bool :=
  s.any fun c => decide (c.toNat < 32) || decide (c.toNat = 127)

/-- The scan of `getScheme` from position `i > 0` on: the characters read so far are
`acc` (reversed). -/
def getSchemeRest (whole : List Char) : List Char → List Char →
    Option (List Char × List Char)
  | [], _ => some ([], whole)
  | c :: rest, acc =>
    if isAlpha c then getSchemeRest whole rest (c :: acc)
    else if isDigit c || c == '+' || c == '-' || c == '.' then
      getSchemeRest whole rest (c :: acc)
    else if c = ':' then some (acc.reverse, rest)
    else some ([], whole)

/-- `getScheme`: the scheme and the rest; `none` is "missing protocol scheme". -/
def getScheme (rawURL : List Char) : Option (List Char × List Char) :=
  match rawURL with
  | [] => some ([], [])
  | c :: rest =>
    if isAlpha c then getSchemeRest rawURL rest [c]
    else if isDigit c || c == '+' || c == '-' || c == '.' then some ([], rawURL)
    else if c = ':' then none
    else some ([], rawURL)

/-- The `Userinfo` type. -/
structure Userinfo where
  username : String
  password : String
  passwordSet : Bool
deriving DecidableEq, Repr

/-- The `URL` type. -/
structure URL where
  Scheme : String
  Opaque : String
  User : Option Userinfo
  Host : String
  Path : String
  RawPath : String
  OmitHost : Bool
  ForceQuery : Bool
  RawQuery : String
  Fragment : String
  RawFragment : String
deriving DecidableEq, Repr

/-- The zero `URL`. -/
def URL.zero : URL :=
  { Scheme := "", Opaque := "", User := none, Host := "", Path := "", RawPath := "",
    OmitHost := false, ForceQuery := false, RawQuery := "", Fragment := "",
    RawFragment := "" }

/-- `validOptionalPort`. -/
def validOptionalPort (port : List Char) : Bool :=
  match port with
  | [] => true
  | c :: rest => c == ':' && rest.all isDigit

/-- `validUserinfo`. -/
def validUserinfo (s : List Char) : Bool :=
  s.all fun r =>
    isAlpha r || isDigit r ||
      decide (r ∈ ['-', '.', '_', ':', '~', '!', '$', '&', Char.ofNat 39, '(', ')', '*', '+', ',',
        ';', '=', '%', '@'])

/-- Position of the first occurrence of `%25`, as the split of the list there. -/
def cutZone : List Char → Option (List Char × List Char)
  | [] => none
  | c :: rest =>
    if ['%', '2', '5'].isPrefixOf (c :: rest) then some ([], c :: rest)
    else (cutZone rest).map fun r => (c :: r.1, r.2)

/-- `parseHost`. The text between brackets is not checked to be an IP literal, a check
that later releases of `net/url` add: a host such as `[foo]` is accepted here. -/
def parseHost(host : List Char) : Option (List Char) :=
  if ['['].isPrefixOf host then
    match cutLastChars ']' host with
    | none => none
    | some (pre, post) =>
      -- `post` starts at the last `]`; the port follows it
      if !validOptionalPort (post.drop 1) then none
      else
        match cutZone pre with
        | some (h1, zone) =>
          match unescapeChars Encoding.encodeHost h1, unescapeChars Encoding.encodeZone zone,
              unescapeChars Encoding.encodeHost post with
          | some host1, some host2, some host3 => some (host1 ++ host2 ++ host3)
          | _, _, _ => none
        | none => unescapeChars Encoding.encodeHost host
  else
    match cutLastChars ':' host with
    | some (_, colonPort) =>
      if !validOptionalPort colonPort then none
      else unescapeChars Encoding.encodeHost host
    | none => unescapeChars Encoding.encodeHost host

/-- `parseAuthority`. -/
def parseAuthority (authority : List Char) : Option (Option Userinfo × List Char) :=
  match cutLastChars '@' authority with
  | none => (parseHost authority).map fun h => (none, h)
  | some (userinfo, atHost) =>
    match parseHost (atHost.drop 1) with
    | none => none
    | some host =>
      if !validUserinfo userinfo then none
      else if !userinfo.contains ':' then
        match unescapeChars Encoding.encodeUserPassword userinfo with
        | none => none
        | some u =>
          some (some { username := String.mk u, password := "", passwordSet := false }, host)
      else
        let r := cutChars ':' userinfo
        match unescapeChars Encoding.encodeUserPassword r.1,
            unescapeChars Encoding.encodeUserPassword r.2.1 with
        | some u, some pw =>
          some (some { username := String.mk u, password := String.mk pw,
                       passwordSet := true }, host)
        | _, _ => none

/-- `(*URL).setPath`; `none` is the error return, which leaves the URL as it was. -/
def URL.setPath (u : URL) (p : String) : Option URL :=
  match unescape p Encoding.encodePath with
  | none => none
  | some path =>
    some { u with Path := path,
                  RawPath := if p = escape path Encoding.encodePath then "" else p }

/-- `(*URL).setFragment`. -/
def URL.setFragment (u : URL) (f : String) : Option URL :=
  match unescape f Encoding.encodeFragment with
  | none => none
  | some frag =>
    some { u with Fragment := frag,
                  RawFragment := if f = escape frag Encoding.encodeFragment then "" else f }

/-- The unexported `parse` with `viaRequest = false`, on the text before any `#`. -/
def parseNoFragment (rawURL : List Char) : Option URL :=
  if stringContainsCTLByte rawURL then none
  else if rawURL = ['*'] then some { URL.zero with Path := "*" }
  else
    match getScheme rawURL with
    | none => none
    | some (scheme, rest0) =>
      let scheme := scheme.map Char.toLower
      let q := cutChars '?' rest0
      -- a lone trailing `?` sets ForceQuery
      let force := (['?'].isSuffixOf rest0 && rest0.count '?' == 1)
      let rest := q.1
      let rawQuery := if force then [] else q.2.1
      let u : URL := { URL.zero with Scheme := String.mk scheme, ForceQuery := force,
                                     RawQuery := String.mk rawQuery }
      if !(['/'].isPrefixOf rest) && scheme ≠ [] then
        some { u with Opaque := String.mk rest }
      else if !(['/'].isPrefixOf rest) && (cutChars '/' rest).1.contains ':' then none
      else if (scheme ≠ [] || !(['/', '/', '/'].isPrefixOf rest)) &&
          ['/', '/'].isPrefixOf rest then
        let a := cutChars '/' (rest.drop 2)
        let authority := a.1
        let rest2 := if a.2.2 then '/' :: a.2.1 else []
        match parseAuthority authority with
        | none => none
        | some (user, host) =>
          URL.setPath { u with User := user, Host := String.mk host } (String.mk rest2)
      else if scheme ≠ [] && ['/'].isPrefixOf rest then
        URL.setPath { u with OmitHost := true } (String.mk rest)
      else URL.setPath u (String.mk rest)

/-- `url.Parse`. -/
def Parse (rawURL : String) : Option URL :=
  let c := cutChars '#' rawURL.toList
  match parseNoFragment c.1 with
  | none => none
  | some u => if c.2.1 = [] then some u else URL.setFragment u (String.mk c.2.1)

/-- `(*Userinfo).String` (the name `String` is taken by the type). -/
def Userinfo.Str (ui : Userinfo) : String :=
  escape ui.username Encoding.encodeUserPassword ++
    (if ui.passwordSet then ":" ++ escape ui.password Encoding.encodeUserPassword else "")

/-- `(*URL).EscapedPath`. -/
def URL.EscapedPath (u : URL) : String :=
  if u.RawPath ≠ "" ∧ validEncoded u.RawPath Encoding.encodePath = true ∧
      unescape u.RawPath Encoding.encodePath = some u.Path then u.RawPath
  else if u.Path = "*" then "*"
  else escape u.Path Encoding.encodePath

/-- `(*URL).EscapedFragment`. -/
def URL.EscapedFragment (u : URL) : String :=
  if u.RawFragment ≠ "" ∧ validEncoded u.RawFragment Encoding.encodeFragment = true ∧
      unescape u.RawFragment Encoding.encodeFragment = some u.Fragment then u.RawFragment
  else escape u.Fragment Encoding.encodeFragment

/-- The authority part written by `(*URL).String`. -/
def URL.authorityText (u : URL) : String :=
  if u.Scheme ≠ "" ∨ u.Host ≠ "" ∨ u.User.isSome then
    if u.OmitHost ∧ u.Host = "" ∧ u.User.isNone then ""
    else
      (if u.Host ≠ "" ∨ u.Path ≠ "" ∨ u.User.isSome then "//" else "") ++
      (match u.User with
       | some ui => ui.Str ++ "@"
       | none => "") ++
      (if u.Host ≠ "" then escape u.Host Encoding.encodeHost else "")
  else ""

/-- `(*URL).String` (the name `String` is taken by the type). -/
def URL.Str (u : URL) : String :=
  let head := if u.Scheme ≠ "" then u.Scheme ++ ":" else ""
  let middle :=
    if u.Opaque ≠ "" then head ++ u.Opaque
    else
      let buf := head ++ u.authorityText
      let path := u.EscapedPath
      let buf := if path ≠ "" ∧ !(['/'].isPrefixOf path.toList) ∧ u.Host ≠ "" then buf ++ "/"
                 else buf
      let buf := if buf = "" ∧ (cutChars '/' path.toList).1.contains ':' then buf ++ "./"
                 else buf
      buf ++ path
  let query := if u.ForceQuery ∨ u.RawQuery ≠ "" then "?" ++ u.RawQuery else ""
  let frag := if u.Fragment ≠ "" then "#" ++ u.EscapedFragment else ""
  middle ++ query ++ frag

/-- The elements of a path between its slashes. -/
def splitSlash : List Char → List (List Char)
  | [] => [[]]
  | c :: rest =>
    if c = '/' then [] :: splitSlash rest
    else
      match splitSlash rest with
      | seg :: segs => (c :: seg) :: segs
      | [] => [[c]]

/-- One element of `path.Clean`, on the stack of elements kept so far (last one first):
empty and `.` elements are dropped, `..` removes the element before it, is dropped at
the root, and is kept at the start of a path that is not rooted. -/
def cleanStep (rooted : Bool) (stack : List (List Char)) (seg : List Char) :
    List (List Char) :=
  if seg = [] ∨ seg = ['.'] then stack
  else if seg = ['.', '.'] then
    match stack with
    | top :: below => if top = ['.', '.'] then seg :: stack else below
    | [] => if rooted then [] else [seg]
  else seg :: stack

/-- Elements joined by slashes. -/
def joinSlash : List (List Char) → List Char
  | [] => []
  | [seg] => seg
  | seg :: segs => seg ++ '/' :: joinSlash segs

/-- `path.Clean`, computed element by element. -/
def Clean (path : List Char) : List Char :=
  if path = [] then ['.']
  else
    let rooted := ['/'].isPrefixOf path
    let body := joinSlash ((splitSlash path).foldl (cleanStep rooted) []).reverse
    if rooted then '/' :: body
    else if body = [] then ['.'] else body

/-- The buffer built by `path.Join` before it is cleaned: leading empty elements are
skipped, the others are separated by slashes. -/
def joinBuf : List Char → List (List Char) → List Char
  | buf, [] => buf
  | buf, e :: rest =>
    if buf ≠ [] ∨ e ≠ [] then joinBuf ((if buf ≠ [] then buf ++ ['/'] else buf) ++ e) rest
    else joinBuf buf rest

/-- `path.Join`. -/
def pathJoin (elem : List (List Char)) : List Char :=
  if elem.all (fun e => e.isEmpty) then [] else Clean (joinBuf [] elem)

/-- The path that `(*URL).joinPath` hands to `setPath`, for one element: the escaped
path of the URL and the element, joined and cleaned, with the slash at the end of the
element kept. -/
def joinPathText (u : URL) (elem : String) : List Char :=
  let first := u.EscapedPath.toList
  let p :=
    if !(['/'].isPrefixOf first) then (pathJoin [('/' :: first), elem.toList]).drop 1
    else pathJoin [first, elem.toList]
  if ['/'].isSuffixOf elem.toList ∧ !(['/'].isSuffixOf p) then p ++ ['/'] else p

/-- The unexported `(*URL).joinPath` with one element; `none` is the error of `setPath`,
returned when the joined path does not unescape. -/
def URL.joinPath (u : URL) (elem : String) : Option URL :=
  u.setPath (String.mk (joinPathText u elem))

/-- `(*URL).JoinPath` with one element: the error of `joinPath` is dropped and the URL
returned as it was. -/
def URL.JoinPath (u : URL) (elem : String) : URL :=
  (u.joinPath elem).getD u

/-- `url.JoinPath` with one element: `none` when the base does not parse, and when
`joinPath` returns an error. -/
def JoinPath (base : String) (elem : String) : Option String :=
  match Parse base with
  | none => none
  | some u => (u.joinPath elem).map URL.Str

/-! ### `url.Values` -/

/-- The `url.Values` map, as an association list holding each key once. -/
abbrev Values := List (String × List String)

/-- The map lookup `v[key]`. -/
def Values.lookup (v : Values) (key : String) : Option (List String) :=
  match v with
  | [] => none
  | (k, vs) :: rest => if k = key then some vs else Values.lookup rest key

/-- `Values.Has`. -/
def Values.Has (v : Values) (key : String) : Bool := (Values.lookup v key).isSome

/-- `Values.Get`: the first value of the key, the empty string when there is none. -/
def Values.Get (v : Values) (key : String) : String :=
  match Values.lookup v key with
  | some (value :: _) => value
  | _ => ""

/-- The map store `v[key] = vs`. -/
def Values.store (v : Values) (key : String) (vs : List String) : Values :=
  match v with
  | [] => [(key, vs)]
  | (k, old) :: rest => if k = key then (k, vs) :: rest else (k, old) :: Values.store rest key vs

/-- `Values.Set`. -/
def Values.Set (v : Values) (key value : String) : Values := Values.store v key [value]

/-- `Values.Add`. -/
def Values.Add (v : Values) (key value : String) : Values :=
  Values.store v key ((Values.lookup v key).getD [] ++ [value])

/-- `QueryUnescape`. -/
def QueryUnescape (s : List Char) : Option (List Char) :=
  unescapeChars Encoding.encodeQueryComponent s

/-- `QueryEscape`. -/
def QueryEscape (s : String) : String := escape s Encoding.encodeQueryComponent

/-- The text between the `&` separators of a query. -/
def splitAmp : List Char → List (List Char)
  | [] => [[]]
  | c :: rest =>
    if c = '&' then [] :: splitAmp rest
    else
      match splitAmp rest with
      | seg :: segs => (c :: seg) :: segs
      | [] => [[c]]

/-- One round of the loop of `parseQuery`: a pair holding a semicolon, an empty pair and
a pair that does not unescape are skipped. -/
def parseQueryStep (m : Values) (pair : List Char) : Values :=
  if pair.contains ';' then m
  else if pair = [] then m
  else
    let kv := cutChars '=' pair
    match QueryUnescape kv.1, QueryUnescape kv.2.1 with
    | some key, some value => Values.Add m (String.mk key) (String.mk value)
    | _, _ => m

/-- `(*URL).Query`: `ParseQuery` on `RawQuery`, its error dropped. -/
def URL.Query (u : URL) : Values :=
  (splitAmp u.RawQuery.toList).foldl parseQueryStep []

/-- Byte-wise `<=` on strings. -/
def bytesLe : List Char → List Char → Bool
  | [], _ => true
  | _ :: _, [] => false
  | a :: as, b :: bs => if a.toNat < b.toNat then true else if b.toNat < a.toNat then false
                        else bytesLe as bs

/-- Insertion of a key into a sorted list of keys. -/
def insertKey (k : String) : List String → List String
  | [] => [k]
  | x :: xs => if bytesLe k.toList x.toList then k :: x :: xs else x :: insertKey k xs

/-- `slices.Sort(keys)`. -/
def sortKeys (keys : List String) : List String := keys.foldr insertKey []

/-- The `key=value` texts that `Values.Encode` writes for one key. -/
def encodeKey (v : Values) (k : String) : List String :=
  ((Values.lookup v k).getD []).map fun value => QueryEscape k ++ "=" ++ QueryEscape value

/-- `Values.Encode`: keys in sorted order, pairs separated by `&`. -/
def Values.Encode (v : Values) : String :=
  "&".intercalate ((sortKeys (v.map Prod.fst)).flatMap (encodeKey v))

/-! ### `http.NewRequest` -/

/-- The token characters of an HTTP method (`httpguts.IsTokenRune`). -/
def isTokenRune (r : Char) : Bool :=
  isAlpha r || isDigit r ||
    decide (r ∈ ['!', '#', '$', '%', '&', Char.ofNat 39, '*', '+', '-', '.', '^', '_',
      Char.ofNat 96, '|', '~'])

/-- `validMethod`. -/
def validMethod (method : String) : Bool :=
  method ≠ "" && method.toList.all isTokenRune

/-! ## URL composition (`client.go`) -/

/-- `joinURLParts`. -/
def joinURLParts (base suffix : String) : Option String :=
  match Parse suffix with
  | none => none
  | some suffixURL =>
    match JoinPath base suffixURL.Path with
    | none => none
    | some joined =>
      match Parse joined with
      | none => none
      | some joinedURL => some ({ joinedURL with RawQuery := suffixURL.RawQuery }).Str

/-- `getReqURL`. -/
def getReqURL (urlPath : String) : Option URL :=
  match joinURLParts baseURL urlPath with
  | none => none
  | some requestPath => Parse requestPath

/-! ## `Client.send`, lines 68-98: building the request -/

/-- `strings.TrimPrefix(s, "/")`. -/
def trimSlash (s : String) : String :=
  match s.toList with
  | '/' :: rest => String.mk rest
  | _ => s

/-- Lines 68-98 of `send`. `params` is `none` for a nil map. `body` is `none` for a nil
body and otherwise the result of `json.Marshal` on it: the JSON text, or the text of the
marshalling error. -/
def buildRequest (c : Client) (method urlPath : String) (params : Option Values)
    (body : Option (Except String String)) : Except GoError Request :=
  match getReqURL urlPath with
  | none => Except.error GoError.url
  | some requestURL0 =>
    let requestURL :=
      match params with
      | some ps => { requestURL0 with RawQuery := ps.Encode }
      | none => requestURL0
    let marshalled : Except GoError (Option String) :=
      match body with
      | none => Except.ok none
      | some (Except.error e) =>
        Except.error (GoError.errorf ("Failed to serialize request body; " ++ e))
      | some (Except.ok jsonBody) => Except.ok (some jsonBody)
    match marshalled with
    | Except.error e => Except.error e
    | Except.ok bodyReader =>
      -- http.NewRequest: an empty method means GET
      let method := if method = "" then "GET" else method
      if !validMethod method then Except.error GoError.method
      else
        match Parse requestURL.Str with
        | none => Except.error GoError.url
        | some _ =>
          Except.ok
            { Method := method,
              URL := requestURL.Str,
              Authorization := c.token,
              Accept := "*/*",
              ContentType :=
                if hasPrefix (trimSlash urlPath) "rest/" then "application/vnd.api+json"
                else "application/json",
              Body := bodyReader }

/-! ## `Client.send`, lines 100-139: round trips and retries -/

def retryResponseCodes : List Int := [429, 500]

/-- The `interval` of one loop iteration, before the multiplication by `time.Second`:
`retryAfterInt + 5` when `Atoi` succeeds, `math.Exp2(float64(i))` otherwise (a power of
two, exact in `float64` for the loop's `i`). -/
def retryInterval (resp : Response) (i : Nat) : Int :=
  match Atoi resp.retryAfterHeader with
  | some retryAfterInt => wrap64 (retryAfterInt + 5)
  | none => 2 ^ i

/-- The body of `for i := 0; i <= defaultMaxRetries; i++`, run over the values of `i`
still to come. `resp` is the response in hand. A failed round trip leaves `resp` nil, and
`resp.StatusCode` in the `break` test dereferences it. -/
def retryLoop (t : Transport) (req : Request) :
    List Nat → Response → World → Ret Response × World
  | [], resp, w => (Ret.ok resp, w)
  | i :: rest, resp, w =>
    let w1 := w.sleep (wrap64 (retryInterval resp i * Second))
    match httpClientDo t req w1 with
    | (Outcome.fail _, w2) => (Ret.nilDeref, w2)
    | (Outcome.resp r, w2) =>
      if !isInSlice r.StatusCode retryResponseCodes then (Ret.ok r, w2)
      else retryLoop t req rest r w2

/-- Lines 105-128: the loop is entered when the first response is 429 or 500. -/
def retryStage (t : Transport) (req : Request) (resp : Response) (w : World) :
    Ret Response × World :=
  if isInSlice resp.StatusCode retryResponseCodes then
    retryLoop t req (List.range (defaultMaxRetries + 1)) resp w
  else (Ret.ok resp, w)

/-- Lines 130-133: one more round trip after 30 seconds when the status is 502. The
failed round trip leaves `resp` nil for the status test of line 135. -/
def gatewayStage (t : Transport) (req : Request) (resp : Response) (w : World) :
    Ret Response × World :=
  if resp.StatusCode = 502 then
    match httpClientDo t req (w.sleep (wrap64 (30 * Second))) with
    | (Outcome.fail _, w1) => (Ret.nilDeref, w1)
    | (Outcome.resp r, w1) => (Ret.ok r, w1)
  else (Ret.ok resp, w)

/-- Lines 135-139. -/
def finish (resp : Response) : Ret Response :=
  if resp.StatusCode ≥ 400 then Ret.error (GoError.errorf ("error: " ++ getRespBody resp))
  else Ret.ok resp

/-- Lines 100-139 of `send`, from the first `c.httpClient.Do(req)` on. -/
def transmit (t : Transport) (req : Request) (w : World) : Ret Response × World :=
  match httpClientDo t req w with
  | (Outcome.fail e, w1) => (Ret.error (GoError.transport e), w1)
  | (Outcome.resp r0, w1) =>
    match retryStage t req r0 w1 with
    | (Ret.ok r1, w2) =>
      match gatewayStage t req r1 w2 with
      | (Ret.ok r2, w3) => (finish r2, w3)
      | (Ret.error e, w3) => (Ret.error e, w3)
      | (Ret.nilDeref, w3) => (Ret.nilDeref, w3)
    | (Ret.error e, w2) => (Ret.error e, w2)
    | (Ret.nilDeref, w2) => (Ret.nilDeref, w2)

/-- `(*Client).send`. -/
def Client.send (c : Client) (t : Transport) (method urlPath : String)
    (params : Option Values) (body : Option (Except String String)) (w : World) :
    Ret Response × World :=
  match buildRequest c method urlPath params body with
  | Except.error e => (Ret.error e, w)
  | Except.ok req => transmit t req w

/-- `(*Client).Get`. -/
def Client.Get (c : Client) (t : Transport) (urlPath : String) (params : Option Values)
    (w : World) : Ret Response × World :=
  c.send t "GET" urlPath params none w

/-! ## Cursor pagination (`resource.go`) -/

/-- The attribute bag of a `resource`: the fields read by the functions modelled here,
each with its zero value as default (`Type_` is the field `Type`, a reserved word). -/
structure Attributes where
  GroupID : String := ""
  Name : String := ""
  DisplayName : String := ""
  Slug : String := ""
  Type_ : String := ""
  Origin : String := ""
  Status : String := ""
  Key : String := ""
  Ignored : Bool := false
deriving DecidableEq, Repr

/-- The `resource` struct. -/
structure Resource where
  ResourceType : String := ""
  ID : String := ""
  Attributes : Attributes := {}
deriving DecidableEq, Repr

/-- The `links` struct. -/
structure Links where
  Related : String := ""
  Prev : String := ""
  Next : String := ""
deriving DecidableEq, Repr

/-- The `multiResourceResp` struct. -/
structure MultiResourceResp where
  Data : List Resource := []
  Links : Links := {}
deriving DecidableEq, Repr

/-- The JSON decoder for a page, `json.NewDecoder(resp.Body).Decode(&respBody)` seen as a
function of the body text: `none` is a decoding error. -/
abbrev PageDecoder := String → Option MultiResourceResp

/-- Lines 138-142: `params.Set(k, v)` for every value of every key of `addlParams`. -/
def copyParams (params : Values) : Values → Values
  | [] => params
  | (k, vSlice) :: rest => copyParams (vSlice.foldl (fun ps v => Values.Set ps k v) params) rest

/-- Lines 131-143 of `getMultiResource`: the parameters of the first request.
`addlParams` is `none` for a nil map. -/
def firstParams (client : Client) (addlParams : Option Values) : Values :=
  let params : Values := []
  let params :=
    if !(Values.Has (addlParams.getD []) "version") then Values.Set params "version" client.APIVersion
    else params
  let params := Values.Set params "limit" "100"
  match addlParams with
  | some ps => copyParams params ps
  | none => params

/-- Lines 167-184 of `getMultiResource`: from a `next` link to the path and parameters of
the follow-up call of `client.Get`; `none` when `getReqURL` returns an error. -/
def nextCall (apiVersion next : String) : Option (String × Option Values) :=
  let urlPath := if !hasPrefix next "/rest" then "/rest/" ++ next else next
  match getReqURL urlPath with
  | none => none
  | some requestURL =>
    if requestURL.Query.Get "version" = "" then
      some (urlPath, some (Values.Set requestURL.Query "version" apiVersion))
    else some (urlPath, none)

/-- The `for` loop of `getMultiResource` (lines 149-185), run for at most `fuel` pages;
`none` when the pages do not end within `fuel`. -/
def getMultiResourceLoop (dec : PageDecoder) (client : Client) (t : Transport)
    (apiVersion : String) :
    Nat → String → Option Values → List Resource → World →
      Option (Ret (List Resource) × World)
  | 0, _, _, _, _ => none
  | fuel + 1, urlPath, params, resources, w =>
    match client.Get t urlPath params w with
    | (Ret.error e, w1) => some (Ret.error e, w1)
    | (Ret.nilDeref, w1) => some (Ret.nilDeref, w1)
    | (Ret.ok resp, w1) =>
      match resp.Body.bind dec with
      | none => some (Ret.error GoError.decode, w1)
      | some respBody =>
        let resources := resources ++ respBody.Data
        if respBody.Links.Next = "" ∨ respBody.Data.length = 0 then some (Ret.ok resources, w1)
        else
          match nextCall apiVersion respBody.Links.Next with
          | none => some (Ret.error GoError.url, w1)
          | some (urlPath, params) =>
            getMultiResourceLoop dec client t apiVersion fuel urlPath params resources w1

/-- `getMultiResource`. -/
def getMultiResource (dec : PageDecoder) (client : Client) (t : Transport) (path : String)
    (addlParams : Option Values) (fuel : Nat) (w : World) :
    Option (Ret (List Resource) × World) :=
  let params := firstParams client addlParams
  let apiVersion := Values.Get params "version"
  getMultiResourceLoop dec client t apiVersion fuel path (some params) [] w

/-- The call `client.Get(urlPath, params)` is answered at round trip `k` by a response
below 400 whose body decodes to the page `p`. -/
def fetches (dec : PageDecoder) (client : Client) (t : Transport) (k : Nat)
    (urlPath : String) (params : Option Values) (p : MultiResourceResp) : Prop :=
  ∃ req resp body, buildRequest client "GET" urlPath params none = Except.ok req ∧
    t k req = Outcome.resp resp ∧ resp.StatusCode < 400 ∧ resp.Body = some body ∧
    dec body = some p

/-- The chain of pages `P1 .. Pn` is served to successive requests from round trip `k`
on, the first call being `client.Get(urlPath, params)`: every fetch succeeds, every page
but the last has a next link and records, and the last page is the first one whose next
link is empty or whose record list is empty. -/
def servesPages (dec : PageDecoder) (client : Client) (t : Transport) (apiVersion : String) :
    Nat → String → Option Values → List MultiResourceResp → Prop
  | _, _, _, [] => False
  | k, urlPath, params, [p] =>
    fetches dec client t k urlPath params p ∧ (p.Links.Next = "" ∨ p.Data.length = 0)
  | k, urlPath, params, p :: q :: rest =>
    fetches dec client t k urlPath params p ∧
      ¬ (p.Links.Next = "" ∨ p.Data.length = 0) ∧
      ∃ nextPath nextParams, nextCall apiVersion p.Links.Next = some (nextPath, nextParams) ∧
        servesPages dec client t apiVersion (k + 1) nextPath nextParams (q :: rest)

/-! ## The other verbs of the client (`client.go`) -/

/-- `(*Client).Post`. -/
def Client.Post (c : Client) (t : Transport) (urlPath : String) (params : Option Values)
    (body : Option (Except String String)) (w : World) : Ret Response × World :=
  c.send t "POST" urlPath params body w

/-- `(*Client).Put`. -/
def Client.Put (c : Client) (t : Transport) (urlPath : String)
    (body : Option (Except String String)) (w : World) : Ret Response × World :=
  c.send t "PUT" urlPath none body w

/-- `(*Client).Delete`. -/
def Client.Delete (c : Client) (t : Transport) (urlPath : String) (params : Option Values)
    (w : World) : Ret Response × World :=
  c.send t "DELETE" urlPath params none w

/-! ## Single resources and organizations (`resource.go`, `org.go`) -/

/-- The JSON decoder for a single-resource envelope, giving its `data`; `none` is a
decoding error. -/
abbrev ResourceDecoder := String → Option Resource

/-- `getSingleResource`. -/
def getSingleResource (dec : ResourceDecoder) (client : Client) (t : Transport)
    (path : String) (addlParams : Option Values) (w : World) : Ret Resource × World :=
  let params : Values := []
  let params :=
    if !(Values.Has (addlParams.getD []) "version") then Values.Set params "version" client.APIVersion
    else params
  let params :=
    match addlParams with
    | some ps => copyParams params ps
    | none => params
  match client.Get t path (some params) w with
  | (Ret.error e, w1) => (Ret.error e, w1)
  | (Ret.nilDeref, w1) => (Ret.nilDeref, w1)
  | (Ret.ok resp, w1) =>
    match resp.Body.bind dec with
    | none => (Ret.error GoError.decode, w1)
    | some data => (Ret.ok data, w1)

/-- `ProjectsService`; `client` is a pointer, `none` when nil. -/
structure ProjectsService where
  client : Option Client := none
  orgID : String := ""
deriving DecidableEq, Repr

/-- `TargetsService`; `client` is a pointer, `none` when nil. -/
structure TargetsService where
  client : Option Client := none
  orgID : String := ""
deriving DecidableEq, Repr

/-- `ContainerImagesService`; `client` is a pointer, `none` when nil. -/
structure ContainerImagesService where
  client : Option Client := none
  orgID : String := ""
deriving DecidableEq, Repr

/-- `OrgIssuesService`; `client` is a pointer, `none` when nil. -/
structure OrgIssuesService where
  client : Option Client := none
  orgID : String := ""
deriving DecidableEq, Repr

/-- `Org`. -/
structure Org where
  ID : String
  Name : String
  Slug : String
  Projects : ProjectsService
  Targets : TargetsService
  ContainerImages : ContainerImagesService
  Issues : OrgIssuesService
  client : Client
deriving DecidableEq, Repr

/-- `(*resource).intoOrg`. -/
def Resource.intoOrg (r : Resource) (client : Client) : Org :=
  { ID := r.ID,
    Name := r.Attributes.Name,
    Slug := r.Attributes.Slug,
    Projects := { client := some client, orgID := r.ID },
    Targets := { client := some client, orgID := r.ID },
    ContainerImages := { client := some client, orgID := r.ID },
    Issues := { client := some client, orgID := r.ID },
    client := client }

/-- Exactly `n` hexadecimal digits at the head of the text: what follows them. -/
def hexRun : Nat → List Char → Option (List Char)
  | 0, l => some l
  | _ + 1, [] => none
  | n + 1, ch :: rest => if ishex ch then hexRun n rest else none

/-- A hyphen at the head of the text: what follows it. -/
def hyphen : List Char → Option (List Char)
  | '-' :: rest => some rest
  | _ => none

/-- `isUUID`: the whole text matches
`^[0-9a-fA-F]{8}-[0-9a-fA-F]{4}-[0-9a-fA-F]{4}-[0-9a-fA-F]{4}-[0-9a-fA-F]{12}$`
(in Go's syntax `$` without flags is the end of the text). -/
def isUUID (value : String) : Bool :=
  match (((((((((hexRun 8 value.toList).bind hyphen).bind (hexRun 4)).bind hyphen).bind
      (hexRun 4)).bind hyphen).bind (hexRun 4)).bind hyphen).bind (hexRun 12)) with
  | some [] => true
  | _ => false

/-- `(*OrgsService).Get`; the service is its client. `fuel` bounds the pages followed by
`getMultiResource`. -/
def OrgsService.Get (dec1 : ResourceDecoder) (decN : PageDecoder) (client : Client)
    (t : Transport) (identifier : String) (fuel : Nat) (w : World) :
    Option (Ret Org × World) :=
  if isUUID identifier then
    let path := "/rest/orgs/" ++ identifier
    match getSingleResource dec1 client t path (some []) w with
    | (Ret.error e, w1) => some (Ret.error e, w1)
    | (Ret.nilDeref, w1) => some (Ret.nilDeref, w1)
    | (Ret.ok resp, w1) => some (Ret.ok (resp.intoOrg client), w1)
  else
    let path := "/rest/orgs"
    let params := Values.Set [] "slug" identifier
    match getMultiResource decN client t path (some params) fuel w with
    | none => none
    | some (Ret.error e, w1) => some (Ret.error e, w1)
    | some (Ret.nilDeref, w1) => some (Ret.nilDeref, w1)
    | some (Ret.ok multiResp, w1) =>
      match multiResp with
      | [] => some (Ret.error (GoError.errorf ("No org found for slug '" ++ identifier ++ "'")), w1)
      | first :: _ => some (Ret.ok (first.intoOrg client), w1)

/-! ## Projects (`project.go`) -/

/-- `Project`: the fields that hold text, and the back-references. -/
structure Project where
  ID : String := ""
  Name : String := ""
  Type_ : String := ""
  TargetFile : String := ""
  TargetReference : String := ""
  Origin : String := ""
  Status : String := ""
  orgID : String := ""
  client : Client
deriving DecidableEq, Repr

/-- `(*Project).ScanType`. -/
def Project.ScanType (p : Project) : String :=
  let containerTypes := ["deb", "linux", "dockerfile", "rpm", "apk"]
  let iacTypes :=
    ["k8sconfig", "helmconfig", "terraformconfig", "armconfig", "cloudformationconfig",
      "cloudconfig"]
  let codeTypes := ["sast"]
  if isInSlice p.Type_ containerTypes then "container"
  else if isInSlice p.Type_ iacTypes then "iac"
  else if isInSlice p.Type_ codeTypes then "sast"
  else "opensource"

/-! ## Ignores (`issue_ignore.go`) -/

/-- `ignoredBy`. -/
structure IgnoredBy where
  ID : String := ""
  Name : String := ""
  Email : String := ""
deriving DecidableEq, Repr

/-- `Ignore`; the two times are kept as text, `Path` holds the `module` of each entry. -/
structure Ignore where
  Reason : String := ""
  Created : String := ""
  Expires : Option String := none
  IgnoredBy : IgnoredBy := {}
  ReasonType : String := ""
  DisregardIfFixable : Bool := false
  Path : List String := []
deriving DecidableEq, Repr

/-- `ignoreByPath`, a map from path to ignore, as its list of entries. -/
abbrev IgnoreByPath := List (String × Ignore)

/-- `IgnoredIssuesByPath`, a map from issue ID to ignores by path, as its list of
entries. -/
abbrev IgnoredIssuesByPath := List (String × List IgnoreByPath)

/-- `IgnoredIssues`, a map from issue ID to ignores, as its list of entries. -/
abbrev IgnoredIssues := List (String × List Ignore)

/-- The map lookup `m[issueID]`. -/
def IgnoredIssues.lookup (m : IgnoredIssues) (issueID : String) : Option (List Ignore) :=
  match m with
  | [] => none
  | (k, igs) :: rest => if k = issueID then some igs else IgnoredIssues.lookup rest issueID

/-- `m[issueID] = append(m[issueID], ignore)`. -/
def IgnoredIssues.append (m : IgnoredIssues) (issueID : String) (ignore : Ignore) :
    IgnoredIssues :=
  match m with
  | [] => [(issueID, [ignore])]
  | (k, igs) :: rest =>
    if k = issueID then (k, igs ++ [ignore]) :: rest
    else (k, igs) :: IgnoredIssues.append rest issueID ignore

/-- The body of the innermost loop of `toIgnoredIssues`: the path is appended to the
ignore's `Path`, the ignore to the list of the issue. -/
def addPathIgnore (issueID : String) (acc : IgnoredIssues) (entry : String × Ignore) :
    IgnoredIssues :=
  IgnoredIssues.append acc issueID { entry.2 with Path := entry.2.Path ++ [entry.1] }

/-- `(*IgnoredIssuesByPath).toIgnoredIssues`; the maps are ranged over in the order of
their lists of entries. -/
def toIgnoredIssues (i : IgnoredIssuesByPath) : IgnoredIssues :=
  i.foldl
    (fun acc issue =>
      issue.2.foldl (fun acc ignorePath => ignorePath.foldl (addPathIgnore issue.1) acc) acc)
    []

/-- `IgnoreOptions`. -/
structure IgnoreOptions where
  IgnorePath : String := ""
  Reason : String := ""
  ReasonType : String := ""
  DisregardIfFixable : Bool := false
  Expires : String := ""
deriving DecidableEq, Repr

/-- `factor`. -/
structure Factor where
  Name : String := ""
  Description : String := ""
deriving DecidableEq, Repr

/-- `issueIdentifiers`. -/
structure IssueIdentifiers where
  CVE : List String := []
  CWE : List String := []
  GHSA : List String := []
deriving DecidableEq, Repr

/-- `patch`; the time is kept as text. -/
structure Patch where
  ID : String := ""
  URLs : List String := []
  Version : String := ""
  Comments : List String := []
  ModificationTime : String := ""
deriving DecidableEq, Repr

/-- `ignoreReason`. -/
structure IgnoreReason where
  Path : List String := []
  Reason : String := ""
  Source : String := ""
  IgnoredBy : IgnoredBy := {}
  ReasonType : String := ""
  DisregardIfFixable : Bool := false
deriving DecidableEq, Repr

/-- The field `Priority` of `Issue`. -/
structure IssuePriority where
  Score : Int := 0
  Factors : List Factor := []
deriving DecidableEq, Repr

/-- The field `IssueData` of `Issue`; the times are kept as text, `SemVer` (of type
`any`) as its JSON text, `none` when nil, the score as a rational number. -/
structure IssueData where
  ID : String := ""
  Title : String := ""
  Severity : String := ""
  URL : String := ""
  Description : String := ""
  Identifiers : IssueIdentifiers := {}
  Credit : List String := []
  ExploitMaturity : String := ""
  SemVer : Option String := none
  PublicationTime : String := ""
  DisclosureTime : String := ""
  CVSSv3 : String := ""
  CVSSScore : Rat := 0
  Language : String := ""
  Patches : List Patch := []
  NearestFixedInVersion : String := ""
  IsMaliciousPackage : Bool := false
deriving DecidableEq, Repr

/-- The field `FixInfo` of `Issue`. -/
structure FixInfo where
  IsUpgradable : Bool := false
  IsPinnable : Bool := false
  IsPatchable : Bool := false
  IsFixable : Bool := false
  IsPartiallyFixable : Bool := false
  NearestFixedInVersion : String := ""
  FixedIn : List String := []
deriving DecidableEq, Repr

/-- The field `Link` of `Issue`. -/
structure IssueLink where
  Paths : String := ""
deriving DecidableEq, Repr

/-- `Issue`; every field but the client has its zero value as default. -/
structure Issue where
  ID : String := ""
  IssueType : String := ""
  PkgName : String := ""
  PkgVersions : List String := []
  PriorityScore : Int := 0
  Priority : IssuePriority := {}
  IssueData : IssueData := {}
  IsPatched : Bool := false
  IsIgnored : Bool := false
  IgnoreReasons : List IgnoreReason := []
  FixInfo : FixInfo := {}
  Link : IssueLink := {}
  orgID : String := ""
  projectID : String := ""
  projectOrigin : String := ""
  client : Client
deriving DecidableEq, Repr

/-- The double quote. -/
def dq : String := String.mk [Char.ofNat 34]

/-- The message of the validation error of `AddIgnore` and `ReplaceIgnore`. -/
def reasonTypeMessage : String :=
  "ReasonType must be one of " ++ dq ++ "not-vulnerable" ++ dq ++ ", " ++ dq ++ "wont-fix" ++ dq ++
    ", " ++ dq ++ "temporary-ignore" ++ dq

/-- The path `v1/org/<orgID>/project/<projectID>/ignore/<issue ID>`. -/
def Issue.ignorePath (i : Issue) : String :=
  "v1/org/" ++ i.orgID ++ "/project/" ++ i.projectID ++ "/ignore/" ++ i.ID

/-- The `error` result of a call whose response is dropped. -/
def errorOnly (r : Ret Response × World) : Ret Unit × World :=
  match r with
  | (Ret.ok _, w) => (Ret.ok (), w)
  | (Ret.error e, w) => (Ret.error e, w)
  | (Ret.nilDeref, w) => (Ret.nilDeref, w)

/-- `(*Issue).AddIgnore`; `marshal` is `json.Marshal` on the options, which cannot fail
on this struct. -/
def Issue.AddIgnore (marshal : IgnoreOptions → String) (i : Issue) (t : Transport)
    (opts : IgnoreOptions) (w : World) : Ret Unit × World :=
  if opts.ReasonType ≠ "not-vulnerable" ∧ opts.ReasonType ≠ "wont-fix" ∧
      opts.ReasonType ≠ "temporary-ignore" then
    (Ret.error (GoError.errorf reasonTypeMessage), w)
  else
    errorOnly (i.client.Post t i.ignorePath none (some (Except.ok (marshal opts))) w)

/-- `(*Issue).ReplaceIgnore`. -/
def Issue.ReplaceIgnore (marshal : IgnoreOptions → String) (i : Issue) (t : Transport)
    (opts : IgnoreOptions) (w : World) : Ret Unit × World :=
  if opts.ReasonType ≠ "not-vulnerable" ∧ opts.ReasonType ≠ "wont-fix" ∧
      opts.ReasonType ≠ "temporary-ignore" then
    (Ret.error (GoError.errorf reasonTypeMessage), w)
  else
    errorOnly (i.client.Put t i.ignorePath (some (Except.ok (marshal opts))) w)

/-- The reading and decoding of the response in `(*Issue).GetIgnore`, on the result of
the call of `Get`. -/
def decodeIgnore (dec : String → Option Ignore) (r : Ret Response × World) :
    Ret Ignore × World :=
  match r with
  | (Ret.error e, w) => (Ret.error e, w)
  | (Ret.nilDeref, w) => (Ret.nilDeref, w)
  | (Ret.ok resp, w) =>
    match resp.Body with
    | none => (Ret.error GoError.read, w)
    | some bodyBytes =>
      match dec bodyBytes with
      | none => (Ret.error (GoError.errorf "Failed to parse ignore response body"), w)
      | some respBody => (Ret.ok respBody, w)

/-- `(*Issue).GetIgnore`; `dec` is `json.Unmarshal` into an `Ignore`. -/
def Issue.GetIgnore (dec : String → Option Ignore) (i : Issue) (t : Transport) (w : World) :
    Ret Ignore × World :=
  let path := "/v1/org/" ++ i.orgID ++ "/project/" ++ i.projectID ++ "/ignore/" ++ i.ID
  decodeIgnore dec (i.client.Get t path none w)

/-- `(*Issue).DeleteIgnore`. -/
def Issue.DeleteIgnore (i : Issue) (t : Transport) (w : World) : Ret Unit × World :=
  errorOnly (i.client.Delete t i.ignorePath none w)

/-! ## Issues of the REST API (`issue_v2.go`) -/

/-- `Data`; the time is kept as text. -/
structure Data where
  ID : String := ""
  Type_ : String := ""
  Source : String := ""
  UpdatedAt : String := ""
deriving DecidableEq, Repr

/-- `resolution`. -/
structure Resolution where
  Details : String := ""
  ResolvedAt : Option String := none
  Type_ : String := ""
deriving DecidableEq, Repr

/-- `IssueV2`; the times are kept as text, `none` for a nil pointer. -/
structure IssueV2 where
  ID : String := ""
  Key : String := ""
  Title : String := ""
  Status : String := ""
  EffectiveSecurityLevel : String := ""
  Ignored : Bool := false
  Type_ : String := ""
  CreatedAt : Option String := none
  UpdatedAt : Option String := none
  Classes : List Data := []
  Problems : List Data := []
  Resolution : Resolution := {}
  client : Client
  OrgID : String := ""
  ProjectID : String := ""
deriving DecidableEq, Repr

/-- `(*IssueV2).intoIssueV1`: the fields not listed in the composite literal keep their
zero values. -/
def IssueV2.intoIssueV1 (i : IssueV2) : Issue :=
  { ID := i.Key,
    IssueType := i.Type_,
    IsIgnored := i.Ignored,
    orgID := i.OrgID,
    projectID := i.ProjectID,
    client := i.client }

/-- `(*IssueV2).GetIgnore`. -/
def IssueV2.GetIgnore (dec : String → Option Ignore) (i : IssueV2) (t : Transport)
    (w : World) : Ret Ignore × World :=
  let issueV1 := i.intoIssueV1
  issueV1.GetIgnore dec t w

/-- `(*IssueV2).AddIgnore`. -/
def IssueV2.AddIgnore (marshal : IgnoreOptions → String) (i : IssueV2) (t : Transport)
    (opts : IgnoreOptions) (w : World) : Ret Unit × World :=
  let issueV1 := i.intoIssueV1
  issueV1.AddIgnore marshal t opts w

/-- `(*IssueV2).ReplaceIgnore`. -/
def IssueV2.ReplaceIgnore (marshal : IgnoreOptions → String) (i : IssueV2) (t : Transport)
    (opts : IgnoreOptions) (w : World) : Ret Unit × World :=
  let issueV1 := i.intoIssueV1
  issueV1.ReplaceIgnore marshal t opts w

/-- `(*IssueV2).DeleteIgnore`. -/
def IssueV2.DeleteIgnore (i : IssueV2) (t : Transport) (w : World) : Ret Unit × World :=
  let issueV1 := i.intoIssueV1
  issueV1.DeleteIgnore t w

/-! ## Creating an organization, cloning an integration (`org.go`) -/

/-- The local type `RequestBody` of `Create`. -/
structure CreateOrgBody where
  Name : String
  GroupID : String
  SourceOrgID : String
deriving DecidableEq, Repr

/-- The local type `NewOrg` of `Create`. -/
structure NewOrg where
  ID : String := ""
  Name : String := ""
  Slug : String := ""
deriving DecidableEq, Repr

/-- `(*OrgsService).Create`; the service is its client. `sourceOrgID` is a pointer, `none`
when nil: building the body dereferences it. `marshal` is `json.Marshal` on the body,
which cannot fail on this struct, `errText` is the method `Error` of an error value,
`dec` the JSON decoder for `NewOrg`. -/
def OrgsService.Create (marshal : CreateOrgBody → String) (errText : GoError → String)
    (dec : String → Option NewOrg) (client : Client) (t : Transport)
    (groupID name : String) (sourceOrgID : Option String) (w : World) : Ret Org × World :=
  match sourceOrgID with
  | none => (Ret.nilDeref, w)
  | some source =>
    let body : CreateOrgBody := { Name := name, GroupID := groupID, SourceOrgID := source }
    match client.Post t "/v1/org" none (some (Except.ok (marshal body))) w with
    | (Ret.error err, w1) =>
      (Ret.error (GoError.errorf ("Failed to create org: " ++ errText err)), w1)
    | (Ret.nilDeref, w1) => (Ret.nilDeref, w1)
    | (Ret.ok resp, w1) =>
      match resp.Body.bind dec with
      | none => (Ret.error GoError.decode, w1)
      | some respBody =>
        (Ret.ok
          { ID := respBody.ID,
            Name := respBody.Name,
            Slug := respBody.Slug,
            Projects := { client := some client, orgID := respBody.ID },
            Targets := { client := some client, orgID := respBody.ID },
            ContainerImages := {},
            Issues := {},
            client := client }, w1)

/-- `(*Org).CloneIntegration`. The error of `Post` is overwritten without a test, and
`resp.Body` is read next: after a failed `Post` the response is nil. `marshal` is
`json.Marshal` on the body map, `dec` the JSON decoder for a map of strings. -/
def Org.CloneIntegration (marshal : List (String × String) → String)
    (errText : GoError → String) (dec : String → Option (List (String × String)))
    (o : Org) (t : Transport) (integrationID destinationOrgID : String) (w : World) :
    Ret String × World :=
  let urlPath := "/v1/org/" ++ o.ID ++ "/integrations/" ++ integrationID ++ "/clone"
  let body := [("destinationOrgPublicId", destinationOrgID)]
  match o.client.Post t urlPath none (some (Except.ok (marshal body))) w with
  | (Ret.error _, w1) => (Ret.nilDeref, w1)
  | (Ret.nilDeref, w1) => (Ret.nilDeref, w1)
  | (Ret.ok resp, w1) =>
    match resp.Body.bind dec with
    | none =>
      (Ret.error (GoError.errorf ("Failed to clone integration; " ++ errText GoError.decode)),
        w1)
    | some respBody => (Ret.ok ((respBody.lookup "newIntegrationId").getD ""), w1)

/-- The invariant of an `Org` value: its four handles hold the client of the org and
the ID of the org. -/
def Org.handlesBound (o : Org) : Prop :=
  (o.Projects.client = some o.client ∧ o.Projects.orgID = o.ID) ∧
    (o.Targets.client = some o.client ∧ o.Targets.orgID = o.ID) ∧
    (o.ContainerImages.client = some o.client ∧ o.ContainerImages.orgID = o.ID) ∧
    (o.Issues.client = some o.client ∧ o.Issues.orgID = o.ID)

/-! ## Scenarios -/

/-- The round trips numbered `k`, `k + 1`, ... of request `req` are answered by the
responses `rs`, in order. -/
def serves (t : Transport) (req : Request) : Nat → List Response → Prop
  | _, [] => True
  | k, r :: rs => t k req = Outcome.resp r ∧ serves t req (k + 1) rs

/-- A status that `send` retries with backoff. -/
def retryable (r : Response) : Prop := r.StatusCode = 429 ∨ r.StatusCode = 500

/-- Argument of the `time.Sleep` of loop iteration `i` with `resp` in hand. -/
def loopSleep (i : Nat) (resp : Response) : Int := wrap64 (retryInterval resp i * Second)

/-- The transport answering the first round trips with the listed outcomes, and every
later one with `last`. -/
def scripted (l : List Outcome) (last : Outcome) : Transport := fun k _ => l.getD k last

/-- A response with a status and a body, without a `Retry-After` header. -/
def plainResponse (status : Int) (body : String) : Response :=
  { StatusCode := status, RetryAfter := none, Body := some body }

/-- The wait the retry policy asks for before the retry with index `i`, in nanoseconds:
`R + 5` seconds when the `Retry-After` header of the response in hand parses as `R`,
`2^i` seconds otherwise. -/
def policyWait (i : Nat) (resp : Response) : Int :=
  match Atoi resp.retryAfterHeader with
  | some R => (R + 5) * Second
  | none => 2 ^ i * Second

/-- A client used in examples. -/
def demoClient : Client := NewClient "token"

/-- The request `send` builds for `GET /rest/orgs` on `demoClient`. -/
def demoRequest : Request :=
  { Method := "GET", URL := "https://api.snyk.io/rest/orgs", Authorization := "token",
    Accept := "*/*", ContentType := "application/vnd.api+json", Body := none }

/-- Records `prefix0 .. prefix(n-1)`. -/
def demoRecords (n : Nat) (pre : String) : List Resource :=
  (List.range n).map fun i => { ID := pre ++ toString i }

/-- A first page of 8 records with the given next link. -/
def demoPage1 (next : String) : MultiResourceResp :=
  { Data := demoRecords 8 "a", Links := { Next := next } }

/-- A last page of 4 records. -/
def demoPage2 : MultiResourceResp := { Data := demoRecords 4 "b", Links := {} }

/-- A decoder that knows two bodies. -/
def demoDecoder (next : String) : PageDecoder := fun body =>
  if body = "page1" then some (demoPage1 next)
  else if body = "page2" then some demoPage2
  else none

/-- A server answering with the two pages, then closing. -/
def demoPages : Transport :=
  scripted [Outcome.resp (plainResponse 200 "page1"), Outcome.resp (plainResponse 200 "page2")]
    (Outcome.fail "closed")

/-- The next link of the first page, in the shape that has the prefix and the version. -/
def demoNext : String := "/rest/orgs/O/container_images?starting_after=c1&version=V1"

/-- The first request of the pagination example. -/
def demoPageRequest1 : Request :=
  { Method := "GET",
    URL := "https://api.snyk.io/rest/orgs/O/container_images?limit=100&version=2023-09-14~beta",
    Authorization := "token", Accept := "*/*", ContentType := "application/vnd.api+json",
    Body := none }

/-- The follow-up request of the pagination example. -/
def demoPageRequest2 : Request :=
  { Method := "GET",
    URL := "https://api.snyk.io/rest/orgs/O/container_images?starting_after=c1&version=V1",
    Authorization := "token", Accept := "*/*", ContentType := "application/vnd.api+json",
    Body := none }

/-- The URL composed for the link `/orgs/O/container_images?starting_after=c1` once the
prefix is put before it. -/
def demoURL : URL :=
  { URL.zero with Scheme := "https", Host := "api.snyk.io",
                  Path := "/rest/orgs/O/container_images", RawQuery := "starting_after=c1" }

/-- The call `client.Get(urlPath, params)` made as round trip `k` fails with the error
`e`: `Get` returns `e`, or it returns a response whose body does not decode and `e` is
the decoding error. -/
def fetchFails (dec : PageDecoder) (client : Client) (t : Transport) (k : Nat)
    (urlPath : String) (params : Option Values) (e : GoError) : Prop :=
  ∀ w : World, w.sent.length = k →
    (∃ w1, client.Get t urlPath params w = (Ret.error e, w1)) ∨
      (∃ resp w1, client.Get t urlPath params w = (Ret.ok resp, w1) ∧
        resp.Body.bind dec = none ∧ e = GoError.decode)

/-- The pages are served in order from round trip `k` on, each with a next link and
records, and the fetch that follows the last of them fails with `e`. -/
def servesThenFails (dec : PageDecoder) (client : Client) (t : Transport)
    (apiVersion : String) (e : GoError) :
    Nat → String → Option Values → List MultiResourceResp → Prop
  | k, urlPath, params, [] => fetchFails dec client t k urlPath params e
  | k, urlPath, params, p :: rest =>
    fetches dec client t k urlPath params p ∧
      ¬ (p.Links.Next = "" ∨ p.Data.length = 0) ∧
      ∃ nextPath nextParams, nextCall apiVersion p.Links.Next = some (nextPath, nextParams) ∧
        servesThenFails dec client t apiVersion e (k + 1) nextPath nextParams rest

/-- An issue used in examples. -/
def demoIssue : Issue := { ID := "I", orgID := "O", projectID := "P", client := demoClient }

/-- A stand-in for `json.Marshal` in examples. -/
def demoMarshal : IgnoreOptions → String := fun _ => "{}"

/-- The request `AddIgnore` builds for `demoIssue`. -/
def demoIgnoreRequest : Request :=
  { Method := "POST", URL := "https://api.snyk.io/v1/org/O/project/P/ignore/I",
    Authorization := "token", Accept := "*/*", ContentType := "application/json",
    Body := some "{}" }

/-- A server answering the first page, then 404. -/
def demoPageThen404 : Transport :=
  scripted [Outcome.resp (plainResponse 200 "page1"), Outcome.resp (plainResponse 404 "gone")]
    (Outcome.fail "closed")

/-- A server answering 500, then 200. -/
def demoBusyThenOk : Transport :=
  scripted [Outcome.resp (plainResponse 500 "busy"), Outcome.resp (plainResponse 200 "ok")]
    (Outcome.fail "closed")

/-- A server answering 200. -/
def demoOk : Transport :=
  scripted [Outcome.resp (plainResponse 200 "ok")] (Outcome.fail "closed")

/-- The request `ReplaceIgnore` builds for `demoIssue`. -/
def demoReplaceRequest : Request :=
  { Method := "PUT", URL := "https://api.snyk.io/v1/org/O/project/P/ignore/I",
    Authorization := "token", Accept := "*/*", ContentType := "application/json",
    Body := some "{}" }

/-- The flat shape the specification asks for, in its own words: the ignores of all
(path, ignore) entries under `issueID` in `m`, each with the path added at the end of
its path list. -/
def ignoresUnder (m : IgnoredIssuesByPath) (issueID : String) : List Ignore :=
  (m.filter fun issue => issue.1 = issueID).flatMap fun issue =>
    issue.2.flatMap fun ignorePath =>
      ignorePath.map fun entry => { entry.2 with Path := entry.2.Path ++ [entry.1] }

/-- A path-keyed fixture with two issues. -/
def demoIgnoresByPath : IgnoredIssuesByPath :=
  [("SNYK-1", [[("*", { Reason := "r1" })], [("a > b", { Reason := "r2", Path := ["x"] })]]),
   ("SNYK-2", [[("*", { Reason := "r3" }), ("c", { Reason := "r4" })]])]

/-- UUID-shaped, in the words of the specification: 8-4-4-4-12 hexadecimal digits of
either case, the groups separated by hyphens, nothing before or after. -/
def UUIDShaped (value : String) : Prop :=
  ∃ g1 g2 g3 g4 g5 : List Char,
    g1.length = 8 ∧ g2.length = 4 ∧ g3.length = 4 ∧ g4.length = 4 ∧ g5.length = 12 ∧
    (∀ ch ∈ g1 ++ g2 ++ g3 ++ g4 ++ g5,
      ('0' ≤ ch ∧ ch ≤ '9') ∨ ('a' ≤ ch ∧ ch ≤ 'f') ∨ ('A' ≤ ch ∧ ch ≤ 'F')) ∧
    value.toList = g1 ++ ('-' :: (g2 ++ ('-' :: (g3 ++ ('-' :: (g4 ++ ('-' :: g5)))))))

/-- The organization ID of `org_test.go`. -/
def testOrgID : String := "8bcff720-99a4-4442-bb35-31f7a74d27b0"

/-- The record of the fixture `org_get.json`. -/
def demoOrgRecord : Resource :=
  { ResourceType := "org", ID := testOrgID, Attributes := { Name := "org1", Slug := "org1-abc" } }

/-- A decoder that knows the body `org`. -/
def demoOrgDecoder : ResourceDecoder := fun body =>
  if body = "org" then some demoOrgRecord else none

/-- A decoder that knows the bodies `orgs`, one page with the record of the fixture, and
`none`, one page without records. -/
def demoOrgsDecoder : PageDecoder := fun body =>
  if body = "orgs" then some { Data := [demoOrgRecord], Links := {} }
  else if body = "none" then some { Data := [], Links := {} }
  else none

/-- A server answering 200 with the given body. -/
def demoServer (body : String) : Transport :=
  scripted [Outcome.resp (plainResponse 200 body)] (Outcome.fail "closed")

/-- The request of `TestOrgGet`. -/
def demoOrgRequest : Request :=
  { Method := "GET",
    URL := "https://api.snyk.io/rest/orgs/8bcff720-99a4-4442-bb35-31f7a74d27b0?version=2023-09-14~beta",
    Authorization := "token", Accept := "*/*", ContentType := "application/vnd.api+json",
    Body := none }

/-- The list request for the slug `org1-abc`. -/
def demoSlugRequest : Request :=
  { Method := "GET",
    URL := "https://api.snyk.io/rest/orgs?limit=100&slug=org1-abc&version=2023-09-14~beta",
    Authorization := "token", Accept := "*/*", ContentType := "application/vnd.api+json",
    Body := none }

/-- The parse of the suffix `/rest/orgs/ID?version=X`. -/
def demoSuffixURL : URL :=
  { URL.zero with Path := "/rest/orgs/ID", RawQuery := "version=X" }

/-- The parse of `https://api.snyk.io/rest/orgs/ID?version=X`. -/
def demoJoinedURL : URL :=
  { URL.zero with Scheme := "https", Host := "api.snyk.io", Path := "/rest/orgs/ID",
                  RawQuery := "version=X" }

/-- The parse of the suffix `v1/org/X`. -/
def demoRelativeURL : URL := { URL.zero with Path := "v1/org/X" }

/-- An issue of the REST API used in examples. -/
def demoIssueV2 : IssueV2 :=
  { ID := "uuid", Key := "I", Title := "title", Status := "open", Ignored := true,
    Type_ := "code", client := demoClient, OrgID := "O", ProjectID := "P" }

/-- A stand-in for `json.Marshal` on the body of `Create`. -/
def demoMarshalOrg : CreateOrgBody → String := fun _ => "{}"

/-- A stand-in for the method `Error`. -/
def demoErrText : GoError → String := fun _ => "failed"

/-- A decoder for `NewOrg` that knows the body `org`. -/
def demoNewOrgDecoder : String → Option NewOrg := fun body =>
  if body = "org" then some { ID := "X", Name := "org1", Slug := "org1-abc" } else none

/-- The request of `Create` on `demoClient`. -/
def demoCreateRequest : Request :=
  { Method := "POST", URL := "https://api.snyk.io/v1/org", Authorization := "token",
    Accept := "*/*", ContentType := "application/json", Body := some "{}" }

/-- The org that `Create` returns for the body `org`. -/
def demoCreatedOrg : Org :=
  { ID := "X", Name := "org1", Slug := "org1-abc",
    Projects := { client := some demoClient, orgID := "X" },
    Targets := { client := some demoClient, orgID := "X" },
    ContainerImages := { client := none, orgID := "" },
    Issues := { client := none, orgID := "" },
    client := demoClient }

/-- A stand-in for `json.Marshal` on a map of strings. -/
def demoMarshalMap : List (String × String) → String := fun _ => "{}"

/-- A decoder for a map of strings that knows no body. -/
def demoMapDecoder : String → Option (List (String × String)) := fun _ => none

/-- A server that closes every connection. -/
def demoClosed : Transport := scripted [] (Outcome.fail "closed")

/-- The request of `CloneIntegration` of integration `N` on `demoCreatedOrg`. -/
def demoCloneRequest : Request :=
  { Method := "POST", URL := "https://api.snyk.io/v1/org/X/integrations/N/clone",
    Authorization := "token", Accept := "*/*", ContentType := "application/json",
    Body := some "{}" }

/-- The URL is at the origin of `baseURL`: scheme `https`, host `api.snyk.io`, no user
information, and not opaque. -/
def URL.atBaseOrigin (u : URL) : Prop :=
  u.Scheme = "https" ∧ u.Host = "api.snyk.io" ∧ u.User = none ∧ u.Opaque = ""

/-- The text goes on after an authority with a path, a query or a fragment, or ends: it
is empty or begins with `/`, `?` or `#`. -/
def afterAuthority (T : List Char) : Prop :=
  T = [] ∨ ∃ c rest, T = c :: rest ∧ (c = '/' ∨ c = '?' ∨ c = '#')

/-- The text `https://api.snyk.io`. -/
def originText : List Char := "https://api.snyk.io".toList

/-- The URL composed for the suffix `http://evil.example/x?y=1`. -/
def demoConfinedURL : URL :=
  { URL.zero with Scheme := "https", Host := "api.snyk.io", Path := "/x", RawQuery := "y=1" }

/-- The call `client.Get(urlPath, params)` made as round trip `k` gets a response that
`send` retries, and a later round trip of the same request fails at the network: either
the responses `r0 :: rs` (at most seven) are all 429 or 500 and the round trip after them
fails, or the response is 502 and the round trip after it fails. -/
def fetchAborts (client : Client) (t : Transport) (k : Nat) (urlPath : String)
    (params : Option Values) : Prop :=
  ∃ req r0 rs e, buildRequest client "GET" urlPath params none = Except.ok req ∧
    serves t req k (r0 :: rs) ∧ t (k + (rs.length + 1)) req = Outcome.fail e ∧
    ((rs.length < 7 ∧ ∀ x ∈ r0 :: rs, retryable x) ∨ (rs = [] ∧ r0.StatusCode = 502))

/-- The pages are served in order from round trip `k` on, each with a next link and
records, and the fetch that follows the last of them is answered 429, 500 or 502 and
then fails on a retry. -/
def servesThenAborts (dec : PageDecoder) (client : Client) (t : Transport)
    (apiVersion : String) :
    Nat → String → Option Values → List MultiResourceResp → Prop
  | k, urlPath, params, [] => fetchAborts client t k urlPath params
  | k, urlPath, params, p :: rest =>
    fetches dec client t k urlPath params p ∧
      ¬ (p.Links.Next = "" ∨ p.Data.length = 0) ∧
      ∃ nextPath nextParams, nextCall apiVersion p.Links.Next = some (nextPath, nextParams) ∧
        servesThenAborts dec client t apiVersion (k + 1) nextPath nextParams rest

/-- A server answering the first page, then 500, then closing the connection. -/
def demoPageThenReset : Transport :=
  scripted [Outcome.resp (plainResponse 200 "page1"), Outcome.resp (plainResponse 500 "busy")]
    (Outcome.fail "connection reset")

/-- A caller mapping with one value per key, overriding both defaults. -/
def demoParams : Values := [("version", ["V"]), ("limit", ["10"]), ("slug", ["s"])]

/-- The request `getMultiResource` builds first for `/rest/orgs` and `demoParams`. -/
def demoParamsRequest : Request :=
  { demoRequest with URL := "https://api.snyk.io/rest/orgs?limit=10&slug=s&version=V" }

/-- A server answering with the last page, then closing. -/
def demoLastPage : Transport :=
  scripted [Outcome.resp (plainResponse 200 "page2")] (Outcome.fail "closed")

/-- A path segment that is written and read back as it is, and that `path.Clean` keeps:
not empty, not `.` and not `..`, without a slash and without a byte that `shouldEscape`
escapes in a path (so it is made of letters, digits and `- _ . ~ $ & + , : ; = @`). -/
def plainSegment (s : List Char) : Prop :=
  s ≠ [] ∧ s ≠ ['.'] ∧ s ≠ ['.', '.'] ∧
    ∀ c ∈ s, shouldEscape c Encoding.encodePath = false ∧ c ≠ '/'

instance plainSegment_decidable : DecidablePred plainSegment := fun s => by
  unfold plainSegment
  infer_instance

/-- The segments, each with a slash before it. -/
def slashed (segs : List (List Char)) : List Char :=
  segs.flatMap fun s => '/' :: s

/-- A slash, or nothing. -/
def slashIf (b : Bool) : List Char := if b then ['/'] else []

/-- The URL `https://api.snyk.io` with the path `T`, and nothing else. -/
def originURL (T : List Char) : URL :=
  { URL.zero with Scheme := "https", Host := "api.snyk.io", Path := String.mk T }

/-! # Theorems -/

/-! ## Lemmas on the retry loop -/

theorem isInSlice_retry_iff (r : Response) :
    isInSlice r.StatusCode retryResponseCodes = true ↔ retryable r := by
  unfold retryable retryResponseCodes isInSlice isInSlice isInSlice
  by_cases h1 : r.StatusCode = 429
  · simp [h1]
  · by_cases h2 : r.StatusCode = 500
    · simp [h2]
    · simp [h1, h2]

theorem isInSlice_retry_false (r : Response) (h : ¬ retryable r) :
    isInSlice r.StatusCode retryResponseCodes = false := by
  cases hb : isInSlice r.StatusCode retryResponseCodes with
  | false => rfl
  | true => exact absurd ((isInSlice_retry_iff r).1 hb) h

theorem serves_append (t : Transport) (req : Request) :
    ∀ (rs : List Response) (k : Nat) (r : Response),
      serves t req k (rs ++ [r]) →
        serves t req k rs ∧ t (k + rs.length) req = Outcome.resp r := by
  intro rs
  induction rs with
  | nil => intro k r h; exact ⟨trivial, by simpa [serves] using h.1⟩
  | cons x xs ih =>
    intro k r h
    obtain ⟨h1, h2⟩ := h
    obtain ⟨h3, h4⟩ := ih (k + 1) r h2
    refine ⟨⟨h1, h3⟩, ?_⟩
    have : k + (x :: xs).length = k + 1 + xs.length := by simp; omega
    rw [this]; exact h4

/-- The loop stops at the first response that is not retryable: `rs` are the retryable
responses received inside the loop, `r` the one that ends it. -/
theorem retryLoop_break (t : Transport) (req : Request) :
    ∀ (is : List Nat) (resp : Response) (w : World) (rs : List Response) (r : Response),
      rs.length < is.length →
      serves t req w.sent.length (rs ++ [r]) →
      (∀ x ∈ rs, retryable x) → ¬ retryable r →
      retryLoop t req is resp w =
        (Ret.ok r, { sent := w.sent ++ List.replicate (rs.length + 1) req,
                     slept := w.slept ++ List.zipWith loopSleep is (resp :: rs) }) := by
  intro is
  induction is with
  | nil => intro resp w rs r hlen; simp at hlen
  | cons i is ih =>
    intro resp w rs r hlen hs hret hr
    cases rs with
    | nil =>
      have h0 : t w.sent.length req = Outcome.resp r := hs.1
      simp [retryLoop, httpClientDo, World.sleep, h0, isInSlice_retry_false r hr, loopSleep]
    | cons r1 rs1 =>
      have h0 : t w.sent.length req = Outcome.resp r1 := hs.1
      have h1 : isInSlice r1.StatusCode retryResponseCodes = true :=
        (isInSlice_retry_iff r1).2 (hret r1 (by simp))
      have hlen1 : rs1.length < is.length := by simpa using hlen
      have hs1 : serves t req (w.sent ++ [req]).length (rs1 ++ [r]) := by
        simpa using hs.2
      have key := ih r1 { sent := w.sent ++ [req],
                          slept := w.slept ++ [wrap64 (retryInterval resp i * Second)] }
        rs1 r hlen1 hs1 (fun x hx => hret x (by simp [hx])) hr
      simp only [retryLoop, httpClientDo, World.sleep, h0, h1]
      simp only [Bool.not_true, Bool.false_eq_true, if_false]
      rw [key]
      simp [loopSleep, List.replicate_succ]

/-- The loop runs out of iterations: every response received inside it is retryable. -/
theorem retryLoop_exhaust (t : Transport) (req : Request) :
    ∀ (is : List Nat) (resp : Response) (w : World) (rs : List Response),
      rs.length = is.length →
      serves t req w.sent.length rs →
      (∀ x ∈ rs, retryable x) →
      retryLoop t req is resp w =
        (Ret.ok (rs.getLastD resp),
         { sent := w.sent ++ List.replicate rs.length req,
           slept := w.slept ++ List.zipWith loopSleep is (resp :: rs) }) := by
  intro is
  induction is with
  | nil =>
    intro resp w rs hlen _ _
    have : rs = [] := List.length_eq_zero.mp (by simpa using hlen)
    subst this
    simp [retryLoop]
  | cons i is ih =>
    intro resp w rs hlen hs hret
    cases rs with
    | nil => simp at hlen
    | cons r1 rs1 =>
      have h0 : t w.sent.length req = Outcome.resp r1 := hs.1
      have h1 : isInSlice r1.StatusCode retryResponseCodes = true :=
        (isInSlice_retry_iff r1).2 (hret r1 (by simp))
      have hlen1 : rs1.length = is.length := by simpa using hlen
      have hs1 : serves t req (w.sent ++ [req]).length rs1 := by
        simpa using hs.2
      have key := ih r1 { sent := w.sent ++ [req],
                          slept := w.slept ++ [wrap64 (retryInterval resp i * Second)] }
        rs1 hlen1 hs1 (fun x hx => hret x (by simp [hx]))
      simp only [retryLoop, httpClientDo, World.sleep, h0, h1]
      simp only [Bool.not_true, Bool.false_eq_true, if_false]
      rw [key]
      have hlast : rs1.getLastD r1 = (r1 :: rs1).getLastD resp := by
        cases rs1 <;> rfl
      rw [hlast]
      simp [loopSleep, List.replicate_succ]

/-- A round trip that fails inside the loop: the next statement reads the status of a
nil response. -/
theorem retryLoop_fail (t : Transport) (req : Request) :
    ∀ (is : List Nat) (resp : Response) (w : World) (rs : List Response) (e : String),
      rs.length < is.length →
      serves t req w.sent.length rs →
      t (w.sent.length + rs.length) req = Outcome.fail e →
      (∀ x ∈ rs, retryable x) →
      retryLoop t req is resp w =
        (Ret.nilDeref, { sent := w.sent ++ List.replicate (rs.length + 1) req,
                         slept := w.slept ++ List.zipWith loopSleep is (resp :: rs) }) := by
  intro is
  induction is with
  | nil => intro resp w rs e hlen; simp at hlen
  | cons i is ih =>
    intro resp w rs e hlen hs hf hret
    cases rs with
    | nil =>
      have h0 : t w.sent.length req = Outcome.fail e := by simpa using hf
      simp [retryLoop, httpClientDo, World.sleep, h0, loopSleep]
    | cons r1 rs1 =>
      have h0 : t w.sent.length req = Outcome.resp r1 := hs.1
      have h1 : isInSlice r1.StatusCode retryResponseCodes = true :=
        (isInSlice_retry_iff r1).2 (hret r1 (by simp))
      have hlen1 : rs1.length < is.length := by simpa using hlen
      have hs1 : serves t req (w.sent ++ [req]).length rs1 := by
        simpa using hs.2
      have hf1 : t ((w.sent ++ [req]).length + rs1.length) req = Outcome.fail e := by
        have : (w.sent ++ [req]).length + rs1.length = w.sent.length + (r1 :: rs1).length := by
          simp; omega
        rw [this]; exact hf
      have key := ih r1 { sent := w.sent ++ [req],
                          slept := w.slept ++ [wrap64 (retryInterval resp i * Second)] }
        rs1 e hlen1 hs1 hf1 (fun x hx => hret x (by simp [hx]))
      simp only [retryLoop, httpClientDo, World.sleep, h0, h1]
      simp only [Bool.not_true, Bool.false_eq_true, if_false]
      rw [key]
      simp [loopSleep, List.replicate_succ]

/-! ## Lemmas on the stages of `send` -/

theorem wrap64_id (x : Int) (h1 : -9223372036854775808 ≤ x) (h2 : x < 9223372036854775808) :
    wrap64 x = x := by
  unfold wrap64
  have e63 : (2 : Int) ^ 63 = 9223372036854775808 := by norm_num
  have e64 : (2 : Int) ^ 64 = 18446744073709551616 := by norm_num
  rw [e63, e64]
  omega

theorem Atoi_absent (resp : Response) (h : resp.RetryAfter = none) :
    Atoi resp.retryAfterHeader = none := by
  simp [Response.retryAfterHeader, h]
  rfl

/-- Without a parsable header the interval of iteration `i <= 6` is `2^i` seconds. -/
theorem loopSleep_backoff (i : Nat) (resp : Response) (hi : i ≤ 6)
    (h : Atoi resp.retryAfterHeader = none) : loopSleep i resp = 2 ^ i * Second := by
  unfold loopSleep retryInterval Second
  rw [h]
  interval_cases i <;> exact wrap64_id _ (by norm_num) (by norm_num)

/-- With a header that parses as `R`, in the range where nothing overflows, the interval is
`R + 5` seconds. -/
theorem loopSleep_retryAfter (i : Nat) (resp : Response) (R : Int)
    (h : Atoi resp.retryAfterHeader = some R) (hlo : -5 ≤ R) (hhi : R ≤ 9223372031) :
    loopSleep i resp = (R + 5) * Second := by
  unfold loopSleep retryInterval Second
  rw [h]
  show wrap64 (wrap64 (R + 5) * 1000000000) = (R + 5) * 1000000000
  rw [wrap64_id (R + 5) (by omega) (by omega)]
  exact wrap64_id _ (by omega) (by omega)

theorem retryStage_skip (t : Transport) (req : Request) (r0 : Response) (w : World)
    (h : ¬ retryable r0) : retryStage t req r0 w = (Ret.ok r0, w) := by
  simp [retryStage, isInSlice_retry_false r0 h]

theorem gatewayStage_skip (t : Transport) (req : Request) (r : Response) (w : World)
    (h : r.StatusCode ≠ 502) : gatewayStage t req r w = (Ret.ok r, w) := by
  simp [gatewayStage, h]

theorem thirty_seconds : wrap64 (30 * Second) = 30 * Second := by
  unfold Second
  exact wrap64_id _ (by norm_num) (by norm_num)

theorem gatewayStage_retry (t : Transport) (req : Request) (r r2 : Response) (w : World)
    (h : r.StatusCode = 502) (hnext : t w.sent.length req = Outcome.resp r2) :
    gatewayStage t req r w =
      (Ret.ok r2, { sent := w.sent ++ [req], slept := w.slept ++ [30 * Second] }) := by
  simp [gatewayStage, h, httpClientDo, World.sleep, hnext, thirty_seconds]

theorem gatewayStage_fail (t : Transport) (req : Request) (r : Response) (w : World)
    (e : String) (h : r.StatusCode = 502) (hnext : t w.sent.length req = Outcome.fail e) :
    gatewayStage t req r w =
      (Ret.nilDeref, { sent := w.sent ++ [req], slept := w.slept ++ [30 * Second] }) := by
  simp [gatewayStage, h, httpClientDo, World.sleep, hnext, thirty_seconds]

/-- The effects of the 502 stage do not depend on the outcome of its round trip. -/
theorem gatewayStage_world (t : Transport) (req : Request) (r : Response) (w : World) :
    (gatewayStage t req r w).2 =
      if r.StatusCode = 502 then
        { sent := w.sent ++ [req], slept := w.slept ++ [30 * Second] }
      else w := by
  by_cases h : r.StatusCode = 502
  · cases ho : t w.sent.length req with
    | resp r2 => rw [gatewayStage_retry t req r r2 w h ho]; simp [h]
    | fail e => rw [gatewayStage_fail t req r w e h ho]; simp [h]
  · rw [gatewayStage_skip t req r w h]; simp [h]

theorem retryable_ne_502 (r : Response) (h : retryable r) : r.StatusCode ≠ 502 := by
  rcases h with h | h <;> rw [h] <;> decide

theorem retryable_ge_400 (r : Response) (h : retryable r) : r.StatusCode ≥ 400 := by
  rcases h with h | h <;> rw [h] <;> decide

/-- `transmit` once the first round trip and the retry stage have given a response. -/
theorem transmit_stages (t : Transport) (req : Request) (w w2 : World) (r0 r1 : Response)
    (h0 : t w.sent.length req = Outcome.resp r0)
    (hstage : retryStage t req r0 (httpClientDo t req w).2 = (Ret.ok r1, w2)) :
    transmit t req w =
      (match (gatewayStage t req r1 w2).1 with
       | Ret.ok r2 => finish r2
       | Ret.error e => Ret.error e
       | Ret.nilDeref => Ret.nilDeref,
       (gatewayStage t req r1 w2).2) := by
  have hdo : httpClientDo t req w = (Outcome.resp r0, (httpClientDo t req w).2) := by
    simp [httpClientDo, h0]
  unfold transmit
  rw [hdo]
  simp only [hstage]
  rcases hg : gatewayStage t req r1 w2 with ⟨res, w3⟩
  cases res <;> rfl

/-- The first round trip and the retry stage when the run of retryable responses `rs`
(at most seven) is ended by a response `r` that is not retryable. -/
theorem retryStage_stop (t : Transport) (req : Request) (w : World)
    (rs : List Response) (r : Response)
    (hlen : rs.length ≤ 7)
    (hs : serves t req w.sent.length (rs ++ [r]))
    (hret : ∀ x ∈ rs, retryable x) (hr : ¬ retryable r) :
    ∃ r0, t w.sent.length req = Outcome.resp r0 ∧
      retryStage t req r0 (httpClientDo t req w).2 =
        (Ret.ok r, { sent := w.sent ++ List.replicate (rs.length + 1) req,
                     slept := w.slept ++ List.zipWith loopSleep (List.range 7) rs }) := by
  cases rs with
  | nil =>
    refine ⟨r, hs.1, ?_⟩
    rw [retryStage_skip t req r _ hr]
    simp [httpClientDo]
  | cons r0 rs1 =>
    refine ⟨r0, hs.1, ?_⟩
    have hr0 : isInSlice r0.StatusCode retryResponseCodes = true :=
      (isInSlice_retry_iff r0).2 (hret r0 (by simp))
    have hs1 : serves t req (httpClientDo t req w).2.sent.length (rs1 ++ [r]) := by
      simpa [httpClientDo] using hs.2
    have key := retryLoop_break t req (List.range (defaultMaxRetries + 1)) r0
      (httpClientDo t req w).2 rs1 r (by simp [defaultMaxRetries] at *; omega) hs1
      (fun x hx => hret x (by simp [hx])) hr
    simp only [retryStage, hr0, if_true]
    rw [key]
    simp [httpClientDo, defaultMaxRetries, List.replicate_succ]

/-- The first round trip and the retry stage when the first eight responses are all
retryable: the loop gives up with the eighth in hand. -/
theorem retryStage_giveUp (t : Transport) (req : Request) (w : World)
    (r0 : Response) (rs : List Response)
    (hlen : rs.length = 7)
    (hs : serves t req w.sent.length (r0 :: rs))
    (hret : ∀ x ∈ r0 :: rs, retryable x) :
    retryStage t req r0 (httpClientDo t req w).2 =
      (Ret.ok (rs.getLastD r0),
       { sent := w.sent ++ List.replicate 8 req,
         slept := w.slept ++ List.zipWith loopSleep (List.range 7) (r0 :: rs) }) := by
  have hr0 : isInSlice r0.StatusCode retryResponseCodes = true :=
    (isInSlice_retry_iff r0).2 (hret r0 (by simp))
  have hs1 : serves t req (httpClientDo t req w).2.sent.length rs := by
    simpa [httpClientDo] using hs.2
  have key := retryLoop_exhaust t req (List.range (defaultMaxRetries + 1)) r0
    (httpClientDo t req w).2 rs (by simp [defaultMaxRetries, hlen]) hs1
    (fun x hx => hret x (by simp [hx]))
  simp only [retryStage, hr0, if_true]
  rw [key, hlen]
  simp [httpClientDo, defaultMaxRetries, List.replicate_succ]

/-- `send` when every response up to the eighth is retryable. -/
theorem send_giveUp (c : Client) (t : Transport) (method urlPath : String)
    (params : Option Values) (body : Option (Except String String)) (req : Request)
    (w : World) (r0 : Response) (rs : List Response)
    (hreq : buildRequest c method urlPath params body = Except.ok req)
    (hlen : rs.length = 7)
    (hs : serves t req w.sent.length (r0 :: rs))
    (hret : ∀ x ∈ r0 :: rs, retryable x) :
    c.send t method urlPath params body w =
      (Ret.error (GoError.errorf ("error: " ++ getRespBody (rs.getLastD r0))),
       { sent := w.sent ++ List.replicate 8 req,
         slept := w.slept ++ List.zipWith loopSleep (List.range 7) (r0 :: rs) }) := by
  have hlast : retryable (rs.getLastD r0) := by
    cases rs with
    | nil => exact hret r0 (by simp)
    | cons x xs =>
      have hmem : (x :: xs).getLastD r0 ∈ x :: xs := by
        rw [List.getLastD_cons]
        have := List.getLast_mem (List.cons_ne_nil x xs)
        rw [List.getLast_eq_getLastD] at this
        exact this
      exact hret _ (List.mem_cons_of_mem _ hmem)
  have hst := retryStage_giveUp t req w r0 rs hlen hs hret
  have h := transmit_stages t req w _ r0 _ hs.1 hst
  rw [gatewayStage_skip t req _ _ (retryable_ne_502 _ hlast)] at h
  simp only [Client.send, hreq]
  rw [h]
  have hge : (rs.getLastD r0).StatusCode ≥ 400 := retryable_ge_400 _ hlast
  simp only [finish, hge, if_true]

theorem demo_buildRequest :
    buildRequest demoClient "GET" "/rest/orgs" none none = Except.ok demoRequest := by
  decide!

theorem SetMaxRetries_buildRequest (c : Client) (n : Int) (method urlPath : String)
    (params : Option Values) (body : Option (Except String String)) :
    buildRequest (c.SetMaxRetries n) method urlPath params body =
      buildRequest c method urlPath params body := rfl

/-- Sleeps of a run of responses without a parsable header: powers of two. -/
theorem zipWith_loopSleep_backoff :
    ∀ (rs : List Response) (s n : Nat), rs.length ≤ n → s + n ≤ 7 →
      (∀ x ∈ rs, Atoi x.retryAfterHeader = none) →
      List.zipWith loopSleep (List.range' s n) rs =
        (List.range' s rs.length).map (fun i => 2 ^ i * Second) := by
  intro rs
  induction rs with
  | nil => intro s n _ _ _; simp
  | cons x xs ih =>
    intro s n hlen hsn hhdr
    cases n with
    | zero => simp at hlen
    | succ m =>
      have hx := loopSleep_backoff s x (by omega) (hhdr x (by simp))
      have hrec := ih (s + 1) m (by simpa using hlen) (by omega)
        (fun y hy => hhdr y (by simp [hy]))
      simp [List.range'_succ, hx, hrec]

/-- Sleeps of a run of responses whose headers, when they parse, are in range: what the
retry policy asks for. -/
theorem zipWith_loopSleep_policy :
    ∀ (rs : List Response) (s n : Nat), rs.length ≤ n → s + n ≤ 7 →
      (∀ x ∈ rs, ∀ R, Atoi x.retryAfterHeader = some R → -5 ≤ R ∧ R ≤ 9223372031) →
      List.zipWith loopSleep (List.range' s n) rs =
        List.zipWith policyWait (List.range' s rs.length) rs := by
  intro rs
  induction rs with
  | nil => intro s n _ _ _; simp
  | cons x xs ih =>
    intro s n hlen hsn hhdr
    cases n with
    | zero => simp at hlen
    | succ m =>
      have hx : loopSleep s x = policyWait s x := by
        unfold policyWait
        cases hA : Atoi x.retryAfterHeader with
        | none => exact loopSleep_backoff s x (by omega) hA
        | some R =>
          obtain ⟨h1, h2⟩ := hhdr x (by simp) R hA
          exact loopSleep_retryAfter s x R hA h1 h2
      have hrec := ih (s + 1) m (by simpa using hlen) (by omega)
        (fun y hy => hhdr y (by simp [hy]))
      simp [List.range'_succ, hx, hrec]

/-! ## The claims on `Client.send` -/

/-- C1 (the code differs): when the first eight responses all have status 500, `send`
issues 1 + 7 requests: the loop `for i := 0; i <= defaultMaxRetries; i++` makes
`defaultMaxRetries + 1` retries, one more than the retry budget of 6. -/
theorem send_all_500_issues_eight_requests (c : Client) (t : Transport)
    (method urlPath : String) (params : Option Values)
    (body : Option (Except String String)) (req : Request) (w : World)
    (r0 : Response) (rs : List Response)
    (hreq : buildRequest c method urlPath params body = Except.ok req)
    (hlen : rs.length = 7)
    (hs : serves t req w.sent.length (r0 :: rs))
    (h500 : ∀ x ∈ r0 :: rs, x.StatusCode = 500) :
    (c.send t method urlPath params body w).2.sent =
      w.sent ++ List.replicate (1 + (defaultMaxRetries + 1)) req := by
  rw [send_giveUp c t method urlPath params body req w r0 rs hreq hlen hs
    (fun x hx => Or.inr (h500 x hx))]
  rfl

theorem send_all_500_issues_eight_requests_witness :
    (demoClient.send (scripted [] (Outcome.resp (plainResponse 500 "boom"))) "GET" "/rest/orgs"
        none none World.init).2.sent =
      World.init.sent ++ List.replicate (1 + (defaultMaxRetries + 1)) demoRequest :=
  send_all_500_issues_eight_requests demoClient
    (scripted [] (Outcome.resp (plainResponse 500 "boom"))) "GET" "/rest/orgs" none none
    demoRequest World.init (plainResponse 500 "boom")
    (List.replicate 7 (plainResponse 500 "boom")) demo_buildRequest rfl
    ⟨rfl, rfl, rfl, rfl, rfl, rfl, rfl, rfl, trivial⟩
    (by intro x hx; simp at hx; rw [hx]; rfl)

/-- C2 (the code differs): whatever count `n` was given to `SetMaxRetries`, a request
whose first eight responses are all 429 or 500 is still retried seven times: the loop
bound is the constant `defaultMaxRetries`, the field `maxRetries` is never read. -/
theorem send_after_SetMaxRetries_retries_seven_times (c : Client) (n : Int)
    (t : Transport) (method urlPath : String) (params : Option Values)
    (body : Option (Except String String)) (req : Request) (w : World)
    (r0 : Response) (rs : List Response)
    (hreq : buildRequest c method urlPath params body = Except.ok req)
    (hlen : rs.length = 7)
    (hs : serves t req w.sent.length (r0 :: rs))
    (hret : ∀ x ∈ r0 :: rs, retryable x) :
    ((c.SetMaxRetries n).send t method urlPath params body w).2.sent =
        w.sent ++ req :: List.replicate 7 req ∧
      (c.SetMaxRetries n).send t method urlPath params body w =
        c.send t method urlPath params body w := by
  have hreq2 : buildRequest (c.SetMaxRetries n) method urlPath params body = Except.ok req := by
    rw [SetMaxRetries_buildRequest]; exact hreq
  constructor
  · rw [send_giveUp (c.SetMaxRetries n) t method urlPath params body req w r0 rs hreq2 hlen hs
      hret]
    rfl
  · simp only [Client.send, hreq, hreq2]

theorem send_after_SetMaxRetries_retries_seven_times_witness :
    ((demoClient.SetMaxRetries 0).send (scripted [] (Outcome.resp (plainResponse 500 "boom")))
          "GET" "/rest/orgs" none none World.init).2.sent =
        World.init.sent ++ demoRequest :: List.replicate 7 demoRequest ∧
      (demoClient.SetMaxRetries 0).send (scripted [] (Outcome.resp (plainResponse 500 "boom")))
          "GET" "/rest/orgs" none none World.init =
        demoClient.send (scripted [] (Outcome.resp (plainResponse 500 "boom")))
          "GET" "/rest/orgs" none none World.init :=
  send_after_SetMaxRetries_retries_seven_times demoClient 0
    (scripted [] (Outcome.resp (plainResponse 500 "boom"))) "GET" "/rest/orgs" none none
    demoRequest World.init (plainResponse 500 "boom")
    (List.replicate 7 (plainResponse 500 "boom")) demo_buildRequest rfl
    ⟨rfl, rfl, rfl, rfl, rfl, rfl, rfl, rfl, trivial⟩
    (by intro x hx; simp at hx; rw [hx]; exact Or.inr rfl)

/-- `SetMaxRetries` writes the field `maxRetries` and no other field. -/
theorem SetMaxRetries_fields (c : Client) (n : Int) :
    (c.SetMaxRetries n).maxRetries = n ∧ (c.SetMaxRetries n).token = c.token ∧
      (c.SetMaxRetries n).APIVersion = c.APIVersion := ⟨rfl, rfl, rfl⟩

/-- C3: for `n <= 6` responses with status 429 or 500 and no `Retry-After` header followed
by a response with status below 400, `send` issues exactly `n + 1` requests, sleeps
1, 2, 4, ..., 2^(n-1) seconds in that order, and returns the last response with no
error. -/
theorem send_backoff_then_success (c : Client) (t : Transport)
    (method urlPath : String) (params : Option Values)
    (body : Option (Except String String)) (req : Request) (w : World)
    (rs : List Response) (r : Response)
    (hreq : buildRequest c method urlPath params body = Except.ok req)
    (hn : rs.length ≤ 6)
    (hs : serves t req w.sent.length (rs ++ [r]))
    (hrs : ∀ x ∈ rs, retryable x ∧ x.RetryAfter = none)
    (hr : r.StatusCode < 400) :
    c.send t method urlPath params body w =
      (Ret.ok r,
       { sent := w.sent ++ List.replicate (rs.length + 1) req,
         slept := w.slept ++ (List.range rs.length).map (fun i => 2 ^ i * Second) }) := by
  have hnr : ¬ retryable r := by
    intro h
    have := retryable_ge_400 r h
    omega
  obtain ⟨r0, h0, hst⟩ := retryStage_stop t req w rs r (by omega) hs (fun x hx => (hrs x hx).1) hnr
  have h := transmit_stages t req w _ r0 r h0 hst
  rw [gatewayStage_skip t req r _ (by omega)] at h
  have hsl := zipWith_loopSleep_backoff rs 0 7 (by omega) (by omega)
    (fun x hx => Atoi_absent x (hrs x hx).2)
  simp only [Client.send, hreq]
  rw [h]
  have hfin : finish r = Ret.ok r := by
    have : ¬ r.StatusCode ≥ 400 := by omega
    simp only [finish, this, if_false]
  simp only [hfin, List.range_eq_range', hsl]

theorem send_backoff_then_success_witness :
    demoClient.send
        (scripted [Outcome.resp (plainResponse 429 ""), Outcome.resp (plainResponse 429 ""),
            Outcome.resp (plainResponse 200 "ok")] (Outcome.fail "closed"))
        "GET" "/rest/orgs" none none World.init =
      (Ret.ok (plainResponse 200 "ok"),
       { sent := World.init.sent ++
           List.replicate ([plainResponse 429 "", plainResponse 429 ""].length + 1) demoRequest,
         slept := World.init.slept ++
           (List.range [plainResponse 429 "", plainResponse 429 ""].length).map
             (fun i => 2 ^ i * Second) }) :=
  send_backoff_then_success demoClient _ "GET" "/rest/orgs" none none demoRequest World.init
    [plainResponse 429 "", plainResponse 429 ""] (plainResponse 200 "ok") demo_buildRequest
    (by decide) ⟨rfl, rfl, rfl, trivial⟩
    (by intro x hx; simp at hx; subst hx; exact ⟨Or.inl rfl, rfl⟩)
    (by decide)

/-- C4, counterexample: a 429 with `Retry-After: 10000000000` parses as R = 10000000000,
yet the argument of `time.Sleep` is not R + 5 seconds: the product with `time.Second`
overflows the 64-bit `time.Duration` and the sleep is negative, which returns at once. -/
theorem send_retryAfter_overflow :
    Atoi "10000000000" = some 10000000000 ∧
      (demoClient.send
          (scripted [Outcome.resp { StatusCode := 429, RetryAfter := some "10000000000",
                                    Body := some "" }]
            (Outcome.resp (plainResponse 200 "ok")))
          "GET" "/rest/orgs" none none World.init).2.slept = [-8446744068709551616] ∧
      (-8446744068709551616 : Int) ≠ (10000000000 + 5) * Second := by
  decide!

/-- C4, amended: the argument of the `time.Sleep` before the retry with index `i` is
`R + 5` seconds when the `Retry-After` header of the most recently received response
parses as an integer `R` with `-5 <= R <= 9223372031`, and `2^i` seconds when the header
does not parse; after the retries, a 502 adds one sleep of 30 seconds. The run: `rs` are
the responses retried (at most 7), `r` the response that ends the loop. -/
theorem send_waits_follow_policy (c : Client) (t : Transport)
    (method urlPath : String) (params : Option Values)
    (body : Option (Except String String)) (req : Request) (w : World)
    (rs : List Response) (r : Response)
    (hreq : buildRequest c method urlPath params body = Except.ok req)
    (hn : rs.length ≤ 7)
    (hs : serves t req w.sent.length (rs ++ [r]))
    (hrs : ∀ x ∈ rs, retryable x)
    (hr : ¬ retryable r)
    (hhdr : ∀ x ∈ rs, ∀ R, Atoi x.retryAfterHeader = some R → -5 ≤ R ∧ R ≤ 9223372031) :
    (c.send t method urlPath params body w).2.slept =
      w.slept ++ List.zipWith policyWait (List.range rs.length) rs ++
        (if r.StatusCode = 502 then [30 * Second] else []) := by
  obtain ⟨r0, h0, hst⟩ := retryStage_stop t req w rs r hn hs hrs hr
  have h := transmit_stages t req w _ r0 r h0 hst
  have hsl := zipWith_loopSleep_policy rs 0 7 hn (by omega) hhdr
  simp only [Client.send, hreq]
  rw [h, gatewayStage_world]
  by_cases h502 : r.StatusCode = 502
  · simp only [h502, if_true, List.range_eq_range', hsl]
  · simp only [h502, if_false, List.range_eq_range', hsl, List.append_nil]

theorem send_waits_follow_policy_witness :
    (demoClient.send
        (scripted [Outcome.resp { StatusCode := 429, RetryAfter := some "10", Body := some "" },
            Outcome.resp (plainResponse 500 "")] (Outcome.resp (plainResponse 200 "ok")))
        "GET" "/rest/orgs" none none World.init).2.slept =
      World.init.slept ++
        List.zipWith policyWait
          (List.range
            [({ StatusCode := 429, RetryAfter := some "10", Body := some "" } : Response),
              plainResponse 500 ""].length)
          [{ StatusCode := 429, RetryAfter := some "10", Body := some "" },
            plainResponse 500 ""] ++
        (if (plainResponse 200 "ok").StatusCode = 502 then [30 * Second] else []) :=
  send_waits_follow_policy demoClient _ "GET" "/rest/orgs" none none demoRequest World.init
    [{ StatusCode := 429, RetryAfter := some "10", Body := some "" }, plainResponse 500 ""]
    (plainResponse 200 "ok") demo_buildRequest (by decide) ⟨rfl, rfl, rfl, trivial⟩
    (by intro x hx; simp at hx; rcases hx with rfl | rfl
        · exact Or.inl rfl
        · exact Or.inr rfl)
    (by intro h; rcases h with h | h <;> exact absurd h (by decide))
    (by intro x hx R hR; simp at hx; rcases hx with rfl | rfl
        · have : Atoi "10" = some 10 := by decide
          have hR2 : some (10 : Int) = some R := by rw [← this]; exact hR
          cases hR2; decide
        · have : Atoi "" = none := by decide
          have hR2 : (none : Option Int) = some R := by rw [← this]; exact hR
          cases hR2)

/-- `Retry-After: 10` asks for 15 seconds, and the seventh retry without a header for
`2^6 = 64` seconds. -/
theorem policyWait_examples :
    policyWait 0 { StatusCode := 429, RetryAfter := some "10", Body := none } = 15 * Second ∧
      policyWait 6 (plainResponse 500 "") = 64 * Second := by
  decide

/-- C5: when the response in hand after the 429/500 stage has status 502, `send` sleeps
30 seconds, issues one more request, and decides its result on that response alone
(`finish`), whatever its status. -/
theorem send_gateway_retry_once (c : Client) (t : Transport)
    (method urlPath : String) (params : Option Values)
    (body : Option (Except String String)) (req : Request) (w w2 : World)
    (r0 r1 r2 : Response)
    (hreq : buildRequest c method urlPath params body = Except.ok req)
    (h0 : t w.sent.length req = Outcome.resp r0)
    (hstage : retryStage t req r0 (httpClientDo t req w).2 = (Ret.ok r1, w2))
    (h502 : r1.StatusCode = 502)
    (hnext : t w2.sent.length req = Outcome.resp r2) :
    c.send t method urlPath params body w =
      (if r2.StatusCode ≥ 400 then Ret.error (GoError.errorf ("error: " ++ getRespBody r2))
       else Ret.ok r2,
       { sent := w2.sent ++ [req], slept := w2.slept ++ [30 * Second] }) := by
  have h := transmit_stages t req w w2 r0 r1 h0 hstage
  rw [gatewayStage_retry t req r1 r2 w2 h502 hnext] at h
  simp only [Client.send, hreq]
  rw [h]
  rfl

theorem send_gateway_retry_once_witness :
    demoClient.send (scripted [] (Outcome.resp (plainResponse 502 "bad gateway")))
        "GET" "/rest/orgs" none none World.init =
      (if (plainResponse 502 "bad gateway").StatusCode ≥ 400 then
         Ret.error (GoError.errorf ("error: " ++ getRespBody (plainResponse 502 "bad gateway")))
       else Ret.ok (plainResponse 502 "bad gateway"),
       { sent := ({ sent := [demoRequest], slept := [] } : World).sent ++ [demoRequest],
         slept := ({ sent := [demoRequest], slept := [] } : World).slept ++ [30 * Second] }) :=
  send_gateway_retry_once demoClient _ "GET" "/rest/orgs" none none demoRequest World.init
    { sent := [demoRequest], slept := [] } (plainResponse 502 "bad gateway")
    (plainResponse 502 "bad gateway") (plainResponse 502 "bad gateway") demo_buildRequest
    rfl (by decide) rfl rfl

/-- C6: with `r2` the response in hand after all retry logic and `b` its body text,
`send` returns no response and an error whose message holds the status code and `b` when
the status is 400 or more, and returns `r2` with no error when it is below 400. -/
theorem send_result_of_final_response (c : Client) (t : Transport)
    (method urlPath : String) (params : Option Values)
    (body : Option (Except String String)) (req : Request) (w w2 w3 : World)
    (r0 r1 r2 : Response) (b : String)
    (hreq : buildRequest c method urlPath params body = Except.ok req)
    (h0 : t w.sent.length req = Outcome.resp r0)
    (hstage : retryStage t req r0 (httpClientDo t req w).2 = (Ret.ok r1, w2))
    (hgate : gatewayStage t req r1 w2 = (Ret.ok r2, w3))
    (hbody : r2.Body = some b) :
    (400 ≤ r2.StatusCode →
        c.send t method urlPath params body w =
          (Ret.error (GoError.errorf
            ("error: " ++ ("'" ++ toString r2.StatusCode ++ "': '" ++ b ++ "'"))), w3)) ∧
      (r2.StatusCode < 400 → c.send t method urlPath params body w = (Ret.ok r2, w3)) := by
  have h := transmit_stages t req w w2 r0 r1 h0 hstage
  rw [hgate] at h
  simp only [Client.send, hreq]
  rw [h]
  constructor
  · intro hs
    have hge : r2.StatusCode ≥ 400 := hs
    simp only [finish, hge, if_true, getRespBody, hbody]
  · intro hs
    have hlt : ¬ r2.StatusCode ≥ 400 := by omega
    simp only [finish, hlt, if_false]

theorem send_result_of_final_response_witness :
    (400 ≤ (plainResponse 404 "no such org").StatusCode →
        demoClient.send (scripted [] (Outcome.resp (plainResponse 404 "no such org")))
            "GET" "/rest/orgs" none none World.init =
          (Ret.error (GoError.errorf
            ("error: " ++ ("'" ++ toString (plainResponse 404 "no such org").StatusCode ++
              "': '" ++ "no such org" ++ "'"))),
           { sent := [demoRequest], slept := [] })) ∧
      ((plainResponse 404 "no such org").StatusCode < 400 →
        demoClient.send (scripted [] (Outcome.resp (plainResponse 404 "no such org")))
            "GET" "/rest/orgs" none none World.init =
          (Ret.ok (plainResponse 404 "no such org"), { sent := [demoRequest], slept := [] })) :=
  send_result_of_final_response demoClient _ "GET" "/rest/orgs" none none demoRequest
    World.init { sent := [demoRequest], slept := [] } { sent := [demoRequest], slept := [] }
    (plainResponse 404 "no such org") (plainResponse 404 "no such org")
    (plainResponse 404 "no such org") "no such org" demo_buildRequest rfl (by decide)
    (by decide) rfl

/-- C7, counterexample: with every response a 500, `send` does not return the last
response as a value: it returns no response and an error. -/
theorem send_all_500_returns_error :
    (demoClient.send (scripted [] (Outcome.resp (plainResponse 500 "boom"))) "GET" "/rest/orgs"
        none none World.init).1 = Ret.error (GoError.errorf "error: '500': 'boom'") := by
  decide!

/-- C7, amended: when the first eight responses all have status 500, the retry stage ends
without an error, holding the eighth response as a value; the status test that follows
it in `send` then returns no response and an error built from that response. -/
theorem send_exhausted_then_error (c : Client) (t : Transport)
    (method urlPath : String) (params : Option Values)
    (body : Option (Except String String)) (req : Request) (w : World)
    (r0 : Response) (rs : List Response)
    (hreq : buildRequest c method urlPath params body = Except.ok req)
    (hlen : rs.length = 7)
    (hs : serves t req w.sent.length (r0 :: rs))
    (h500 : ∀ x ∈ r0 :: rs, x.StatusCode = 500) :
    (retryStage t req r0 (httpClientDo t req w).2).1 = Ret.ok (rs.getLastD r0) ∧
      (rs.getLastD r0).StatusCode = 500 ∧
      (c.send t method urlPath params body w).1 =
        Ret.error (GoError.errorf ("error: " ++ getRespBody (rs.getLastD r0))) := by
  have hret : ∀ x ∈ r0 :: rs, retryable x := fun x hx => Or.inr (h500 x hx)
  refine ⟨?_, ?_, ?_⟩
  · rw [retryStage_giveUp t req w r0 rs hlen hs hret]
  · cases rs with
    | nil => exact h500 r0 (by simp)
    | cons x xs =>
      have hmem : (x :: xs).getLastD r0 ∈ x :: xs := by
        rw [List.getLastD_cons]
        have := List.getLast_mem (List.cons_ne_nil x xs)
        rw [List.getLast_eq_getLastD] at this
        exact this
      exact h500 _ (List.mem_cons_of_mem _ hmem)
  · rw [send_giveUp c t method urlPath params body req w r0 rs hreq hlen hs hret]

theorem send_exhausted_then_error_witness :
    (retryStage (scripted [] (Outcome.resp (plainResponse 500 "boom"))) demoRequest
        (plainResponse 500 "boom")
        (httpClientDo (scripted [] (Outcome.resp (plainResponse 500 "boom"))) demoRequest
          World.init).2).1 =
        Ret.ok ((List.replicate 7 (plainResponse 500 "boom")).getLastD
          (plainResponse 500 "boom")) ∧
      ((List.replicate 7 (plainResponse 500 "boom")).getLastD
          (plainResponse 500 "boom")).StatusCode = 500 ∧
      (demoClient.send (scripted [] (Outcome.resp (plainResponse 500 "boom"))) "GET"
          "/rest/orgs" none none World.init).1 =
        Ret.error (GoError.errorf ("error: " ++
          getRespBody ((List.replicate 7 (plainResponse 500 "boom")).getLastD
            (plainResponse 500 "boom")))) :=
  send_exhausted_then_error demoClient
    (scripted [] (Outcome.resp (plainResponse 500 "boom"))) "GET" "/rest/orgs" none none
    demoRequest World.init (plainResponse 500 "boom")
    (List.replicate 7 (plainResponse 500 "boom")) demo_buildRequest rfl
    ⟨rfl, rfl, rfl, rfl, rfl, rfl, rfl, rfl, trivial⟩
    (by intro x hx; simp at hx; rw [hx]; rfl)

/-- C8 (the code differs): a round trip that fails on a retry leaves the response nil,
and `send` reads its status: after a run `r0 :: rs` of 429/500 responses (at most seven)
a failed retry inside the loop ends in a nil dereference, and so does a failed retry
after a 502; only a failure of the first round trip is returned as an error. -/
theorem send_retry_failure_dereferences_nil (c : Client) (t : Transport)
    (method urlPath : String) (params : Option Values)
    (body : Option (Except String String)) (req : Request) (w : World)
    (r0 : Response) (rs : List Response) (e : String)
    (hreq : buildRequest c method urlPath params body = Except.ok req)
    (hs : serves t req w.sent.length (r0 :: rs))
    (hfail : t (w.sent.length + (rs.length + 1)) req = Outcome.fail e) :
    (rs.length < 7 → (∀ x ∈ r0 :: rs, retryable x) →
        (c.send t method urlPath params body w).1 = Ret.nilDeref) ∧
      (rs = [] → r0.StatusCode = 502 →
        (c.send t method urlPath params body w).1 = Ret.nilDeref) := by
  have hdo : httpClientDo t req w = (Outcome.resp r0, (httpClientDo t req w).2) := by
    simp [httpClientDo, hs.1]
  constructor
  · intro hlen hret
    have hr0 : isInSlice r0.StatusCode retryResponseCodes = true :=
      (isInSlice_retry_iff r0).2 (hret r0 (by simp))
    have hs1 : serves t req (httpClientDo t req w).2.sent.length rs := by
      simpa [httpClientDo] using hs.2
    have hf1 : t ((httpClientDo t req w).2.sent.length + rs.length) req = Outcome.fail e := by
      have : (httpClientDo t req w).2.sent.length + rs.length =
          w.sent.length + (rs.length + 1) := by simp [httpClientDo]; omega
      rw [this]; exact hfail
    have key := retryLoop_fail t req (List.range (defaultMaxRetries + 1)) r0
      (httpClientDo t req w).2 rs e (by simp [defaultMaxRetries]; omega) hs1 hf1
      (fun x hx => hret x (by simp [hx]))
    simp only [Client.send, hreq]
    unfold transmit
    rw [hdo]
    simp only [retryStage, hr0, if_true, key]
  · intro hnil h502
    subst hnil
    have hnr : ¬ retryable r0 := by
      intro h
      exact retryable_ne_502 r0 h h502
    have hf1 : t (httpClientDo t req w).2.sent.length req = Outcome.fail e := by
      have : (httpClientDo t req w).2.sent.length = w.sent.length + (([] : List Response).length + 1) := by
        simp [httpClientDo]
      rw [this]; exact hfail
    simp only [Client.send, hreq]
    unfold transmit
    rw [hdo]
    simp only [retryStage_skip t req r0 _ hnr, gatewayStage_fail t req r0 _ e h502 hf1]

theorem send_retry_failure_dereferences_nil_witness :
    (([] : List Response).length < 7 → (∀ x ∈ plainResponse 500 "boom" :: [], retryable x) →
        (demoClient.send
            (scripted [Outcome.resp (plainResponse 500 "boom")] (Outcome.fail "connection reset"))
            "GET" "/rest/orgs" none none World.init).1 = Ret.nilDeref) ∧
      (([] : List Response) = [] → (plainResponse 500 "boom").StatusCode = 502 →
        (demoClient.send
            (scripted [Outcome.resp (plainResponse 500 "boom")] (Outcome.fail "connection reset"))
            "GET" "/rest/orgs" none none World.init).1 = Ret.nilDeref) :=
  send_retry_failure_dereferences_nil demoClient
    (scripted [Outcome.resp (plainResponse 500 "boom")] (Outcome.fail "connection reset"))
    "GET" "/rest/orgs" none none demoRequest World.init (plainResponse 500 "boom") []
    "connection reset" demo_buildRequest ⟨rfl, trivial⟩ rfl

/-- The failing run of C8, evaluated: a 500, then a connection failure on the first
retry. -/
theorem send_500_then_failure_evaluated :
    demoClient.send
        (scripted [Outcome.resp (plainResponse 500 "boom")] (Outcome.fail "connection reset"))
        "GET" "/rest/orgs" none none World.init =
      (Ret.nilDeref, { sent := [demoRequest, demoRequest], slept := [1 * Second] }) := by
  decide!

/-- A failure of the first round trip is returned as an error. -/
theorem send_first_failure_is_error (c : Client) (t : Transport)
    (method urlPath : String) (params : Option Values)
    (body : Option (Except String String)) (req : Request) (w : World) (e : String)
    (hreq : buildRequest c method urlPath params body = Except.ok req)
    (hfail : t w.sent.length req = Outcome.fail e) :
    (c.send t method urlPath params body w).1 = Ret.error (GoError.transport e) := by
  simp [Client.send, hreq, transmit, httpClientDo, hfail]

/-! ## Cursor pagination -/

theorem buildRequest_method (c : Client) (urlPath : String) (params : Option Values)
    (req : Request) (h : buildRequest c "GET" urlPath params none = Except.ok req) :
    req.Method = "GET" := by
  unfold buildRequest at h
  cases hg : getReqURL urlPath with
  | none => rw [hg] at h; cases h
  | some u =>
    rw [hg] at h
    simp only at h
    split at h
    · rename_i hempty
      exact absurd hempty (by decide)
    · split at h
      · cases h
      · split at h
        · cases h
        · injection h with h
          rw [← h]

theorem length_flatMap_data (pages : List MultiResourceResp) :
    (pages.flatMap (fun p => p.Data)).length = (pages.map (fun p => p.Data.length)).sum := by
  induction pages with
  | nil => rfl
  | cons p rest ih => simp [List.flatMap_cons, ih]

/-- A successful fetch: one request, no sleep, the response handed back. -/
theorem Get_of_fetches (dec : PageDecoder) (c : Client) (t : Transport) (w : World)
    (urlPath : String) (params : Option Values) (p : MultiResourceResp)
    (h : fetches dec c t w.sent.length urlPath params p) :
    ∃ req resp, c.Get t urlPath params w =
        (Ret.ok resp, { sent := w.sent ++ [req], slept := w.slept }) ∧
      req.Method = "GET" ∧ resp.Body.bind dec = some p := by
  obtain ⟨req, resp, body, hreq, ht, hst, hb, hd⟩ := h
  refine ⟨req, resp, ?_, buildRequest_method c urlPath params req hreq, ?_⟩
  · have hnr : ¬ retryable resp := by
      intro hr
      have := retryable_ge_400 resp hr
      omega
    have hst0 : retryStage t req resp (httpClientDo t req w).2 =
        (Ret.ok resp, (httpClientDo t req w).2) := retryStage_skip t req resp _ hnr
    have h := transmit_stages t req w _ resp resp ht hst0
    rw [gatewayStage_skip t req resp _ (by omega)] at h
    have hfin : finish resp = Ret.ok resp := by
      have : ¬ resp.StatusCode ≥ 400 := by omega
      simp only [finish, this, if_false]
    simp only [Client.Get, Client.send, hreq]
    rw [h]
    simp only [hfin, httpClientDo]
  · rw [hb]; exact hd

/-- The loop over a served chain of pages: one request a page, no sleep, the records of
the pages appended in order. -/
theorem getMultiResourceLoop_pages (dec : PageDecoder) (c : Client) (t : Transport)
    (apiVersion : String) :
    ∀ (pages : List MultiResourceResp) (fuel : Nat) (urlPath : String)
      (params : Option Values) (resources : List Resource) (w : World),
      servesPages dec c t apiVersion w.sent.length urlPath params pages →
      pages.length ≤ fuel →
      ∃ reqs, getMultiResourceLoop dec c t apiVersion fuel urlPath params resources w =
          some (Ret.ok (resources ++ pages.flatMap (fun p => p.Data)),
                { sent := w.sent ++ reqs, slept := w.slept }) ∧
        reqs.length = pages.length ∧ ∀ r ∈ reqs, r.Method = "GET" := by
  intro pages
  induction pages with
  | nil => intro fuel urlPath params resources w h; exact absurd h (by simp [servesPages])
  | cons p rest ih =>
    intro fuel urlPath params resources w h hfuel
    cases fuel with
    | zero => simp at hfuel
    | succ f =>
      cases rest with
      | nil =>
        obtain ⟨hf, hend⟩ := h
        obtain ⟨req, resp, hget, hm, hdec⟩ := Get_of_fetches dec c t w urlPath params p hf
        refine ⟨[req], ?_, rfl, ?_⟩
        · simp only [getMultiResourceLoop, hget, hdec, hend, if_true]
          simp
        · intro r hr
          simp at hr
          rw [hr]; exact hm
      | cons q rest2 =>
        obtain ⟨hf, hmore, nextPath, nextParams, hnext, hrest⟩ := h
        obtain ⟨req, resp, hget, hm, hdec⟩ := Get_of_fetches dec c t w urlPath params p hf
        have hrest2 : servesPages dec c t apiVersion
            ({ sent := w.sent ++ [req], slept := w.slept } : World).sent.length
            nextPath nextParams (q :: rest2) := by
          simpa using hrest
        obtain ⟨reqs, hloop, hlen, hall⟩ := ih f nextPath nextParams (resources ++ p.Data)
          { sent := w.sent ++ [req], slept := w.slept } hrest2 (by simpa using hfuel)
        refine ⟨req :: reqs, ?_, by simp [hlen], ?_⟩
        · simp only [getMultiResourceLoop, hget, hdec, hmore, if_false, hnext]
          rw [hloop]
          simp
        · intro r hr
          rcases List.mem_cons.mp hr with h1 | h1
          · rw [h1]; exact hm
          · exact hall r h1

/-- C9: for a chain of pages `P1 .. Pn` served to successive requests, `Pn` being the
first page whose next link is empty or whose record list is empty, every fetch
succeeding, `getMultiResource` issues exactly `n` GET requests (and no sleep) and returns
`P1.data ++ ... ++ Pn.data` in page order; the length of the result is the sum of the
page lengths. -/
theorem getMultiResource_concatenates_pages (dec : PageDecoder) (c : Client)
    (t : Transport) (path : String) (addlParams : Option Values)
    (pages : List MultiResourceResp) (fuel : Nat) (w : World)
    (hserved : servesPages dec c t (Values.Get (firstParams c addlParams) "version")
      w.sent.length path (some (firstParams c addlParams)) pages)
    (hfuel : pages.length ≤ fuel) :
    ∃ reqs, getMultiResource dec c t path addlParams fuel w =
        some (Ret.ok (pages.flatMap (fun p => p.Data)),
              { sent := w.sent ++ reqs, slept := w.slept }) ∧
      reqs.length = pages.length ∧ (∀ r ∈ reqs, r.Method = "GET") ∧
      (pages.flatMap (fun p => p.Data)).length = (pages.map (fun p => p.Data.length)).sum := by
  obtain ⟨reqs, hloop, hlen, hall⟩ := getMultiResourceLoop_pages dec c t
    (Values.Get (firstParams c addlParams) "version") pages fuel path
    (some (firstParams c addlParams)) [] w hserved hfuel
  refine ⟨reqs, ?_, hlen, hall, ?_⟩
  · simp only [getMultiResource]
    rw [hloop]
    simp
  · exact length_flatMap_data pages

theorem getMultiResource_concatenates_pages_witness :
    ∃ reqs, getMultiResource (demoDecoder demoNext) demoClient demoPages
          "/rest/orgs/O/container_images" none 2 World.init =
        some (Ret.ok ([demoPage1 demoNext, demoPage2].flatMap (fun p => p.Data)),
              { sent := World.init.sent ++ reqs, slept := World.init.slept }) ∧
      reqs.length = [demoPage1 demoNext, demoPage2].length ∧ (∀ r ∈ reqs, r.Method = "GET") ∧
      ([demoPage1 demoNext, demoPage2].flatMap (fun p => p.Data)).length =
        ([demoPage1 demoNext, demoPage2].map (fun p => p.Data.length)).sum :=
  getMultiResource_concatenates_pages (demoDecoder demoNext) demoClient demoPages
    "/rest/orgs/O/container_images" none [demoPage1 demoNext, demoPage2] 2 World.init
    ⟨⟨demoPageRequest1, plainResponse 200 "page1", "page1", by decide!, rfl, by decide, rfl,
        by decide⟩,
      by decide, demoNext, none, by decide!,
      ⟨demoPageRequest2, plainResponse 200 "page2", "page2", by decide!, rfl, by decide, rfl,
        by decide⟩,
      Or.inl rfl⟩
    (by decide)

/-- The example of C9 evaluated: two pages of 8 and 4 records give 12 records, in two
requests. -/
theorem getMultiResource_two_pages_evaluated :
    (getMultiResource (demoDecoder demoNext) demoClient demoPages
        "/rest/orgs/O/container_images" none 2 World.init).map
      (fun r => (r.1, r.2.sent)) =
      some (Ret.ok (demoRecords 8 "a" ++ demoRecords 4 "b"),
            [demoPageRequest1, demoPageRequest2]) ∧
      (demoRecords 8 "a" ++ demoRecords 4 "b").length = 12 := by
  decide!

/-! ## Lemmas on URL composition -/

theorem cutChars_append (sep : Char) :
    ∀ (pre l : List Char), sep ∉ pre →
      cutChars sep (pre ++ l) =
        (pre ++ (cutChars sep l).1, (cutChars sep l).2.1, (cutChars sep l).2.2) := by
  intro pre
  induction pre with
  | nil => intro l _; rfl
  | cons c cs ih =>
    intro l h
    have hc : c ≠ sep := fun e => h (by simp [e])
    have hcs : sep ∉ cs := fun e => h (by simp [e])
    simp [cutChars, hc, ih l hcs]

theorem splitSlash_ne_nil : ∀ l : List Char, splitSlash l ≠ [] := by
  intro l
  induction l with
  | nil => simp [splitSlash]
  | cons c cs ih =>
    unfold splitSlash
    split
    · simp
    · split <;> simp

theorem splitSlash_append (R : List Char) :
    ∀ L : List Char, splitSlash (L ++ '/' :: R) = splitSlash L ++ splitSlash R := by
  intro L
  induction L with
  | nil => simp [splitSlash]
  | cons c cs ih =>
    by_cases hc : c = '/'
    · subst hc
      simp [splitSlash, ih]
    · have h1 : splitSlash (c :: cs ++ '/' :: R) =
          match splitSlash (cs ++ '/' :: R) with
          | seg :: segs => (c :: seg) :: segs
          | [] => [[c]] := by
        simp [splitSlash, hc]
      have h2 : splitSlash (c :: cs) =
          match splitSlash cs with
          | seg :: segs => (c :: seg) :: segs
          | [] => [[c]] := by
        simp [splitSlash, hc]
      rw [h1, h2, ih]
      cases hs : splitSlash cs with
      | nil => exact absurd hs (splitSlash_ne_nil cs)
      | cons seg segs => simp

theorem Clean_double_slash (L R : List Char) :
    Clean (L ++ '/' :: '/' :: R) = Clean (L ++ '/' :: R) := by
  have hrooted : (['/'].isPrefixOf (L ++ '/' :: '/' :: R)) = (['/'].isPrefixOf (L ++ '/' :: R)) := by
    cases L <;> simp [List.isPrefixOf]
  have hsplit : (splitSlash (L ++ '/' :: '/' :: R)).foldl
        (cleanStep (['/'].isPrefixOf (L ++ '/' :: R))) [] =
      (splitSlash (L ++ '/' :: R)).foldl (cleanStep (['/'].isPrefixOf (L ++ '/' :: R))) [] := by
    rw [splitSlash_append, splitSlash_append]
    have : splitSlash ('/' :: R) = [] :: splitSlash R := by simp [splitSlash]
    rw [this]
    simp [List.foldl_append, cleanStep]
  simp only [Clean, hrooted, hsplit]
  simp

theorem isSuffixOf_slash_double (E R : List Char) :
    ['/'].isSuffixOf (E ++ '/' :: '/' :: R) = ['/'].isSuffixOf (E ++ '/' :: R) := by
  simp only [List.isSuffixOf, List.reverse_append, List.reverse_cons]
  cases R.reverse <;> simp [List.isPrefixOf]

theorem pathJoin_double_slash (a E R : List Char) :
    pathJoin [a, E ++ '/' :: '/' :: R] = pathJoin [a, E ++ '/' :: R] := by
  have h1 : ∀ e : List Char, e ≠ [] →
      pathJoin [a, e] = Clean (if a ≠ [] then a ++ '/' :: e else e) := by
    intro e he
    by_cases ha : a = []
    · subst ha
      simp [pathJoin, joinBuf, he]
    · simp [pathJoin, joinBuf, he, ha]
  rw [h1 _ (by simp), h1 _ (by simp)]
  by_cases ha : a = []
  · simp only [ha, ne_eq, not_true_eq_false, if_false]
    exact Clean_double_slash E R
  · simp only [ha, ne_eq, not_false_eq_true, if_true]
    have := Clean_double_slash (a ++ '/' :: E) R
    simpa using this

theorem joinPathText_double_slash (u : URL) (E R : List Char) :
    joinPathText u (String.mk (E ++ '/' :: '/' :: R)) =
      joinPathText u (String.mk (E ++ '/' :: R)) := by
  unfold joinPathText
  simp only [String.toList]
  rw [pathJoin_double_slash, pathJoin_double_slash, isSuffixOf_slash_double]

theorem URL_JoinPath_double_slash (u : URL) (E R : List Char) :
    u.JoinPath (String.mk (E ++ '/' :: '/' :: R)) = u.JoinPath (String.mk (E ++ '/' :: R)) := by
  unfold URL.JoinPath URL.joinPath
  rw [joinPathText_double_slash]

theorem any_ctl_rest (pre : List Char)
    (hpre : pre = ['/', 'r', 'e', 's', 't'] ∨ pre = ['/', 'r', 'e', 's', 't', '/'])
    (x : List Char) :
    stringContainsCTLByte (pre ++ x) = stringContainsCTLByte x := by
  rcases hpre with rfl | rfl <;> simp [stringContainsCTLByte]

theorem parseNoFragment_rest (pre : List Char)
    (hpre : pre = ['/', 'r', 'e', 's', 't'] ∨ pre = ['/', 'r', 'e', 's', 't', '/'])
    (x : List Char) (hx : x ≠ []) :
    parseNoFragment (pre ++ x) =
      if stringContainsCTLByte x then none
      else
        URL.setPath
          { URL.zero with
            Scheme := String.mk [],
            ForceQuery := (['?'].isSuffixOf x && x.count '?' == 1),
            RawQuery := String.mk (if (['?'].isSuffixOf x && x.count '?' == 1) = true then []
                                   else (cutChars '?' x).2.1) }
          (String.mk (pre ++ (cutChars '?' x).1)) := by
  have hq : cutChars '?' (pre ++ x) =
      (pre ++ (cutChars '?' x).1, (cutChars '?' x).2.1, (cutChars '?' x).2.2) := by
    apply cutChars_append
    rcases hpre with rfl | rfl <;> decide
  have hsuf : ['?'].isSuffixOf (pre ++ x) = ['?'].isSuffixOf x := by
    simp only [List.isSuffixOf, List.reverse_append]
    cases hr : x.reverse with
    | nil => simp at hr; exact absurd hr hx
    | cons y ys => simp [List.isPrefixOf]
  have hcount : (pre ++ x).count '?' = x.count '?' := by
    rcases hpre with rfl | rfl <;> simp [List.count_cons] 
  have hstar : (pre ++ x = ['*']) = False := by
    rcases hpre with rfl | rfl <;> simp
  have hscheme : getScheme (pre ++ x) = some ([], pre ++ x) := by
    rcases hpre with rfl | rfl <;> simp [getScheme, isAlpha, isDigit]
  unfold parseNoFragment
  rw [any_ctl_rest pre hpre x]
  by_cases hctl : stringContainsCTLByte x = true
  · simp [hctl]
  · simp only [hctl, hstar, hscheme, hq, hsuf, hcount]
    rcases hpre with rfl | rfl <;> simp [List.isPrefixOf]

theorem unescapeChars_plain (c : Char) (h1 : c ≠ '%') (h2 : c ≠ '+') (l : List Char) :
    unescapeChars Encoding.encodePath (c :: l) =
      (unescapeChars Encoding.encodePath l).map (fun X => c :: X) := by
  rcases l with _ | ⟨a, _ | ⟨b, l⟩⟩ <;> simp [unescapeChars, h1, h2]

theorem unescapeChars_rest (pre : List Char)
    (hpre : pre = ['/', 'r', 'e', 's', 't'] ∨ pre = ['/', 'r', 'e', 's', 't', '/'])
    (l : List Char) :
    unescapeChars Encoding.encodePath (pre ++ l) =
      (unescapeChars Encoding.encodePath l).map (fun X => pre ++ X) := by
  rcases hpre with rfl | rfl
  · simp only [List.cons_append, List.nil_append]
    rw [unescapeChars_plain _ (by decide) (by decide), unescapeChars_plain _ (by decide) (by decide),
      unescapeChars_plain _ (by decide) (by decide), unescapeChars_plain _ (by decide) (by decide),
      unescapeChars_plain _ (by decide) (by decide)]
    cases unescapeChars Encoding.encodePath l <;> rfl
  · simp only [List.cons_append, List.nil_append]
    rw [unescapeChars_plain _ (by decide) (by decide), unescapeChars_plain _ (by decide) (by decide),
      unescapeChars_plain _ (by decide) (by decide), unescapeChars_plain _ (by decide) (by decide),
      unescapeChars_plain _ (by decide) (by decide), unescapeChars_plain _ (by decide) (by decide)]
    cases unescapeChars Encoding.encodePath l <;> rfl

/-- The projection of a parsed link that `joinURLParts` reads. -/
theorem setFragment_keeps (u v : URL) (f : String) (h : u.setFragment f = some v) :
    v.Path = u.Path ∧ v.RawQuery = u.RawQuery := by
  unfold URL.setFragment at h
  split at h
  · cases h
  · injection h with h
    rw [← h]
    exact ⟨rfl, rfl⟩

theorem Parse_rest_form (pre : List Char)
    (hpre : pre = ['/', 'r', 'e', 's', 't'] ∨ pre = ['/', 'r', 'e', 's', 't', '/'])
    (B : List Char) :
    Parse (String.mk (pre ++ '/' :: B)) =
      if stringContainsCTLByte ('/' :: (cutChars '#' B).1) then none
      else
        match unescapeChars Encoding.encodePath (cutChars '?' (cutChars '#' B).1).1 with
        | none => none
        | some X =>
          let x := '/' :: (cutChars '#' B).1
          let U : URL :=
            { URL.zero with
              Scheme := String.mk [],
              ForceQuery := (['?'].isSuffixOf x && x.count '?' == 1),
              RawQuery := String.mk (if (['?'].isSuffixOf x && x.count '?' == 1) = true then []
                                     else (cutChars '?' x).2.1),
              Path := String.mk (pre ++ '/' :: X),
              RawPath :=
                if String.mk (pre ++ (cutChars '?' x).1) =
                    escape (String.mk (pre ++ '/' :: X)) Encoding.encodePath then ""
                else String.mk (pre ++ (cutChars '?' x).1) }
          if (cutChars '#' B).2.1 = [] then some U
          else U.setFragment (String.mk (cutChars '#' B).2.1) := by
  have hc : cutChars '#' (pre ++ '/' :: B) =
      (pre ++ '/' :: (cutChars '#' B).1, (cutChars '#' B).2.1, (cutChars '#' B).2.2) := by
    have h1 := cutChars_append '#' pre ('/' :: B) (by rcases hpre with rfl | rfl <;> decide)
    rw [h1]
    simp [cutChars]
  have hq : (cutChars '?' ('/' :: (cutChars '#' B).1)).1 =
      '/' :: (cutChars '?' (cutChars '#' B).1).1 := by
    simp [cutChars]
  have hu : unescapeChars Encoding.encodePath ('/' :: (cutChars '?' (cutChars '#' B).1).1) =
      (unescapeChars Encoding.encodePath (cutChars '?' (cutChars '#' B).1).1).map
        (fun X => '/' :: X) := by
    exact unescapeChars_plain '/' (by decide) (by decide) _
  unfold Parse
  simp only [String.toList, hc]
  rw [parseNoFragment_rest pre hpre _ (by simp)]
  by_cases hctl : stringContainsCTLByte ('/' :: (cutChars '#' B).1) = true
  · simp [hctl]
  · simp only [hctl, URL.setPath, unescape, String.toList, unescapeChars_rest pre hpre, hq, hu]
    cases unescapeChars Encoding.encodePath (cutChars '?' (cutChars '#' B).1).1 with
    | none => simp
    | some X => simp

theorem JoinPath_double_slash (base : String) (E R : List Char) :
    JoinPath base (String.mk (E ++ '/' :: '/' :: R)) = JoinPath base (String.mk (E ++ '/' :: R)) := by
  unfold JoinPath
  cases Parse base with
  | none => rfl
  | some u => simp only [URL.joinPath, joinPathText_double_slash]

theorem joinURLParts_rest_slash (base : String) (B : List Char) :
    joinURLParts base (String.mk (['/', 'r', 'e', 's', 't', '/'] ++ '/' :: B)) =
      joinURLParts base (String.mk (['/', 'r', 'e', 's', 't'] ++ '/' :: B)) := by
  have hj : ∀ X : List Char,
      JoinPath base (String.mk (['/', 'r', 'e', 's', 't', '/'] ++ '/' :: X)) =
        JoinPath base (String.mk (['/', 'r', 'e', 's', 't'] ++ '/' :: X)) := by
    intro X
    exact JoinPath_double_slash base ['/', 'r', 'e', 's', 't'] X
  unfold joinURLParts
  rw [Parse_rest_form _ (Or.inr rfl), Parse_rest_form _ (Or.inl rfl)]
  by_cases hctl : stringContainsCTLByte ('/' :: (cutChars '#' B).1) = true
  · simp [hctl]
  · simp only [hctl]
    cases unescapeChars Encoding.encodePath (cutChars '?' (cutChars '#' B).1).1 with
    | none => simp
    | some X =>
      by_cases hy : (cutChars '#' B).2.1 = []
      · simp only [hy, if_true, Bool.false_eq_true, if_false, hj]
      · simp only [hy, if_false, Bool.false_eq_true, URL.setFragment]
        cases unescape (String.mk (cutChars '#' B).2.1) Encoding.encodeFragment with
        | none => rfl
        | some frag => simp only [hj]

theorem getReqURL_rest_slash (B : List Char) :
    getReqURL (String.mk (['/', 'r', 'e', 's', 't', '/'] ++ '/' :: B)) =
      getReqURL (String.mk (['/', 'r', 'e', 's', 't'] ++ '/' :: B)) := by
  unfold getReqURL
  rw [joinURLParts_rest_slash]

/-! ## Next-page normalization -/

theorem buildRequest_URL (c : Client) (urlPath : String) (params : Option Values)
    (req : Request) (u : URL)
    (hu : getReqURL urlPath = some u)
    (h : buildRequest c "GET" urlPath params none = Except.ok req) :
    req.URL = (match params with
               | some ps => { u with RawQuery := ps.Encode }
               | none => u).Str := by
  unfold buildRequest at h
  rw [hu] at h
  simp only at h
  split at h
  · rename_i hempty
    exact absurd hempty (by decide)
  · split at h
    · cases h
    · split at h
      · cases h
      · injection h with h
        rw [← h]

theorem rest_append (B : List Char) :
    "/rest/" ++ String.mk B = String.mk (['/', 'r', 'e', 's', 't', '/'] ++ B) ∧
      "/rest" ++ String.mk B = String.mk (['/', 'r', 'e', 's', 't'] ++ B) := ⟨rfl, rfl⟩

/-- A link that begins with a slash composes to the same URL whether `/rest` or `/rest/`
is put before it: `url.JoinPath` removes the doubled slash. -/
theorem getReqURL_prefixed (B : String) (hslash : hasPrefix B "/" = true) :
    getReqURL ("/rest/" ++ B) = getReqURL ("/rest" ++ B) := by
  obtain ⟨l⟩ := B
  cases l with
  | nil => simp [hasPrefix] at hslash
  | cons ch l2 =>
    have hch : ch = '/' := by
      have h1 : (['/'].isPrefixOf (ch :: l2)) = true := hslash
      have h2 : '/' = ch := by simpa [List.isPrefixOf] using h1
      exact h2.symm
    subst hch
    rw [(rest_append ('/' :: l2)).1, (rest_append ('/' :: l2)).2]
    exact getReqURL_rest_slash l2

/-- The requests built for the two calls are the same. -/
theorem buildRequest_prefixed (c : Client) (B : String) (params : Option Values)
    (hslash : hasPrefix B "/" = true) :
    buildRequest c "GET" ("/rest/" ++ B) params none =
      buildRequest c "GET" ("/rest" ++ B) params none := by
  have hg := getReqURL_prefixed B hslash
  obtain ⟨l⟩ := B
  cases l with
  | nil => simp [hasPrefix] at hslash
  | cons ch l2 =>
    have hch : ch = '/' := by
      have h1 : (['/'].isPrefixOf (ch :: l2)) = true := hslash
      have h2 : '/' = ch := by simpa [List.isPrefixOf] using h1
      exact h2.symm
    subst hch
    have hct : hasPrefix (trimSlash ("/rest/" ++ String.mk ('/' :: l2))) "rest/" =
        hasPrefix (trimSlash ("/rest" ++ String.mk ('/' :: l2))) "rest/" := by
      rw [(rest_append ('/' :: l2)).1, (rest_append ('/' :: l2)).2]
      simp [hasPrefix, trimSlash, List.isPrefixOf]
    unfold buildRequest
    rw [hg, hct]

/-- C10, counterexample. The link `/rest/orgs?version=&starting_after=c1` has a version
parameter (an empty one), yet its query is not sent unchanged: the follow-up request
carries `version=V0`, the version of the first request. The link `rest/orgs?version=V1`
carries the prefix without a leading slash, and the follow-up request has it twice. -/
theorem nextCall_rewrites_empty_version :
    (getReqURL "/rest/orgs?version=&starting_after=c1").map
        (fun u => (u.RawQuery, Values.Has u.Query "version")) =
        some ("version=&starting_after=c1", true) ∧
      nextCall "V0" "/rest/orgs?version=&starting_after=c1" =
        some ("/rest/orgs?version=&starting_after=c1",
              some [("version", ["V0"]), ("starting_after", ["c1"])]) ∧
      buildRequest demoClient "GET" "/rest/orgs?version=&starting_after=c1"
          (some [("version", ["V0"]), ("starting_after", ["c1"])]) none =
        Except.ok
          { Method := "GET", URL := "https://api.snyk.io/rest/orgs?starting_after=c1&version=V0",
            Authorization := "token", Accept := "*/*",
            ContentType := "application/vnd.api+json", Body := none } ∧
      nextCall "V0" "rest/orgs?version=V1" = some ("/rest/rest/orgs?version=V1", none) ∧
      buildRequest demoClient "GET" "/rest/rest/orgs?version=V1" none none =
        Except.ok
          { Method := "GET", URL := "https://api.snyk.io/rest/rest/orgs?version=V1",
            Authorization := "token", Accept := "*/*",
            ContentType := "application/vnd.api+json", Body := none } := by
  exact ⟨by decide!, by decide!, by decide!, by decide!, by decide!⟩

/-- C10, amended. For a next link `next`, with `u` the URL that `getReqURL` composes from
the normalised path:

* the follow-up call is `client.Get(path, params)` where `path` is `next` itself when
  `next` begins with `/rest`, and `/rest/` followed by `next` otherwise; `params` is nil
  when the first value of `version` in the query of `u` is not empty, and the parsed query
  of `u` with `version` set to `apiVersion` (the version of the first request) otherwise;
* the request sent goes to `u` as composed in the first case, and to `u` with its query
  replaced by the encoding of `params` in the second;
* a link that begins with a slash but not with `/rest` gives the same parameters and the
  same request as that link with `/rest` before it;
* the records returned depend on the records of the pages served only: two chains of
  pages with the same records, whatever their links, give the same result. -/
theorem nextCall_normalizes_link (c : Client) (apiVersion next : String) (u : URL)
    (hu : getReqURL (if hasPrefix next "/rest" then next else "/rest/" ++ next) = some u) :
    nextCall apiVersion next =
        some (if hasPrefix next "/rest" then next else "/rest/" ++ next,
              if Values.Get u.Query "version" = "" then
                some (Values.Set u.Query "version" apiVersion)
              else none) ∧
      (∀ urlPath params req, nextCall apiVersion next = some (urlPath, params) →
        buildRequest c "GET" urlPath params none = Except.ok req →
        req.URL =
          (if Values.Get u.Query "version" = "" then
             { u with RawQuery := (Values.Set u.Query "version" apiVersion).Encode }
           else u).Str) ∧
      (hasPrefix next "/" = true → hasPrefix next "/rest" = false →
        (nextCall apiVersion ("/rest" ++ next)).map
            (fun call => (call.2, buildRequest c "GET" call.1 call.2 none)) =
          (nextCall apiVersion next).map
            (fun call => (call.2, buildRequest c "GET" call.1 call.2 none))) ∧
      (∀ (dec1 dec2 : PageDecoder) (t1 t2 : Transport) (path : String)
          (addlParams : Option Values) (pages1 pages2 : List MultiResourceResp) (fuel : Nat)
          (w : World),
        servesPages dec1 c t1 (Values.Get (firstParams c addlParams) "version") w.sent.length
          path (some (firstParams c addlParams)) pages1 →
        servesPages dec2 c t2 (Values.Get (firstParams c addlParams) "version") w.sent.length
          path (some (firstParams c addlParams)) pages2 →
        pages1.map (fun p => p.Data) = pages2.map (fun p => p.Data) →
        pages1.length ≤ fuel →
        (getMultiResource dec1 c t1 path addlParams fuel w).map (fun r => r.1) =
            some (Ret.ok (pages1.flatMap (fun p => p.Data))) ∧
          (getMultiResource dec2 c t2 path addlParams fuel w).map (fun r => r.1) =
            some (Ret.ok (pages1.flatMap (fun p => p.Data)))) := by
  have hcall : nextCall apiVersion next =
      some (if hasPrefix next "/rest" then next else "/rest/" ++ next,
            if Values.Get u.Query "version" = "" then
              some (Values.Set u.Query "version" apiVersion)
            else none) := by
    unfold nextCall
    by_cases hp : hasPrefix next "/rest" = true
    · simp only [hp, if_true, Bool.not_true, Bool.false_eq_true, if_false] at hu ⊢
      rw [hu]
      by_cases hv : Values.Get u.Query "version" = "" <;> simp [hv]
    · have hp2 : hasPrefix next "/rest" = false := by simpa using hp
      simp only [hp2, Bool.false_eq_true, if_false, Bool.not_false, if_true] at hu ⊢
      rw [hu]
      by_cases hv : Values.Get u.Query "version" = "" <;> simp [hv]
  refine ⟨hcall, ?_, ?_, ?_⟩
  · intro urlPath params req hnext hreq
    rw [hcall] at hnext
    injection hnext with hnext
    injection hnext with h1 h2
    subst h1
    have := buildRequest_URL c _ params req u hu hreq
    rw [this, ← h2]
    by_cases hv : Values.Get u.Query "version" = "" <;> simp [hv]
  · intro hslash hno
    have hyes : hasPrefix ("/rest" ++ next) "/rest" = true := by
      obtain ⟨l⟩ := next
      rw [(rest_append l).2]
      simp [hasPrefix, List.isPrefixOf]
    have hg : getReqURL ("/rest/" ++ next) = getReqURL ("/rest" ++ next) :=
      getReqURL_prefixed next hslash
    have hb : ∀ params, buildRequest c "GET" ("/rest/" ++ next) params none =
        buildRequest c "GET" ("/rest" ++ next) params none :=
      fun params => buildRequest_prefixed c next params hslash
    unfold nextCall
    simp only [hyes, hno, Bool.not_true, Bool.not_false, Bool.false_eq_true, if_false, if_true]
    rw [hg]
    cases getReqURL ("/rest" ++ next) with
    | none => rfl
    | some v =>
      by_cases hv : Values.Get v.Query "version" = "" <;> simp [hv, hb]
  · intro dec1 dec2 t1 t2 path addlParams pages1 pages2 fuel w h1 h2 hdata hfuel
    have hlen : pages2.length = pages1.length := by
      have := congrArg List.length hdata
      simpa using this.symm
    have hflat : pages2.flatMap (fun p => p.Data) = pages1.flatMap (fun p => p.Data) := by
      rw [List.flatMap_def, List.flatMap_def, hdata]
    obtain ⟨reqs1, hl1, _, _⟩ := getMultiResourceLoop_pages dec1 c t1
      (Values.Get (firstParams c addlParams) "version") pages1 fuel path
      (some (firstParams c addlParams)) [] w h1 hfuel
    obtain ⟨reqs2, hl2, _, _⟩ := getMultiResourceLoop_pages dec2 c t2
      (Values.Get (firstParams c addlParams) "version") pages2 fuel path
      (some (firstParams c addlParams)) [] w h2 (by omega)
    constructor
    · simp only [getMultiResource]
      rw [hl1]
      simp
    · simp only [getMultiResource]
      rw [hl2, hflat]
      simp

theorem nextCall_normalizes_link_witness :
    nextCall "V0" "/orgs/O/container_images?starting_after=c1" =
      some (if hasPrefix "/orgs/O/container_images?starting_after=c1" "/rest" then
              "/orgs/O/container_images?starting_after=c1"
            else "/rest/" ++ "/orgs/O/container_images?starting_after=c1",
            if Values.Get demoURL.Query "version" = "" then
              some (Values.Set demoURL.Query "version" "V0")
            else none) :=
  (nextCall_normalizes_link demoClient "V0" "/orgs/O/container_images?starting_after=c1"
    demoURL (by decide!)).1

/-- The three shapes of one cursor, evaluated: the prefixed and the missing-prefix shapes
build the same request; the shape without the version builds a request to the same path
whose query holds the link's parameter and the version of the first request. -/
theorem nextCall_three_shapes_evaluated :
    (nextCall "V1" "/rest/orgs/O/container_images?starting_after=c1&version=V1").map
        (fun call => buildRequest demoClient "GET" call.1 call.2 none) =
        some (Except.ok demoPageRequest2) ∧
      (nextCall "V1" "/orgs/O/container_images?starting_after=c1&version=V1").map
        (fun call => buildRequest demoClient "GET" call.1 call.2 none) =
        some (Except.ok demoPageRequest2) ∧
      (nextCall "V1" "/rest/orgs/O/container_images?starting_after=c1").map
        (fun call => buildRequest demoClient "GET" call.1 call.2 none) =
        some (Except.ok demoPageRequest2) := by
  decide!

/-! ## Lemmas on request building -/

/-- What a successful `buildRequest` has built. -/
theorem buildRequest_ok (c : Client) (method urlPath : String) (params : Option Values)
    (body : Option (Except String String)) (req : Request)
    (h : buildRequest c method urlPath params body = Except.ok req) :
    ∃ u0 v, getReqURL urlPath = some u0 ∧
      req =
        { Method := if method = "" then "GET" else method,
          URL := (match params with
                  | some ps => { u0 with RawQuery := ps.Encode }
                  | none => u0).Str,
          Authorization := c.token,
          Accept := "*/*",
          ContentType :=
            if hasPrefix (trimSlash urlPath) "rest/" then "application/vnd.api+json"
            else "application/json",
          Body := body.bind Except.toOption } ∧
      Parse req.URL = some v := by
  revert h
  cases hg : getReqURL urlPath with
  | none => intro h; simp [buildRequest, hg] at h
  | some u =>
    rcases body with _ | ⟨e | j⟩ <;> by_cases hm : method = "" <;> intro h <;>
      simp [buildRequest, hg, hm] at h
    all_goals
      split at h
      · cases h
      · split at h
        · cases h
        · rename_i v hv
          injection h with h
          subst h
          refine ⟨u, v, rfl, ?_, ?_⟩
          · cases params <;> simp [hm, Except.toOption]
          · cases params <;> exact hv

/-! ## Request headers -/

theorem hasPrefix_trimSlash (s : String) :
    hasPrefix (trimSlash s) "rest/" = (hasPrefix s "rest/" || hasPrefix s "/rest/") := by
  obtain ⟨l⟩ := s
  cases l with
  | nil => simp [hasPrefix, trimSlash, List.isPrefixOf]
  | cons ch rest =>
    by_cases h : ch = '/'
    · subst h
      simp [hasPrefix, trimSlash, List.isPrefixOf]
    · have h2 : trimSlash (String.mk (ch :: rest)) = String.mk (ch :: rest) := by
        unfold trimSlash
        split
        · rename_i r heq
          simp at heq
          exact absurd heq.1 h
        · rfl
      rw [h2]
      have h3 : hasPrefix (String.mk (ch :: rest)) "/rest/" = false := by
        have : ('/' == ch) = false := by simpa using fun e => h e.symm
        simp [hasPrefix, List.isPrefixOf, this]
      rw [h3]
      simp

/-- C16: a request built by `send` carries the token verbatim in `Authorization`, `*/*`
in `accept`, and in `Content-Type` the JSON:API type exactly when the path begins with
`rest/`, with or without one leading slash, and plain JSON for every other path. -/
theorem send_request_headers (c : Client) (method urlPath : String)
    (params : Option Values) (body : Option (Except String String)) (req : Request)
    (h : buildRequest c method urlPath params body = Except.ok req) :
    req.Authorization = c.token ∧ req.Accept = "*/*" ∧
      req.ContentType =
        (if hasPrefix urlPath "rest/" = true ∨ hasPrefix urlPath "/rest/" = true then
           "application/vnd.api+json"
         else "application/json") := by
  obtain ⟨u0, v, _, hreq, _⟩ := buildRequest_ok c method urlPath params body req h
  subst hreq
  refine ⟨rfl, rfl, ?_⟩
  simp only [hasPrefix_trimSlash, Bool.or_eq_true]

theorem send_request_headers_witness :
    demoRequest.Authorization = demoClient.token ∧ demoRequest.Accept = "*/*" ∧
      demoRequest.ContentType =
        (if hasPrefix "/rest/orgs" "rest/" = true ∨ hasPrefix "/rest/orgs" "/rest/" = true then
           "application/vnd.api+json"
         else "application/json") :=
  send_request_headers demoClient "GET" "/rest/orgs" none none demoRequest demo_buildRequest

/-- The requests of `send`, evaluated on the two path families. -/
theorem send_request_headers_evaluated :
    buildRequest demoClient "POST" "v1/org/O/project/P/ignore/I" none (some (Except.ok "{}")) =
        Except.ok
          { Method := "POST", URL := "https://api.snyk.io/v1/org/O/project/P/ignore/I",
            Authorization := "token", Accept := "*/*", ContentType := "application/json",
            Body := some "{}" } ∧
      buildRequest demoClient "GET" "rest/orgs" none none =
        Except.ok { demoRequest with URL := "https://api.snyk.io/rest/orgs" } ∧
      buildRequest demoClient "GET" "/restaurant" none none =
        Except.ok
          { Method := "GET", URL := "https://api.snyk.io/restaurant", Authorization := "token",
            Accept := "*/*", ContentType := "application/json", Body := none } := by
  exact ⟨by decide!, by decide!, by decide!⟩

/-! ## Scan types -/

theorem isInSlice_iff_mem {α : Type} [DecidableEq α] (x : α) (l : List α) :
    isInSlice x l = true ↔ x ∈ l := by
  induction l with
  | nil => simp [isInSlice]
  | cons a l ih =>
    unfold isInSlice
    by_cases h : x = a
    · simp [h]
    · simp [h, ih]

/-- What `ScanType` returns, for every project type. -/
theorem ScanType_cases (p : Project) :
    (p.ScanType = "container" ↔ p.Type_ ∈ ["deb", "linux", "dockerfile", "rpm", "apk"]) ∧
      (p.ScanType = "iac" ↔
        p.Type_ ∈ ["k8sconfig", "helmconfig", "terraformconfig", "armconfig",
          "cloudformationconfig", "cloudconfig"]) ∧
      (p.ScanType = "sast" ↔ p.Type_ = "sast") := by
  have hdisj : ∀ x : String,
      x ∈ ["deb", "linux", "dockerfile", "rpm", "apk"] →
        x ∉ ["k8sconfig", "helmconfig", "terraformconfig", "armconfig",
          "cloudformationconfig", "cloudconfig"] ∧ x ≠ "sast" := by
    intro x hx
    simp only [List.mem_cons, List.mem_singleton, List.not_mem_nil, or_false] at hx
    rcases hx with rfl | rfl | rfl | rfl | rfl <;> decide
  have hdisj2 : ∀ x : String,
      x ∈ ["k8sconfig", "helmconfig", "terraformconfig", "armconfig",
          "cloudformationconfig", "cloudconfig"] → x ≠ "sast" := by
    intro x hx
    simp only [List.mem_cons, List.mem_singleton, List.not_mem_nil, or_false] at hx
    rcases hx with rfl | rfl | rfl | rfl | rfl | rfl <;> decide
  unfold Project.ScanType
  simp only
  by_cases h1 : p.Type_ ∈ ["deb", "linux", "dockerfile", "rpm", "apk"]
  · have := hdisj _ h1
    simp only [(isInSlice_iff_mem _ _).2 h1, if_true, h1, this.1, this.2]
    decide
  · have h1b : isInSlice p.Type_ ["deb", "linux", "dockerfile", "rpm", "apk"] = false := by
      cases hb : isInSlice p.Type_ ["deb", "linux", "dockerfile", "rpm", "apk"] with
      | false => rfl
      | true => exact absurd ((isInSlice_iff_mem _ _).1 hb) h1
    by_cases h2 : p.Type_ ∈ ["k8sconfig", "helmconfig", "terraformconfig", "armconfig",
          "cloudformationconfig", "cloudconfig"]
    · have := hdisj2 _ h2
      simp only [h1b, (isInSlice_iff_mem _ _).2 h2, if_true, h1, h2, this]
      decide
    · have h2b : isInSlice p.Type_ ["k8sconfig", "helmconfig", "terraformconfig", "armconfig",
          "cloudformationconfig", "cloudconfig"] = false := by
        cases hb : isInSlice p.Type_ ["k8sconfig", "helmconfig", "terraformconfig",
          "armconfig", "cloudformationconfig", "cloudconfig"] with
        | false => rfl
        | true => exact absurd ((isInSlice_iff_mem _ _).1 hb) h2
      by_cases h3 : p.Type_ = "sast"
      · simp only [h1b, h2b, h1, h2, h3, isInSlice]
        decide
      · have h3b : isInSlice p.Type_ ["sast"] = false := by
          simp [isInSlice, h3]
        simp only [h1b, h2b, h3b, h1, h2, h3]
        decide

/-- C20 (the code differs): for the project type `cloudconfig`, which the doc comment of
`ScanType` does not list, the code returns `iac`, not `opensource`. -/
theorem ScanType_cloudconfig_is_iac (c : Client) :
    Project.ScanType { Type_ := "cloudconfig", client := c } = "iac" := by
  have h := (ScanType_cases { Type_ := "cloudconfig", client := c }).2.1
  exact h.2 (by simp)

/-! ## One round trip -/

/-- `send` when the first response is neither retryable nor a 502: one request, no
sleep, the result decided on that response. -/
theorem send_single (c : Client) (t : Transport) (method urlPath : String)
    (params : Option Values) (body : Option (Except String String)) (req : Request)
    (w : World) (r : Response)
    (hreq : buildRequest c method urlPath params body = Except.ok req)
    (h0 : t w.sent.length req = Outcome.resp r)
    (hnr : ¬ retryable r) (h502 : r.StatusCode ≠ 502) :
    c.send t method urlPath params body w =
      (finish r, { sent := w.sent ++ [req], slept := w.slept }) := by
  have hst : retryStage t req r (httpClientDo t req w).2 = (Ret.ok r, (httpClientDo t req w).2) :=
    retryStage_skip t req r _ hnr
  have h := transmit_stages t req w _ r r h0 hst
  rw [gatewayStage_skip t req r _ h502] at h
  simp only [Client.send, hreq]
  rw [h]
  rfl

/-! ## Page failures -/

theorem getMultiResourceLoop_fails (dec : PageDecoder) (c : Client) (t : Transport)
    (apiVersion : String) (e : GoError) :
    ∀ (pages : List MultiResourceResp) (fuel : Nat) (urlPath : String)
      (params : Option Values) (resources : List Resource) (w : World),
      servesThenFails dec c t apiVersion e w.sent.length urlPath params pages →
      pages.length < fuel →
      ∃ w1, getMultiResourceLoop dec c t apiVersion fuel urlPath params resources w =
        some (Ret.error e, w1) := by
  intro pages
  induction pages with
  | nil =>
    intro fuel urlPath params resources w h hfuel
    cases fuel with
    | zero => simp at hfuel
    | succ f =>
      rcases h w rfl with ⟨w1, hget⟩ | ⟨resp, w1, hget, hdec, he⟩
      · exact ⟨w1, by simp only [getMultiResourceLoop, hget]⟩
      · exact ⟨w1, by simp only [getMultiResourceLoop, hget, hdec, he]⟩
  | cons p rest ih =>
    intro fuel urlPath params resources w h hfuel
    cases fuel with
    | zero => simp at hfuel
    | succ f =>
      obtain ⟨hf, hmore, nextPath, nextParams, hnext, hrest⟩ := h
      obtain ⟨req, resp, hget, _, hdec⟩ := Get_of_fetches dec c t w urlPath params p hf
      have hrest2 : servesThenFails dec c t apiVersion e
          ({ sent := w.sent ++ [req], slept := w.slept } : World).sent.length
          nextPath nextParams rest := by
        simpa using hrest
      obtain ⟨w1, hloop⟩ := ih f nextPath nextParams (resources ++ p.Data)
        { sent := w.sent ++ [req], slept := w.slept } hrest2 (by simpa using hfuel)
      refine ⟨w1, ?_⟩
      simp only [getMultiResourceLoop, hget, hdec, hmore, if_false, hnext]
      exact hloop

/-- Page failures that come back as an error: when the pages `P1 .. P(k-1)` are fetched
and `client.Get` returns the error `e` for page `k`, or its body does not decode (`e` is
then the decoding error), `getMultiResource` returns `e` and no records: the records of
the pages already fetched are not returned. -/
theorem getMultiResource_page_failure (dec : PageDecoder) (c : Client) (t : Transport)
    (path : String) (addlParams : Option Values) (pages : List MultiResourceResp)
    (e : GoError) (fuel : Nat) (w : World)
    (hserved : servesThenFails dec c t (Values.Get (firstParams c addlParams) "version") e
      w.sent.length path (some (firstParams c addlParams)) pages)
    (hfuel : pages.length < fuel) :
    ∃ w1, getMultiResource dec c t path addlParams fuel w = some (Ret.error e, w1) := by
  obtain ⟨w1, h⟩ := getMultiResourceLoop_fails dec c t _ e pages fuel path
    (some (firstParams c addlParams)) [] w hserved hfuel
  exact ⟨w1, by simp only [getMultiResource]; exact h⟩

theorem demo_page_buildRequest :
    buildRequest demoClient "GET" "/rest/orgs/O/container_images"
        (some (firstParams demoClient none)) none = Except.ok demoPageRequest1 ∧
      buildRequest demoClient "GET" demoNext none none = Except.ok demoPageRequest2 ∧
      nextCall (Values.Get (firstParams demoClient none) "version") demoNext =
        some (demoNext, none) := by
  exact ⟨by decide!, by decide!, by decide!⟩

theorem getMultiResource_page_failure_witness :
    ∃ w1, getMultiResource (demoDecoder demoNext) demoClient demoPageThen404
        "/rest/orgs/O/container_images" none 2 World.init =
      some (Ret.error (GoError.errorf "error: '404': 'gone'"), w1) :=
  getMultiResource_page_failure (demoDecoder demoNext) demoClient demoPageThen404
    "/rest/orgs/O/container_images" none [demoPage1 demoNext]
    (GoError.errorf "error: '404': 'gone'") 2 World.init
    ⟨⟨demoPageRequest1, plainResponse 200 "page1", "page1", demo_page_buildRequest.1, rfl,
        by decide, rfl, by decide⟩,
      by decide, demoNext, none, demo_page_buildRequest.2.2,
      fun w hw => Or.inl ⟨{ sent := w.sent ++ [demoPageRequest2], slept := w.slept }, by
        have h := send_single demoClient demoPageThen404 "GET" demoNext none none
          demoPageRequest2 w (plainResponse 404 "gone") demo_page_buildRequest.2.1
          (by rw [hw]; rfl)
          (by intro h; rcases h with h | h <;> exact absurd h (by decide)) (by decide)
        simp only [Client.Get]
        rw [h]
        rfl⟩⟩
    (by decide)

/-- A first page, then 404, evaluated: the records of the first page are not returned. -/
theorem getMultiResource_page_failure_evaluated :
    (getMultiResource (demoDecoder demoNext) demoClient demoPageThen404
        "/rest/orgs/O/container_images" none 2 World.init).map
      (fun r => (r.1, r.2.sent)) =
      some (Ret.error (GoError.errorf "error: '404': 'gone'"),
            [demoPageRequest1, demoPageRequest2]) := by
  decide!

/-! ## Ignores: validation and requests -/

/-- `send` when the first round trip fails: one request, no sleep. -/
theorem send_first_failure_world (c : Client) (t : Transport)
    (method urlPath : String) (params : Option Values)
    (body : Option (Except String String)) (req : Request) (w : World) (e : String)
    (hreq : buildRequest c method urlPath params body = Except.ok req)
    (hfail : t w.sent.length req = Outcome.fail e) :
    c.send t method urlPath params body w =
      (Ret.error (GoError.transport e), { sent := w.sent ++ [req], slept := w.slept }) := by
  simp [Client.send, hreq, transmit, httpClientDo, hfail]

/-- `send` when the request cannot be built: no request. -/
theorem send_unbuilt (c : Client) (t : Transport) (method urlPath : String)
    (params : Option Values) (body : Option (Except String String)) (w : World) (e : GoError)
    (hreq : buildRequest c method urlPath params body = Except.error e) :
    c.send t method urlPath params body w = (Ret.error e, w) := by
  simp [Client.send, hreq]

theorem errorOnly_world (r : Ret Response × World) : (errorOnly r).2 = r.2 := by
  rcases r with ⟨_ | _ | _, w⟩ <;> rfl

/-- C19 (the claim fails): with a valid `ReasonType`, `AddIgnore` issues two requests when
the first answer is 500, and none when the path does not parse as a URL. -/
theorem AddIgnore_not_one_request :
    Issue.AddIgnore demoMarshal demoIssue demoBusyThenOk { ReasonType := "wont-fix" } World.init =
        (Ret.ok (), { sent := [demoIgnoreRequest, demoIgnoreRequest], slept := [1 * Second] }) ∧
      Issue.AddIgnore demoMarshal { demoIssue with orgID := "%" } demoOk
          { ReasonType := "wont-fix" } World.init =
        (Ret.error GoError.url, World.init) := by
  exact ⟨by decide!, by decide!⟩

/-- C19 (amended): `AddIgnore` and `ReplaceIgnore` with a `ReasonType` outside the three
allowed values return the validation error and leave the world as it was: no request.
With one of the three values they return the error of one call of `send`, with method
POST for `AddIgnore` and PUT for `ReplaceIgnore`, on the path
`v1/org/<orgID>/project/<projectID>/ignore/<issue ID>`; that call issues exactly one
request, with that method and the URL composed from that path, when the request can be
built and the first round trip fails or is answered with a status other than 429, 500
and 502. -/
theorem ignore_validation_and_request (marshal : IgnoreOptions → String) (i : Issue)
    (t : Transport) (opts : IgnoreOptions) (w : World) :
    (opts.ReasonType ∉ ["not-vulnerable", "wont-fix", "temporary-ignore"] →
        Issue.AddIgnore marshal i t opts w =
            (Ret.error (GoError.errorf reasonTypeMessage), w) ∧
          Issue.ReplaceIgnore marshal i t opts w =
            (Ret.error (GoError.errorf reasonTypeMessage), w)) ∧
      (opts.ReasonType ∈ ["not-vulnerable", "wont-fix", "temporary-ignore"] →
        Issue.AddIgnore marshal i t opts w =
            errorOnly (i.client.send t "POST"
              ("v1/org/" ++ i.orgID ++ "/project/" ++ i.projectID ++ "/ignore/" ++ i.ID)
              none (some (Except.ok (marshal opts))) w) ∧
          Issue.ReplaceIgnore marshal i t opts w =
            errorOnly (i.client.send t "PUT"
              ("v1/org/" ++ i.orgID ++ "/project/" ++ i.projectID ++ "/ignore/" ++ i.ID)
              none (some (Except.ok (marshal opts))) w) ∧
          ∀ (method : String) (req : Request),
            buildRequest i.client method
                ("v1/org/" ++ i.orgID ++ "/project/" ++ i.projectID ++ "/ignore/" ++ i.ID)
                none (some (Except.ok (marshal opts))) = Except.ok req →
            (∀ r, t w.sent.length req = Outcome.resp r → ¬ retryable r ∧ r.StatusCode ≠ 502) →
            (i.client.send t method
                ("v1/org/" ++ i.orgID ++ "/project/" ++ i.projectID ++ "/ignore/" ++ i.ID)
                none (some (Except.ok (marshal opts))) w).2 =
              { sent := w.sent ++ [req], slept := w.slept } ∧
            (method ≠ "" → req.Method = method) ∧
            ∃ u, getReqURL
                ("v1/org/" ++ i.orgID ++ "/project/" ++ i.projectID ++ "/ignore/" ++ i.ID) =
                  some u ∧ req.URL = u.Str ∧ req.Body = some (marshal opts)) := by
  refine ⟨?_, ?_⟩
  · intro h
    have h3 : opts.ReasonType ≠ "not-vulnerable" ∧ opts.ReasonType ≠ "wont-fix" ∧
        opts.ReasonType ≠ "temporary-ignore" := by
      simpa using h
    simp only [Issue.AddIgnore, Issue.ReplaceIgnore]
    rw [if_pos h3, if_pos h3]
    exact ⟨rfl, rfl⟩
  · intro h
    have h3 : ¬ (opts.ReasonType ≠ "not-vulnerable" ∧ opts.ReasonType ≠ "wont-fix" ∧
        opts.ReasonType ≠ "temporary-ignore") := by
      intro hn
      simp [hn.1, hn.2.1, hn.2.2] at h
    refine ⟨?_, ?_, ?_⟩
    · simp only [Issue.AddIgnore]
      rw [if_neg h3]
      rfl
    · simp only [Issue.ReplaceIgnore]
      rw [if_neg h3]
      rfl
    · intro method req hreq hfirst
      obtain ⟨u0, v, hg, hform, _⟩ := buildRequest_ok _ _ _ _ _ _ hreq
      refine ⟨?_, ?_, u0, hg, ?_, ?_⟩
      · cases h0 : t w.sent.length req with
        | fail e => rw [send_first_failure_world _ _ _ _ _ _ _ _ e hreq h0]
        | resp r =>
          obtain ⟨hnr, h502⟩ := hfirst r h0
          rw [send_single _ _ _ _ _ _ _ _ r hreq h0 hnr h502]
      · intro hm
        rw [hform]
        simp [hm]
      · rw [hform]
      · rw [hform]
        rfl

theorem demo_ignore_buildRequest :
    buildRequest demoClient "POST" "v1/org/O/project/P/ignore/I" none
        (some (Except.ok "{}")) = Except.ok demoIgnoreRequest ∧
      buildRequest demoClient "PUT" "v1/org/O/project/P/ignore/I" none
        (some (Except.ok "{}")) = Except.ok demoReplaceRequest := by
  exact ⟨by decide!, by decide!⟩

theorem ignore_validation_and_request_witness :
    (Issue.AddIgnore demoMarshal demoIssue demoOk { ReasonType := "" } World.init =
        (Ret.error (GoError.errorf reasonTypeMessage), World.init) ∧
      Issue.ReplaceIgnore demoMarshal demoIssue demoOk { ReasonType := "" } World.init =
        (Ret.error (GoError.errorf reasonTypeMessage), World.init)) ∧
    ((demoIssue.client.send demoOk "POST" "v1/org/O/project/P/ignore/I" none
          (some (Except.ok "{}")) World.init).2 =
        { sent := [demoIgnoreRequest], slept := [] } ∧
      (demoIssue.client.send demoOk "PUT" "v1/org/O/project/P/ignore/I" none
          (some (Except.ok "{}")) World.init).2 =
        { sent := [demoReplaceRequest], slept := [] }) :=
  ⟨(ignore_validation_and_request demoMarshal demoIssue demoOk { ReasonType := "" }
      World.init).1 (by decide),
    (((ignore_validation_and_request demoMarshal demoIssue demoOk
        { ReasonType := "wont-fix" } World.init).2 (by decide)).2.2 "POST" demoIgnoreRequest
        demo_ignore_buildRequest.1
        (fun r hr => by
          have h : r = plainResponse 200 "ok" := by
            injection hr.symm.trans (show demoOk 0 demoIgnoreRequest = _ from rfl)
          subst h
          exact ⟨by intro h; rcases h with h | h <;> exact absurd h (by decide),
            by decide⟩)).1,
    (((ignore_validation_and_request demoMarshal demoIssue demoOk
        { ReasonType := "wont-fix" } World.init).2 (by decide)).2.2 "PUT" demoReplaceRequest
        demo_ignore_buildRequest.2
        (fun r hr => by
          have h : r = plainResponse 200 "ok" := by
            injection hr.symm.trans (show demoOk 0 demoReplaceRequest = _ from rfl)
          subst h
          exact ⟨by intro h; rcases h with h | h <;> exact absurd h (by decide),
            by decide⟩)).1⟩

/-- The runs of C19, evaluated. -/
theorem ignore_runs_evaluated :
    Issue.AddIgnore demoMarshal demoIssue demoOk { ReasonType := "temporary-ignore" }
        World.init = (Ret.ok (), { sent := [demoIgnoreRequest], slept := [] }) ∧
      Issue.ReplaceIgnore demoMarshal demoIssue demoOk { ReasonType := "not-vulnerable" }
        World.init = (Ret.ok (), { sent := [demoReplaceRequest], slept := [] }) ∧
      Issue.AddIgnore demoMarshal demoIssue demoOk { ReasonType := "other" } World.init =
        (Ret.error (GoError.errorf reasonTypeMessage), World.init) := by
  exact ⟨by decide!, by decide!, by decide!⟩

/-! ## Ignores: the two shapes -/

theorem lookup_append (acc : IgnoredIssues) (issueID : String) (ignore : Ignore)
    (k : String) :
    ((IgnoredIssues.append acc issueID ignore).lookup k).getD [] =
      (acc.lookup k).getD [] ++ (if issueID = k then [ignore] else []) := by
  induction acc with
  | nil =>
    by_cases h : issueID = k <;> simp [IgnoredIssues.append, IgnoredIssues.lookup, h]
  | cons a rest ih =>
    obtain ⟨key, igs⟩ := a
    by_cases h1 : key = issueID
    · by_cases h2 : key = k
      · have h3 : issueID = k := h1.symm.trans h2
        simp [IgnoredIssues.append, IgnoredIssues.lookup, h1, h3]
      · have h3 : ¬ issueID = k := fun h => h2 (h1.trans h)
        simp [IgnoredIssues.append, IgnoredIssues.lookup, h1, h3]
    · by_cases h2 : key = k
      · have h3 : ¬ issueID = k := fun h => h1 (h2.trans h.symm)
        subst h2
        simp [IgnoredIssues.append, IgnoredIssues.lookup, h1, h3]
      · simp only [IgnoredIssues.append, IgnoredIssues.lookup, h1, h2, if_false]
        exact ih

theorem lookup_foldl_addPathIgnore (issueID k : String) :
    ∀ (ignorePath : IgnoreByPath) (acc : IgnoredIssues),
      ((ignorePath.foldl (addPathIgnore issueID) acc).lookup k).getD [] =
        (acc.lookup k).getD [] ++
          (if issueID = k then
            ignorePath.map fun entry => { entry.2 with Path := entry.2.Path ++ [entry.1] }
          else []) := by
  intro ignorePath
  induction ignorePath with
  | nil => intro acc; by_cases h : issueID = k <;> simp [h]
  | cons e rest ih =>
    intro acc
    rw [List.foldl_cons, ih, addPathIgnore, lookup_append]
    by_cases h : issueID = k <;> simp [h]

theorem lookup_foldl_issue (issueID k : String) :
    ∀ (ignoresByPath : List IgnoreByPath) (acc : IgnoredIssues),
      ((ignoresByPath.foldl
          (fun acc ignorePath => ignorePath.foldl (addPathIgnore issueID) acc) acc).lookup k).getD [] =
        (acc.lookup k).getD [] ++
          (if issueID = k then
            ignoresByPath.flatMap fun ignorePath =>
              ignorePath.map fun entry => { entry.2 with Path := entry.2.Path ++ [entry.1] }
          else []) := by
  intro ignoresByPath
  induction ignoresByPath with
  | nil => intro acc; by_cases h : issueID = k <;> simp [h]
  | cons e rest ih =>
    intro acc
    rw [List.foldl_cons, ih, lookup_foldl_addPathIgnore]
    by_cases h : issueID = k <;> simp [h]

theorem lookup_foldl_all (k : String) :
    ∀ (m : IgnoredIssuesByPath) (acc : IgnoredIssues),
      ((m.foldl
          (fun acc issue =>
            issue.2.foldl (fun acc ignorePath => ignorePath.foldl (addPathIgnore issue.1) acc)
              acc) acc).lookup k).getD [] =
        (acc.lookup k).getD [] ++ ignoresUnder m k := by
  intro m
  induction m with
  | nil => intro acc; simp [ignoresUnder]
  | cons e rest ih =>
    intro acc
    rw [List.foldl_cons, ih, lookup_foldl_issue]
    by_cases h : e.1 = k <;> simp [h, ignoresUnder, List.filter_cons]

/-- C18: for every path-keyed mapping `m` and every issue ID, the list of
`toIgnoredIssues m` for that ID (empty when the ID is absent) holds the ignores of all
(path, ignore) entries under that ID in `m`, in the order the maps are ranged over, each
unchanged but for the path added at the end of its path list: it is a permutation of
them, whatever the order. -/
theorem toIgnoredIssues_same_mapping (m : IgnoredIssuesByPath) (issueID : String) :
    ((toIgnoredIssues m).lookup issueID).getD [] = ignoresUnder m issueID ∧
      List.Perm (((toIgnoredIssues m).lookup issueID).getD []) (ignoresUnder m issueID) := by
  have h : ((toIgnoredIssues m).lookup issueID).getD [] = ignoresUnder m issueID := by
    have h := lookup_foldl_all issueID m []
    simpa [toIgnoredIssues, IgnoredIssues.lookup] using h
  exact ⟨h, h ▸ List.Perm.refl _⟩

/-- The conversion of C18 on a fixture. -/
theorem toIgnoredIssues_evaluated :
    toIgnoredIssues demoIgnoresByPath =
      [("SNYK-1", [{ Reason := "r1", Path := ["*"] }, { Reason := "r2", Path := ["x", "a > b"] }]),
       ("SNYK-2", [{ Reason := "r3", Path := ["*"] }, { Reason := "r4", Path := ["c"] }])] := by
  decide

/-! ## Organizations by ID or by slug -/

theorem ishex_iff (ch : Char) :
    ishex ch = true ↔
      ('0' ≤ ch ∧ ch ≤ '9') ∨ ('a' ≤ ch ∧ ch ≤ 'f') ∨ ('A' ≤ ch ∧ ch ≤ 'F') := by
  simp [ishex, isDigit, or_assoc]

theorem hexRun_iff : ∀ (n : Nat) (l rest : List Char),
    hexRun n l = some rest ↔
      ∃ g, g.length = n ∧ (∀ ch ∈ g, ishex ch = true) ∧ l = g ++ rest := by
  intro n
  induction n with
  | zero =>
    intro l rest
    constructor
    · intro h
      simp only [hexRun, Option.some.injEq] at h
      exact ⟨[], rfl, by simp, by simp [h]⟩
    · rintro ⟨g, hg, _, hl⟩
      have : g = [] := List.length_eq_zero.mp hg
      subst this
      simp [hexRun, hl]
  | succ n ih =>
    intro l rest
    cases l with
    | nil =>
      constructor
      · intro h; simp [hexRun] at h
      · rintro ⟨g, hg, _, hl⟩
        cases g with
        | nil => simp at hg
        | cons a g => simp at hl
    | cons c cs =>
      constructor
      · intro h
        by_cases hc : ishex c = true
        · simp only [hexRun, hc, if_true] at h
          obtain ⟨g, hg, hall, hl⟩ := (ih cs rest).mp h
          refine ⟨c :: g, by simp [hg], ?_, by simp [hl]⟩
          intro ch hch
          rcases List.mem_cons.mp hch with h1 | h1
          · rw [h1]; exact hc
          · exact hall ch h1
        · simp [hexRun, hc] at h
      · rintro ⟨g, hg, hall, hl⟩
        cases g with
        | nil => simp at hg
        | cons a g =>
          simp only [List.cons_append, List.cons.injEq] at hl
          obtain ⟨h1, h2⟩ := hl
          subst h1
          have hc : ishex c = true := hall c (by simp)
          simp only [hexRun, hc, if_true]
          exact (ih cs rest).mpr ⟨g, by simpa using hg, fun ch hch => hall ch (by simp [hch]), h2⟩

theorem hyphen_iff (l rest : List Char) : hyphen l = some rest ↔ l = '-' :: rest := by
  unfold hyphen
  split
  · simp
  · rename_i h
    constructor
    · intro h1; cases h1
    · intro h1; exact absurd h1 (h rest)

theorem isUUID_iff (value : String) : isUUID value = true ↔ UUIDShaped value := by
  have hmatch : isUUID value = true ↔
      (((((((((hexRun 8 value.toList).bind hyphen).bind (hexRun 4)).bind hyphen).bind
        (hexRun 4)).bind hyphen).bind (hexRun 4)).bind hyphen).bind (hexRun 12)) = some [] := by
    unfold isUUID
    split
    · rename_i h
      exact ⟨fun _ => h, fun _ => rfl⟩
    · rename_i h
      constructor
      · intro h1; cases h1
      · intro h1; exact absurd h1 h
  rw [hmatch]
  constructor
  · intro h
    obtain ⟨r8, h, h9⟩ := Option.bind_eq_some.mp h
    obtain ⟨r7, h, h8⟩ := Option.bind_eq_some.mp h
    obtain ⟨r6, h, h7⟩ := Option.bind_eq_some.mp h
    obtain ⟨r5, h, h6⟩ := Option.bind_eq_some.mp h
    obtain ⟨r4, h, h5⟩ := Option.bind_eq_some.mp h
    obtain ⟨r3, h, h4⟩ := Option.bind_eq_some.mp h
    obtain ⟨r2, h, h3⟩ := Option.bind_eq_some.mp h
    obtain ⟨r1, h1, h2⟩ := Option.bind_eq_some.mp h
    obtain ⟨g1, l1, a1, e1⟩ := (hexRun_iff _ _ _).mp h1
    obtain ⟨g2, l2, a2, e2⟩ := (hexRun_iff _ _ _).mp h3
    obtain ⟨g3, l3, a3, e3⟩ := (hexRun_iff _ _ _).mp h5
    obtain ⟨g4, l4, a4, e4⟩ := (hexRun_iff _ _ _).mp h7
    obtain ⟨g5, l5, a5, e5⟩ := (hexRun_iff _ _ _).mp h9
    have d1 := (hyphen_iff _ _).mp h2
    have d2 := (hyphen_iff _ _).mp h4
    have d3 := (hyphen_iff _ _).mp h6
    have d4 := (hyphen_iff _ _).mp h8
    refine ⟨g1, g2, g3, g4, g5, l1, l2, l3, l4, l5, ?_, ?_⟩
    · intro ch hch
      apply (ishex_iff ch).mp
      simp only [List.mem_append] at hch
      rcases hch with (((h | h) | h) | h) | h
      · exact a1 ch h
      · exact a2 ch h
      · exact a3 ch h
      · exact a4 ch h
      · exact a5 ch h
    · rw [e1, d1, e2, d2, e3, d3, e4, d4, e5, List.append_nil]
  · rintro ⟨g1, g2, g3, g4, g5, l1, l2, l3, l4, l5, hall, hv⟩
    have a : ∀ ch ∈ g1 ++ g2 ++ g3 ++ g4 ++ g5, ishex ch = true :=
      fun ch hch => (ishex_iff ch).mpr (hall ch hch)
    have s1 : ∀ rest, hexRun 8 (g1 ++ rest) = some rest := fun rest =>
      (hexRun_iff _ _ _).mpr ⟨g1, l1, fun ch h => a ch (by simp [h]), rfl⟩
    have s2 : ∀ rest, hexRun 4 (g2 ++ rest) = some rest := fun rest =>
      (hexRun_iff _ _ _).mpr ⟨g2, l2, fun ch h => a ch (by simp [h]), rfl⟩
    have s3 : ∀ rest, hexRun 4 (g3 ++ rest) = some rest := fun rest =>
      (hexRun_iff _ _ _).mpr ⟨g3, l3, fun ch h => a ch (by simp [h]), rfl⟩
    have s4 : ∀ rest, hexRun 4 (g4 ++ rest) = some rest := fun rest =>
      (hexRun_iff _ _ _).mpr ⟨g4, l4, fun ch h => a ch (by simp [h]), rfl⟩
    have s5 : hexRun 12 g5 = some [] :=
      (hexRun_iff _ _ _).mpr ⟨g5, l5, fun ch h => a ch (by simp [h]), by simp⟩
    rw [hv, s1]
    simp only [Option.some_bind, hyphen, s2, s3, s4, s5]

theorem firstParams_slug (c : Client) (identifier : String) :
    firstParams c (some (Values.Set [] "slug" identifier)) =
      [("version", [c.APIVersion]), ("limit", ["100"]), ("slug", [identifier])] := by
  simp [firstParams, copyParams, Values.Set, Values.store, Values.Has, Values.lookup]

/-- C17: `OrgsService.Get` takes the single-resource variant exactly for the UUID-shaped
identifiers. For such an identifier it makes one call of `Get` on
`/rest/orgs/<identifier>` with the only parameter `version`, set to the API version of
the client (`defaultAPIVersion` for a client of `NewClient`); when that call is answered
below 400 with a body that decodes to a record, one request has been sent and the result
is the org with the ID, the name and the slug of the record. For any other identifier it
runs the list request on `/rest/orgs` with the parameters `version`, `limit = 100` and
`slug = identifier`; when its pages are served, the result is the org of the first record
or, when there is no record, the error `No org found for slug '<identifier>'`. -/
theorem OrgsService_Get_variants (dec1 : ResourceDecoder) (decN : PageDecoder) (c : Client)
    (t : Transport) (identifier : String) (fuel : Nat) (w : World) :
    (isUUID identifier = true ↔ UUIDShaped identifier) ∧
    (∀ token, (NewClient token).APIVersion = defaultAPIVersion) ∧
    (isUUID identifier = true →
      ∀ (req : Request) (r : Response) (record : Resource),
        buildRequest c "GET" ("/rest/orgs/" ++ identifier)
          (some [("version", [c.APIVersion])]) none = Except.ok req →
        t w.sent.length req = Outcome.resp r → r.StatusCode < 400 →
        r.Body.bind dec1 = some record →
        OrgsService.Get dec1 decN c t identifier fuel w =
            some (Ret.ok (record.intoOrg c), { sent := w.sent ++ [req], slept := w.slept }) ∧
          (record.intoOrg c).ID = record.ID ∧
          (record.intoOrg c).Name = record.Attributes.Name ∧
          (record.intoOrg c).Slug = record.Attributes.Slug) ∧
    (isUUID identifier = false →
      ∀ pages : List MultiResourceResp,
        servesPages decN c t c.APIVersion w.sent.length "/rest/orgs"
          (some [("version", [c.APIVersion]), ("limit", ["100"]), ("slug", [identifier])])
          pages →
        pages.length ≤ fuel →
        ∃ reqs, OrgsService.Get dec1 decN c t identifier fuel w =
            some (((pages.flatMap (fun p => p.Data)).head?.map
                    (fun first => Ret.ok (first.intoOrg c))).getD
                  (Ret.error (GoError.errorf ("No org found for slug '" ++ identifier ++ "'"))),
                { sent := w.sent ++ reqs, slept := w.slept }) ∧
          reqs.length = pages.length) := by
  refine ⟨isUUID_iff identifier, fun _ => rfl, ?_, ?_⟩
  · intro hu req r record hreq ht hst hdec
    refine ⟨?_, rfl, rfl, rfl⟩
    have hnr : ¬ retryable r := by
      intro hr
      have := retryable_ge_400 r hr
      omega
    have hsend := send_single c t "GET" ("/rest/orgs/" ++ identifier)
      (some [("version", [c.APIVersion])]) none req w r hreq ht hnr (by omega)
    have hfin : finish r = Ret.ok r := by
      have : ¬ r.StatusCode ≥ 400 := by omega
      simp only [finish, this, if_false]
    have hsingle : getSingleResource dec1 c t ("/rest/orgs/" ++ identifier) (some []) w =
        (Ret.ok record, { sent := w.sent ++ [req], slept := w.slept }) := by
      simp only [getSingleResource, Option.getD_some, Values.Has, Values.lookup,
        Option.isSome_none, Bool.not_false, if_true, copyParams, Values.Set, Values.store,
        Client.Get]
      rw [hsend, hfin]
      simp only [hdec]
    simp only [OrgsService.Get, hu, if_true, hsingle]
  · intro hu pages hserved hfuel
    have hv : Values.Get (firstParams c (some (Values.Set [] "slug" identifier))) "version" =
        c.APIVersion := by
      rw [firstParams_slug]
      simp [Values.Get, Values.lookup]
    obtain ⟨reqs, hloop, hlen, _⟩ := getMultiResourceLoop_pages decN c t c.APIVersion pages
      fuel "/rest/orgs"
      (some [("version", [c.APIVersion]), ("limit", ["100"]), ("slug", [identifier])]) [] w
      hserved hfuel
    have hmulti : getMultiResource decN c t "/rest/orgs"
        (some (Values.Set [] "slug" identifier)) fuel w =
        some (Ret.ok (pages.flatMap fun p => p.Data),
          { sent := w.sent ++ reqs, slept := w.slept }) := by
      simp only [getMultiResource, hv]
      rw [firstParams_slug, hloop]
      simp
    refine ⟨reqs, ?_, hlen⟩
    simp only [OrgsService.Get, hu, Bool.false_eq_true, if_false, hmulti]
    cases pages.flatMap (fun p => p.Data) <;> rfl

theorem demo_org_buildRequest :
    buildRequest demoClient "GET" ("/rest/orgs/" ++ testOrgID)
        (some [("version", [demoClient.APIVersion])]) none = Except.ok demoOrgRequest ∧
      buildRequest demoClient "GET" "/rest/orgs"
        (some [("version", [demoClient.APIVersion]), ("limit", ["100"]), ("slug", ["org1-abc"])])
        none = Except.ok demoSlugRequest := by
  exact ⟨by decide!, by decide!⟩

theorem OrgsService_Get_variants_witness :
    (OrgsService.Get demoOrgDecoder demoOrgsDecoder demoClient (demoServer "org") testOrgID 1
          World.init =
        some (Ret.ok (demoOrgRecord.intoOrg demoClient),
          { sent := World.init.sent ++ [demoOrgRequest], slept := World.init.slept }) ∧
      (demoOrgRecord.intoOrg demoClient).ID = demoOrgRecord.ID ∧
      (demoOrgRecord.intoOrg demoClient).Name = demoOrgRecord.Attributes.Name ∧
      (demoOrgRecord.intoOrg demoClient).Slug = demoOrgRecord.Attributes.Slug) ∧
    ∃ reqs, OrgsService.Get demoOrgDecoder demoOrgsDecoder demoClient (demoServer "none")
          "org1-abc" 1 World.init =
        some (((([{ Data := [], Links := {} }] : List MultiResourceResp).flatMap
                (fun p => p.Data)).head?.map
                  (fun first => Ret.ok (first.intoOrg demoClient))).getD
                (Ret.error (GoError.errorf ("No org found for slug '" ++ "org1-abc" ++ "'"))),
              { sent := World.init.sent ++ reqs, slept := World.init.slept }) ∧
        reqs.length = ([{ Data := [], Links := {} }] : List MultiResourceResp).length :=
  ⟨(OrgsService_Get_variants demoOrgDecoder demoOrgsDecoder demoClient (demoServer "org")
      testOrgID 1 World.init).2.2.1 (by decide!) demoOrgRequest (plainResponse 200 "org")
      demoOrgRecord demo_org_buildRequest.1 rfl (by decide) (by decide!),
    (OrgsService_Get_variants demoOrgDecoder demoOrgsDecoder demoClient (demoServer "none")
      "org1-abc" 1 World.init).2.2.2 (by decide!) [{ Data := [], Links := {} }]
      ⟨⟨demoSlugRequest, plainResponse 200 "none", "none", demo_org_buildRequest.2, rfl,
        by decide, rfl, by decide!⟩, Or.inl rfl⟩
      (by decide)⟩

/-- The runs of C17, evaluated: the ID of the test, a slug with one match, a slug without
a match, and identifiers that are not UUID-shaped. -/
theorem OrgsService_Get_evaluated :
    OrgsService.Get demoOrgDecoder demoOrgsDecoder demoClient (demoServer "org") testOrgID 1
        World.init =
      some (Ret.ok (demoOrgRecord.intoOrg demoClient), { sent := [demoOrgRequest], slept := [] }) ∧
    OrgsService.Get demoOrgDecoder demoOrgsDecoder demoClient (demoServer "orgs") "org1-abc" 1
        World.init =
      some (Ret.ok (demoOrgRecord.intoOrg demoClient), { sent := [demoSlugRequest], slept := [] }) ∧
    OrgsService.Get demoOrgDecoder demoOrgsDecoder demoClient (demoServer "none") "org1-abc" 1
        World.init =
      some (Ret.error (GoError.errorf "No org found for slug 'org1-abc'"),
        { sent := [demoSlugRequest], slept := [] }) ∧
    isUUID "8BCFF720-99a4-4442-bb35-31f7a74d27b0" = true ∧
    isUUID "8bcff720-99a4-4442-bb35-31f7a74d27b0x" = false ∧
    isUUID "x8bcff720-99a4-4442-bb35-31f7a74d27b0" = false ∧
    isUUID "8bcff72099a44442bb3531f7a74d27b0" = false := by
  exact ⟨by decide!, by decide!, by decide!, by decide!, by decide!, by decide!, by decide!⟩

/-! ## The parameters of the first request -/

theorem lookup_store (v : Values) (k : String) (vs : List String) (k2 : String) :
    Values.lookup (Values.store v k vs) k2 = if k = k2 then some vs else Values.lookup v k2 := by
  induction v with
  | nil => simp [Values.store, Values.lookup]
  | cons a rest ih =>
    obtain ⟨key, old⟩ := a
    by_cases h1 : key = k
    · subst h1
      by_cases h2 : key = k2 <;> simp [Values.store, Values.lookup, h2]
    · by_cases h2 : key = k2
      · subst h2
        have h3 : ¬ k = key := fun h => h1 h.symm
        simp [Values.store, Values.lookup, h1, h3]
      · simp only [Values.store, Values.lookup, h1, h2, if_false]
        exact ih

theorem lookup_foldl_Set (k k2 : String) :
    ∀ (vs : List String) (params : Values),
      Values.lookup (vs.foldl (fun ps v => Values.Set ps k v) params) k2 =
        if k = k2 then (vs.getLast?.map fun v => [v]).or (Values.lookup params k2)
        else Values.lookup params k2 := by
  intro vs
  induction vs with
  | nil => intro params; by_cases h : k = k2 <;> simp [h]
  | cons v rest ih =>
    intro params
    rw [List.foldl_cons, ih, Values.Set, lookup_store]
    by_cases h : k = k2
    · simp only [h, if_true]
      cases rest with
      | nil => simp
      | cons b rest2 =>
        obtain ⟨x, hx⟩ : ∃ x, (b :: rest2).getLast? = some x :=
          ⟨_, List.getLast?_eq_getLast _ (by simp)⟩
        have hx2 : (v :: b :: rest2).getLast? = some x := by
          rw [List.getLast?_cons_cons]; exact hx
        simp [hx, hx2]
    · simp [h]

theorem lookup_copyParams (k2 : String) :
    ∀ (p params : Values), (p.map Prod.fst).Nodup →
      Values.lookup (copyParams params p) k2 =
        (((Values.lookup p k2).bind List.getLast?).map fun v => [v]).or
          (Values.lookup params k2) := by
  intro p
  induction p with
  | nil => intro params _; simp [copyParams, Values.lookup]
  | cons a rest ih =>
    intro params hnd
    obtain ⟨k, vs⟩ := a
    simp only [List.map_cons, List.nodup_cons] at hnd
    obtain ⟨hk, hrest⟩ := hnd
    rw [copyParams, ih _ hrest, lookup_foldl_Set]
    by_cases h : k = k2
    · subst h
      have hnone : Values.lookup rest k = none := by
        clear ih hrest
        induction rest with
        | nil => rfl
        | cons b rest2 ih2 =>
          obtain ⟨kb, vb⟩ := b
          simp only [List.map_cons, List.mem_cons, not_or] at hk
          have hne : ¬ kb = k := fun e => hk.1 e.symm
          simp only [Values.lookup, hne, if_false]
          exact ih2 hk.2
      simp [hnone, Values.lookup]
    · simp [h, Values.lookup]

/-- What `getMultiResource` sends for a caller mapping with distinct keys: a key of the
mapping with at least one value is sent with its last value alone; any other key is sent
only as a default, `version` when the mapping has no such key and `limit`. -/
theorem firstParams_lookup (c : Client) (p : Values) (hp : (p.map Prod.fst).Nodup)
    (k : String) :
    Values.lookup (firstParams c (some p)) k =
      (((Values.lookup p k).bind List.getLast?).map fun v => [v]).or
        (if k = "version" ∧ Values.Has p "version" = false then some [c.APIVersion]
         else if k = "limit" then some ["100"] else none) := by
  simp only [firstParams, Option.getD_some]
  rw [lookup_copyParams k _ _ hp]
  congr 1
  by_cases hv : Values.Has p "version" = true
  · by_cases h1 : k = "limit"
    · subst h1
      simp [hv, Values.Set, Values.store, Values.lookup]
    · have h2 : ¬ "limit" = k := fun e => h1 e.symm
      simp [hv, Values.Set, Values.store, Values.lookup, h1, h2]
  · have hv2 : Values.Has p "version" = false := by simpa using hv
    by_cases h0 : k = "version"
    · subst h0
      simp [hv2, Values.Set, Values.store, Values.lookup]
    · have h0b : ¬ "version" = k := fun e => h0 e.symm
      by_cases h1 : k = "limit"
      · subst h1
        simp [hv2, Values.Set, Values.store, Values.lookup]
      · have h2 : ¬ "limit" = k := fun e => h1 e.symm
        simp [hv2, Values.Set, Values.store, Values.lookup, h0, h0b, h1, h2]

/-- C11 (the claim fails): a key supplied with the two values `a` and `b` is sent with
`b` alone, and a `version` key supplied without a value leaves the request without a
version. -/
theorem firstParams_drops_values :
    firstParams demoClient (some [("names", ["a", "b"])]) =
        [("version", ["2023-09-14~beta"]), ("limit", ["100"]), ("names", ["b"])] ∧
      buildRequest demoClient "GET" "/rest/orgs"
          (some (firstParams demoClient (some [("names", ["a", "b"])]))) none =
        Except.ok { demoRequest with
          URL := "https://api.snyk.io/rest/orgs?limit=100&names=b&version=2023-09-14~beta" } ∧
      firstParams demoClient (some [("version", [])]) = [("limit", ["100"])] := by
  exact ⟨by decide!, by decide!, by decide!⟩

/-- The parameters of the first request when the caller's keys hold one value each. -/
theorem firstParams_evaluated :
    firstParams demoClient none = [("version", ["2023-09-14~beta"]), ("limit", ["100"])] ∧
      firstParams demoClient (some [("version", ["V"]), ("limit", ["10"]), ("slug", ["s"])]) =
        [("limit", ["10"]), ("version", ["V"]), ("slug", ["s"])] := by
  exact ⟨by decide!, by decide!⟩

/-! ## The query of a parsed URL -/

theorem getSchemeRest_spec (whole : List Char) :
    ∀ (rest acc s r : List Char), getSchemeRest whole rest acc = some (s, r) →
      (s = [] ∧ r = whole) ∨
        ∃ mid, rest = mid ++ ':' :: r ∧ s = acc.reverse ++ mid ∧
          ∀ c ∈ mid, (isAlpha c || (isDigit c || c == '+' || c == '-' || c == '.')) = true := by
  intro rest
  induction rest with
  | nil =>
    intro acc s r h
    simp only [getSchemeRest, Option.some.injEq, Prod.mk.injEq] at h
    exact Or.inl ⟨h.1.symm, h.2.symm⟩
  | cons c rest ih =>
    intro acc s r h
    unfold getSchemeRest at h
    by_cases h1 : isAlpha c = true
    · simp only [h1, if_true] at h
      rcases ih _ _ _ h with hl | ⟨mid, hm, hs, hall⟩
      · exact Or.inl hl
      · refine Or.inr ⟨c :: mid, by simp [hm], by simp [hs], ?_⟩
        intro x hx
        rcases List.mem_cons.mp hx with e | e
        · rw [e]; simp [h1]
        · exact hall x e
    · by_cases h2 : (isDigit c || c == '+' || c == '-' || c == '.') = true
      · simp only [h1, h2, if_true, Bool.false_eq_true, if_false] at h
        rcases ih _ _ _ h with hl | ⟨mid, hm, hs, hall⟩
        · exact Or.inl hl
        · refine Or.inr ⟨c :: mid, by simp [hm], by simp [hs], ?_⟩
          intro x hx
          rcases List.mem_cons.mp hx with e | e
          · rw [e]; simp only [h2, Bool.or_true]
          · exact hall x e
      · simp only [h1, h2, Bool.false_eq_true, if_false] at h
        by_cases h3 : c = ':'
        · simp only [h3, if_true, Option.some.injEq, Prod.mk.injEq] at h
          refine Or.inr ⟨[], by simp [h3, h.2], by simp [h.1], by simp⟩
        · simp only [h3, if_false, Option.some.injEq, Prod.mk.injEq] at h
          exact Or.inl ⟨h.1.symm, h.2.symm⟩

/-- What `getScheme` returns: no scheme and the whole text, or a scheme made of letters,
digits, `+`, `-` and `.`, and the text after its colon. -/
theorem getScheme_spec (l s r : List Char) (h : getScheme l = some (s, r)) :
    (s = [] ∧ r = l) ∨
      (s ≠ [] ∧ l = s ++ ':' :: r ∧
        ∀ c ∈ s, (isAlpha c || (isDigit c || c == '+' || c == '-' || c == '.')) = true) := by
  cases l with
  | nil =>
    simp only [getScheme, Option.some.injEq, Prod.mk.injEq] at h
    exact Or.inl ⟨h.1.symm, h.2.symm⟩
  | cons c rest =>
    unfold getScheme at h
    by_cases h1 : isAlpha c = true
    · simp only [h1, if_true] at h
      rcases getSchemeRest_spec _ _ _ _ _ h with hl | ⟨mid, hm, hs, hall⟩
      · exact Or.inl hl
      · refine Or.inr ⟨by simp [hs], by simp [hs, hm], ?_⟩
        intro x hx
        rw [hs] at hx
        simp only [List.reverse_cons, List.reverse_nil, List.nil_append, List.singleton_append,
          List.mem_cons] at hx
        rcases hx with e | e
        · rw [e]; simp [h1]
        · exact hall x e
    · by_cases h2 : (isDigit c || c == '+' || c == '-' || c == '.') = true
      · simp only [h1, h2, if_true, Bool.false_eq_true, if_false, Option.some.injEq,
          Prod.mk.injEq] at h
        exact Or.inl ⟨h.1.symm, h.2.symm⟩
      · simp only [h1, h2, Bool.false_eq_true, if_false] at h
        by_cases h3 : c = ':'
        · simp [h3] at h
        · simp only [h3, if_false, Option.some.injEq, Prod.mk.injEq] at h
          exact Or.inl ⟨h.1.symm, h.2.symm⟩

theorem schemeChar_ne (c : Char)
    (h : (isAlpha c || (isDigit c || c == '+' || c == '-' || c == '.')) = true) :
    c ≠ '?' ∧ c ≠ '#' ∧ c ≠ '/' ∧ c ≠ ':' := by
  refine ⟨?_, ?_, ?_, ?_⟩ <;> (intro e; subst e; revert h; decide)

theorem cutChars_fst_not_mem (sep : Char) : ∀ l : List Char, sep ∉ (cutChars sep l).1 := by
  intro l
  induction l with
  | nil => simp [cutChars]
  | cons c rest ih =>
    by_cases h : c = sep
    · simp [cutChars, h]
    · simp only [cutChars, h, if_false, List.mem_cons, not_or]
      exact ⟨fun e => h e.symm, ih⟩

theorem cutChars_parts (sep : Char) : ∀ l : List Char,
    l = (cutChars sep l).1 ++ (if (cutChars sep l).2.2 then sep :: (cutChars sep l).2.1 else []) ∧
      ((cutChars sep l).2.2 = false → (cutChars sep l).2.1 = []) := by
  intro l
  induction l with
  | nil => simp [cutChars]
  | cons c rest ih =>
    by_cases h : c = sep
    · simp [cutChars, h]
    · simp only [cutChars, h, if_false, List.cons_append, List.cons.injEq, true_and]
      exact ih

theorem cutChars_no_sep (sep : Char) : ∀ l : List Char, sep ∉ l →
    cutChars sep l = (l, [], false) := by
  intro l
  induction l with
  | nil => intro _; rfl
  | cons c rest ih =>
    intro h
    have h1 : c ≠ sep := fun e => h (by simp [e])
    have h2 : sep ∉ rest := fun e => h (by simp [e])
    simp [cutChars, h1, ih h2]

theorem cutChars_at (sep : Char) (pre post : List Char) (h : sep ∉ pre) :
    cutChars sep (pre ++ sep :: post) = (pre, post, true) := by
  rw [cutChars_append sep pre _ h]
  simp [cutChars]

/-- A text that ends with its only question mark has nothing after the mark. -/
theorem cutChars_force : ∀ l : List Char,
    (['?'].isSuffixOf l && l.count '?' == 1) = true → (cutChars '?' l).2.1 = [] := by
  intro l h
  simp only [Bool.and_eq_true, beq_iff_eq] at h
  obtain ⟨hsuf, hcount⟩ := h
  obtain ⟨pre, hpre⟩ := List.isSuffixOf_iff_suffix.mp hsuf
  subst hpre
  have hnot : '?' ∉ pre := by
    intro hmem
    have : 0 < pre.count '?' := List.count_pos_iff.mpr hmem
    simp [List.count_append] at hcount
    omega
  rw [cutChars_at '?' pre [] hnot]

theorem setPath_keeps (u v : URL) (p : String) (h : u.setPath p = some v) :
    v.Scheme = u.Scheme ∧ v.Opaque = u.Opaque ∧ v.RawQuery = u.RawQuery ∧
      v.User = u.User ∧ v.Host = u.Host ∧ v.Fragment = u.Fragment ∧
      v.ForceQuery = u.ForceQuery := by
  unfold URL.setPath at h
  split at h
  · cases h
  · injection h with h
    rw [← h]
    exact ⟨rfl, rfl, rfl, rfl, rfl, rfl, rfl⟩

theorem parseNoFragment_shape (l : List Char) (v : URL) (h : parseNoFragment l = some v) :
    (l = ['*'] ∧ v = { URL.zero with Path := "*" }) ∨
      ∃ scheme rest0, getScheme l = some (scheme, rest0) ∧
        v.Scheme = String.mk (scheme.map Char.toLower) ∧
        v.RawQuery = String.mk
          (if (['?'].isSuffixOf rest0 && rest0.count '?' == 1) = true then []
           else (cutChars '?' rest0).2.1) ∧
        (v.Opaque = "" ∨ v.Opaque = String.mk (cutChars '?' rest0).1) ∧
        v.Fragment = "" := by
  unfold parseNoFragment at h
  by_cases hctl : stringContainsCTLByte l = true
  · simp [hctl] at h
  · by_cases hstar : l = ['*']
    · left
      subst hstar
      simp only [hctl, if_true, Bool.false_eq_true, if_false, Option.some.injEq] at h
      exact ⟨rfl, h.symm⟩
    · right
      simp only [hctl, hstar, Bool.false_eq_true, if_false] at h
      cases hg : getScheme l with
      | none => rw [hg] at h; cases h
      | some sr =>
        obtain ⟨scheme, rest0⟩ := sr
        rw [hg] at h
        simp only at h
        refine ⟨scheme, rest0, rfl, ?_⟩
        split at h
        · injection h with h
          rw [← h]
          exact ⟨rfl, rfl, Or.inr rfl, rfl⟩
        · split at h
          · cases h
          · split at h
            · split at h
              · cases h
              · obtain ⟨h1, h2, h3, _, _, h6, _⟩ := setPath_keeps _ _ _ h
                exact ⟨h1, h3, Or.inl h2, h6⟩
            · split at h
              · obtain ⟨h1, h2, h3, _, _, h6, _⟩ := setPath_keeps _ _ _ h
                exact ⟨h1, h3, Or.inl h2, h6⟩
              · obtain ⟨h1, h2, h3, _, _, h6, _⟩ := setPath_keeps _ _ _ h
                exact ⟨h1, h3, Or.inl h2, h6⟩

theorem toLower_ne (c : Char)
    (h : (isAlpha c || (isDigit c || c == '+' || c == '-' || c == '.')) = true) :
    c.toLower ≠ '?' ∧ c.toLower ≠ '#' := by
  have hc := schemeChar_ne c h
  unfold Char.toLower
  by_cases hu : c.toNat ≥ 65 ∧ c.toNat ≤ 90
  · simp only [hu, and_self, if_true]
    obtain ⟨h1, h2⟩ := hu
    generalize c.toNat = n at h1 h2
    interval_cases n <;> decide
  · simp only [hu, if_false]
    exact ⟨hc.1, hc.2.1⟩

theorem cutChars_fst_mem (sep : Char) (l : List Char) (c : Char)
    (h : c ∈ (cutChars sep l).1) : c ∈ l := by
  have hp := (cutChars_parts sep l).1
  rw [hp]
  exact List.mem_append_left _ h

theorem cutChars_snd_mem (sep : Char) (l : List Char) (c : Char)
    (h : c ∈ (cutChars sep l).2.1) : c ∈ l := by
  have hp := cutChars_parts sep l
  by_cases hf : (cutChars sep l).2.2 = true
  · rw [hp.1]
    simp only [hf, if_true]
    exact List.mem_append_right _ (List.mem_cons_of_mem _ h)
  · have := hp.2 (by simpa using hf)
    rw [this] at h
    simp at h

theorem setFragment_keeps_all (u v : URL) (f : String) (h : u.setFragment f = some v) :
    v.Scheme = u.Scheme ∧ v.Opaque = u.Opaque ∧ v.RawQuery = u.RawQuery ∧
      v.Path = u.Path ∧ v.Host = u.Host ∧ v.User = u.User := by
  unfold URL.setFragment at h
  split at h
  · cases h
  · injection h with h
    rw [← h]
    exact ⟨rfl, rfl, rfl, rfl, rfl, rfl⟩

/-- The query of a parsed URL is the text between the first question mark and the first
hash sign; its scheme and its opaque part hold neither sign. -/
theorem Parse_facts (s : String) (v : URL) (h : Parse s = some v) :
    v.RawQuery = String.mk (cutChars '?' (cutChars '#' s.toList).1).2.1 ∧
      (∀ c ∈ v.Scheme.toList, c ≠ '?' ∧ c ≠ '#') ∧
      (∀ c ∈ v.Opaque.toList, c ≠ '?' ∧ c ≠ '#') ∧
      (∀ c ∈ v.RawQuery.toList, c ≠ '#') := by
  have key : ∀ u, parseNoFragment (cutChars '#' s.toList).1 = some u →
      u.RawQuery = String.mk (cutChars '?' (cutChars '#' s.toList).1).2.1 ∧
        (∀ c ∈ u.Scheme.toList, c ≠ '?' ∧ c ≠ '#') ∧
        (∀ c ∈ u.Opaque.toList, c ≠ '?' ∧ c ≠ '#') ∧
        (∀ c ∈ u.RawQuery.toList, c ≠ '#') := by
    intro u hu
    have hno : '#' ∉ (cutChars '#' s.toList).1 := cutChars_fst_not_mem '#' _
    generalize (cutChars '#' s.toList).1 = l at hu hno
    have hq : ∀ c ∈ (cutChars '?' l).2.1, c ≠ '#' := by
      intro c hc e
      exact hno (e ▸ cutChars_snd_mem '?' l c hc)
    rcases parseNoFragment_shape l u hu with ⟨hl, hv⟩ | ⟨scheme, rest0, hg, hs, hrq, hop, _⟩
    · subst hl
      subst hv
      refine ⟨by decide, by decide, by decide, by decide⟩
    · have hrest : (cutChars '?' rest0).2.1 = (cutChars '?' l).2.1 ∧
          (∀ c ∈ rest0, c ∈ l) ∧
          ∀ c ∈ scheme, (isAlpha c || (isDigit c || c == '+' || c == '-' || c == '.')) = true := by
        rcases getScheme_spec l scheme rest0 hg with ⟨h1, h2⟩ | ⟨_, h2, h3⟩
        · subst h1; subst h2
          exact ⟨rfl, fun _ hc => hc, by simp⟩
        · refine ⟨?_, ?_, h3⟩
          · have hnot : '?' ∉ scheme ++ [':'] := by
              intro hm
              rcases List.mem_append.mp hm with e | e
              · exact (schemeChar_ne _ (h3 _ e)).1 rfl
              · simp at e
            have := cutChars_append '?' (scheme ++ [':']) rest0 hnot
            have h2b : l = (scheme ++ [':']) ++ rest0 := by simp [h2]
            rw [h2b, this]
          · intro c hc
            rw [h2]
            exact List.mem_append_right _ (List.mem_cons_of_mem _ hc)
      obtain ⟨hcut, hsub, hsch⟩ := hrest
      have hrq2 : u.RawQuery = String.mk (cutChars '?' l).2.1 := by
        rw [hrq]
        by_cases hf : (['?'].isSuffixOf rest0 && rest0.count '?' == 1) = true
        · simp only [hf, if_true]
          rw [← hcut, cutChars_force rest0 hf]
        · simp only [hf, if_false, Bool.false_eq_true, hcut]
      refine ⟨hrq2, ?_, ?_, ?_⟩
      · intro c hc
        rw [hs] at hc
        have hc2 : c ∈ scheme.map Char.toLower := hc
        obtain ⟨a, ha, rfl⟩ := List.mem_map.mp hc2
        exact toLower_ne a (hsch a ha)
      · intro c hc
        rcases hop with e | e
        · rw [e] at hc; simp at hc
        · rw [e] at hc
          have hc2 : c ∈ (cutChars '?' rest0).1 := hc
          refine ⟨fun e2 => cutChars_fst_not_mem '?' rest0 (e2 ▸ hc2), fun e2 => ?_⟩
          exact hno (e2 ▸ hsub c (cutChars_fst_mem '?' rest0 c hc2))
      · intro c hc
        rw [hrq2] at hc
        exact hq c hc
  unfold Parse at h
  simp only at h
  cases hp : parseNoFragment (cutChars '#' s.toList).1 with
  | none => rw [hp] at h; cases h
  | some u =>
    rw [hp] at h
    simp only at h
    have hk := key u hp
    split at h
    · injection h with h
      rw [← h]; exact hk
    · obtain ⟨h1, h2, h3, _⟩ := setFragment_keeps_all _ _ _ h
      rw [h1, h2, h3]
      exact hk

/-! ## The text before the query in a rendered URL -/

theorem upperhex_ne (n : Nat) : upperhex n ≠ '?' ∧ upperhex n ≠ '#' := by
  unfold upperhex
  have h : n % 16 < 16 := Nat.mod_lt _ (by decide)
  generalize n % 16 = k at h
  interval_cases k <;> decide

theorem escapeChars_no_mark (mode : Encoding) (x : Char) (hx : shouldEscape x mode = true)
    (h1 : x ≠ '%') (h2 : x ≠ '+') (h3 : ∀ n, upperhex n ≠ x) :
    ∀ l : List Char, x ∉ escapeChars mode l := by
  intro l
  induction l with
  | nil => simp [escapeChars]
  | cons c rest ih =>
    unfold escapeChars
    by_cases hsp : c = ' ' ∧ mode = Encoding.encodeQueryComponent
    · simp only [hsp, and_self, if_true, List.mem_cons, not_or]
      exact ⟨fun e => h2 e, by simpa [hsp] using ih⟩
    · by_cases hesc : shouldEscape c mode = true
      · simp only [hsp, hesc, if_true, if_false, List.mem_cons, not_or]
        exact ⟨h1, fun e => h3 _ e.symm, fun e => h3 _ e.symm, ih⟩
      · simp only [hsp, hesc, if_false, Bool.false_eq_true, List.mem_cons, not_or]
        refine ⟨fun e => hesc (e ▸ hx), ih⟩

theorem escape_no_mark (mode : Encoding) (s : String)
    (hq : shouldEscape '?' mode = true) (hh : shouldEscape '#' mode = true) :
    ∀ c ∈ (escape s mode).toList, c ≠ '?' ∧ c ≠ '#' := by
  intro c hc
  have hc2 : c ∈ escapeChars mode s.toList := hc
  refine ⟨fun e => ?_, fun e => ?_⟩
  · subst e
    exact escapeChars_no_mark mode '?' hq (by decide) (by decide)
      (fun n => (upperhex_ne n).1) _ hc2
  · subst e
    exact escapeChars_no_mark mode '#' hh (by decide) (by decide)
      (fun n => (upperhex_ne n).2) _ hc2

theorem validEncoded_no_mark (s : String) (h : validEncoded s Encoding.encodePath = true) :
    ∀ c ∈ s.toList, c ≠ '?' ∧ c ≠ '#' := by
  intro c hc
  unfold validEncoded at h
  have h1 := List.all_eq_true.mp h c hc
  refine ⟨fun e => ?_, fun e => ?_⟩
  · subst e; revert h1; decide
  · subst e; revert h1; decide

theorem EscapedPath_no_mark (u : URL) : ∀ c ∈ u.EscapedPath.toList, c ≠ '?' ∧ c ≠ '#' := by
  unfold URL.EscapedPath
  split
  · rename_i h
    exact validEncoded_no_mark _ h.2.1
  · split
    · intro c hc
      have : c = '*' := by simpa using hc
      subst this
      decide
    · exact escape_no_mark _ _ (by decide) (by decide)

theorem Userinfo_no_mark (ui : Userinfo) : ∀ c ∈ ui.Str.toList, c ≠ '?' ∧ c ≠ '#' := by
  intro c hc
  unfold Userinfo.Str at hc
  simp only [String.toList, String.data_append, List.mem_append] at hc
  rcases hc with h | h
  · exact escape_no_mark Encoding.encodeUserPassword _ (by decide) (by decide) c h
  · split at h
    · simp only [String.data_append, List.mem_append] at h
      rcases h with h | h
      · have : c = ':' := by simpa using h
        subst this; decide
      · exact escape_no_mark Encoding.encodeUserPassword _ (by decide) (by decide) c h
    · simp at h

theorem authorityText_no_mark (u : URL) : ∀ c ∈ u.authorityText.toList, c ≠ '?' ∧ c ≠ '#' := by
  intro c hc
  unfold URL.authorityText at hc
  split at hc
  · split at hc
    · simp at hc
    · simp only [String.toList, String.data_append, List.mem_append] at hc
      rcases hc with (h | h) | h
      · split at h
        · have : c = '/' := by simpa using h
          subst this; decide
        · simp at h
      · split at h
        · simp only [String.data_append, List.mem_append] at h
          rcases h with h | h
          · exact Userinfo_no_mark _ c h
          · have : c = '@' := by simpa using h
            subst this; decide
        · simp at h
      · split at h
        · exact escape_no_mark Encoding.encodeHost _ (by decide) (by decide) c h
        · simp at h
  · simp at hc

theorem mem_ite_append (P : Prop) [Decidable P] (A B : String) (c : Char)
    (h : c ∈ (if P then A ++ B else A).data) : c ∈ A.data ∨ c ∈ B.data := by
  split at h
  · simpa using h
  · exact Or.inl h

theorem Str_plain_no_mark (u : URL) (hs : ∀ c ∈ u.Scheme.toList, c ≠ '?' ∧ c ≠ '#')
    (ho : ∀ c ∈ u.Opaque.toList, c ≠ '?' ∧ c ≠ '#') (hf : u.ForceQuery = false)
    (hq : u.RawQuery = "") (hfr : u.Fragment = "") :
    ∀ c ∈ u.Str.toList, c ≠ '?' ∧ c ≠ '#' := by
  have hhead : ∀ c ∈ (if u.Scheme ≠ "" then u.Scheme ++ ":" else "").data,
      c ≠ '?' ∧ c ≠ '#' := by
    intro c hc
    split at hc
    · simp only [String.data_append, List.mem_append] at hc
      rcases hc with h | h
      · exact hs c h
      · have : c = ':' := by simpa using h
        subst this; decide
    · simp at hc
  intro c hc
  unfold URL.Str at hc
  simp only [hf, hq, hfr, Bool.false_eq_true, ne_eq, not_true_eq_false, or_self, if_false,
    String.append_empty] at hc
  by_cases hop : u.Opaque = ""
  · simp only [hop, not_true_eq_false, if_false, String.toList, String.data_append,
      List.mem_append] at hc
    rcases hc with h | h
    · rcases mem_ite_append _ _ _ c h with h | h
      · rcases mem_ite_append _ _ _ c h with h | h
        · simp only [String.data_append, List.mem_append] at h
          rcases h with h | h
          · exact hhead c h
          · exact authorityText_no_mark u c h
        · have : c = '/' := by simpa using h
          subst this; decide
      · have : c = '.' ∨ c = '/' := by simpa using h
        rcases this with e | e <;> subst e <;> decide
    · exact EscapedPath_no_mark u c h
  · simp only [hop, not_false_eq_true, if_true, String.toList, String.data_append,
      List.mem_append] at hc
    rcases hc with h | h
    · exact hhead c h
    · exact ho c h

theorem Str_query (u : URL) (q : String) :
    ({ u with RawQuery := q }).Str.toList =
      ({ u with RawQuery := "", ForceQuery := false, Fragment := "" }).Str.toList ++
        (if u.ForceQuery = true ∨ q ≠ "" then '?' :: q.toList else []) ++
        (if u.Fragment ≠ "" then '#' :: u.EscapedFragment.toList else []) := by
  have h1 : ({ u with RawQuery := q }).EscapedPath = u.EscapedPath := rfl
  have h2 : ({ u with RawQuery := "", ForceQuery := false, Fragment := "" }).EscapedPath =
      u.EscapedPath := rfl
  have h3 : ({ u with RawQuery := q }).authorityText = u.authorityText := rfl
  have h4 : ({ u with RawQuery := "", ForceQuery := false, Fragment := "" }).authorityText =
      u.authorityText := rfl
  have h5 : ({ u with RawQuery := q }).EscapedFragment = u.EscapedFragment := rfl
  unfold URL.Str
  simp only [h1, h2, h3, h4, h5, Bool.false_eq_true, ne_eq, not_true_eq_false, or_self, if_false,
    String.append_empty, String.toList, String.data_append]
  congr 1
  · congr 1
    split <;> rfl
  · split <;> rfl

/-- The text that `String` writes for a URL: a part without question mark or hash sign,
then the query after a question mark, then the fragment after a hash sign. -/
theorem Str_shape (u : URL) (hs : ∀ c ∈ u.Scheme.toList, c ≠ '?' ∧ c ≠ '#')
    (ho : ∀ c ∈ u.Opaque.toList, c ≠ '?' ∧ c ≠ '#') :
    ∃ M : List Char, (∀ c ∈ M, c ≠ '?' ∧ c ≠ '#') ∧
      ∀ q : String, ({ u with RawQuery := q }).Str.toList =
        M ++ (if u.ForceQuery = true ∨ q ≠ "" then '?' :: q.toList else []) ++
          (if u.Fragment ≠ "" then '#' :: u.EscapedFragment.toList else []) := by
  refine ⟨({ u with RawQuery := "", ForceQuery := false, Fragment := "" }).Str.toList,
    Str_plain_no_mark { u with RawQuery := "", ForceQuery := false, Fragment := "" } hs ho
      rfl rfl rfl, fun q => Str_query u q⟩

theorem String_mk_toList (s : String) : String.mk s.toList = s := rfl

/-- Parsing the text written for a URL whose query was set to `q` gives the query `q`
back, when the scheme and the opaque part hold no question mark or hash sign and `q`
holds no hash sign. -/
theorem Parse_Str_query (u : URL) (hs : ∀ c ∈ u.Scheme.toList, c ≠ '?' ∧ c ≠ '#')
    (ho : ∀ c ∈ u.Opaque.toList, c ≠ '?' ∧ c ≠ '#') (q : String)
    (hq : ∀ c ∈ q.toList, c ≠ '#') (v : URL)
    (h : Parse ({ u with RawQuery := q }).Str = some v) : v.RawQuery = q := by
  obtain ⟨M, hM, hshape⟩ := Str_shape u hs ho
  have hf := (Parse_facts _ v h).1
  rw [hshape q] at hf
  have hMq : '?' ∉ M := fun hm => (hM _ hm).1 rfl
  have hMh : '#' ∉ M := fun hm => (hM _ hm).2 rfl
  have hQ : '#' ∉ (if u.ForceQuery = true ∨ q ≠ "" then '?' :: q.toList else []) := by
    split
    · intro hm
      rcases List.mem_cons.mp hm with e | e
      · exact absurd e (by decide)
      · exact hq _ e rfl
    · simp
  have hcut : (cutChars '#' (M ++ (if u.ForceQuery = true ∨ q ≠ "" then '?' :: q.toList else []) ++
      (if u.Fragment ≠ "" then '#' :: u.EscapedFragment.toList else []))).1 =
      M ++ (if u.ForceQuery = true ∨ q ≠ "" then '?' :: q.toList else []) := by
    have hno : '#' ∉ M ++ (if u.ForceQuery = true ∨ q ≠ "" then '?' :: q.toList else []) := by
      intro hm
      rcases List.mem_append.mp hm with e | e
      · exact hMh e
      · exact hQ e
    by_cases hfr : u.Fragment ≠ ""
    · rw [if_pos hfr, cutChars_at '#' _ _ hno]
    · rw [if_neg hfr, List.append_nil, cutChars_no_sep '#' _ hno]
  rw [hcut] at hf
  by_cases hc : u.ForceQuery = true ∨ q ≠ ""
  · simp only [hc, if_true] at hf
    rw [cutChars_at '?' _ _ hMq] at hf
    rw [hf]
    rfl
  · simp only [hc, if_false, List.append_nil] at hf
    rw [cutChars_no_sep '?' _ hMq] at hf
    rw [hf]
    have : q = "" := by
      by_contra hne
      exact hc (Or.inr hne)
    rw [this]

theorem joinURLParts_ok (base suffix R : String) (h : joinURLParts base suffix = some R) :
    ∃ su joined ju, Parse suffix = some su ∧ JoinPath base su.Path = some joined ∧
      Parse joined = some ju ∧ R = ({ ju with RawQuery := su.RawQuery }).Str := by
  unfold joinURLParts at h
  cases h1 : Parse suffix with
  | none => rw [h1] at h; cases h
  | some su =>
    rw [h1] at h
    simp only at h
    cases h2 : JoinPath base su.Path with
    | none => rw [h2] at h; cases h
    | some joined =>
      rw [h2] at h
      simp only at h
      cases h3 : Parse joined with
      | none => rw [h3] at h; cases h
      | some ju =>
        rw [h3] at h
        simp only [Option.some.injEq] at h
        exact ⟨su, joined, ju, rfl, h2, h3, h.symm⟩

/-- The query that parsing the result of `joinURLParts` gives is the query of the
suffix. -/
theorem joinURLParts_query (base suffix R : String) (su v : URL)
    (hs : Parse suffix = some su) (hj : joinURLParts base suffix = some R)
    (hp : Parse R = some v) : v.RawQuery = su.RawQuery := by
  obtain ⟨su2, joined, ju, h1, _, h3, hR⟩ := joinURLParts_ok base suffix R hj
  rw [hs] at h1
  injection h1 with h1
  subst h1
  obtain ⟨_, hsch, hop, _⟩ := Parse_facts joined ju h3
  obtain ⟨_, _, _, hq⟩ := Parse_facts suffix su hs
  rw [hR] at hp
  exact Parse_Str_query ju hsch hop su.RawQuery hq v hp

/-! ## The query of the request -/

theorem intercalate_go_mem (s : String) (c : Char) :
    ∀ (l : List String) (acc : String), c ∈ (String.intercalate.go acc s l).data →
      c ∈ acc.data ∨ c ∈ s.data ∨ ∃ a ∈ l, c ∈ a.data := by
  intro l
  induction l with
  | nil => intro acc h; exact Or.inl h
  | cons a rest ih =>
    intro acc h
    simp only [String.intercalate.go] at h
    rcases ih _ h with h1 | h1 | ⟨b, hb, hc⟩
    · simp only [String.data_append, List.mem_append] at h1
      rcases h1 with (h1 | h1) | h1
      · exact Or.inl h1
      · exact Or.inr (Or.inl h1)
      · exact Or.inr (Or.inr ⟨a, by simp, h1⟩)
    · exact Or.inr (Or.inl h1)
    · exact Or.inr (Or.inr ⟨b, by simp [hb], hc⟩)

theorem intercalate_mem (s : String) (c : Char) (l : List String)
    (h : c ∈ (s.intercalate l).data) : c ∈ s.data ∨ ∃ a ∈ l, c ∈ a.data := by
  cases l with
  | nil => simp [String.intercalate] at h
  | cons a rest =>
    simp only [String.intercalate] at h
    rcases intercalate_go_mem s c rest a h with h1 | h1 | ⟨b, hb, hc⟩
    · exact Or.inr ⟨a, by simp, h1⟩
    · exact Or.inl h1
    · exact Or.inr ⟨b, by simp [hb], hc⟩

/-- The text written by `Values.Encode` holds no hash sign. -/
theorem Encode_no_hash (ps : Values) : ∀ c ∈ ps.Encode.toList, c ≠ '#' := by
  intro c hc e
  subst e
  have hesc : ∀ s : String, '#' ∉ (QueryEscape s).data := fun s =>
    escapeChars_no_mark Encoding.encodeQueryComponent '#' (by decide) (by decide) (by decide)
      (fun n => (upperhex_ne n).2) _
  unfold Values.Encode at hc
  rcases intercalate_mem _ _ _ hc with h | ⟨a, ha, h⟩
  · revert h; decide
  · obtain ⟨k, _, hk⟩ := List.mem_flatMap.mp ha
    unfold encodeKey at hk
    obtain ⟨value, _, hv⟩ := List.mem_map.mp hk
    rw [← hv] at h
    simp only [String.data_append, List.mem_append] at h
    rcases h with (h | h) | h
    · exact hesc _ h
    · revert h; decide
    · exact hesc _ h

theorem getReqURL_ok (urlPath : String) (u : URL) (h : getReqURL urlPath = some u) :
    ∃ su R, Parse urlPath = some su ∧ joinURLParts baseURL urlPath = some R ∧
      Parse R = some u ∧ u.RawQuery = su.RawQuery := by
  unfold getReqURL at h
  cases hj : joinURLParts baseURL urlPath with
  | none => rw [hj] at h; cases h
  | some R =>
    rw [hj] at h
    simp only at h
    obtain ⟨su, _, _, hs, _, _, _⟩ := joinURLParts_ok _ _ _ hj
    exact ⟨su, R, hs, rfl, h, joinURLParts_query _ _ _ _ _ hs hj h⟩

/-- The query of the URL of a built request: the encoding of `params` when `params` is
not nil, the query of the path otherwise. -/
theorem buildRequest_query (c : Client) (method urlPath : String) (params : Option Values)
    (body : Option (Except String String)) (req : Request)
    (h : buildRequest c method urlPath params body = Except.ok req) :
    ∃ su v, Parse urlPath = some su ∧ Parse req.URL = some v ∧
      v.RawQuery = (params.map Values.Encode).getD su.RawQuery := by
  obtain ⟨u0, v, hg, hform, hv⟩ := buildRequest_ok c method urlPath params body req h
  obtain ⟨su, R, hs, _, hR, hq⟩ := getReqURL_ok urlPath u0 hg
  obtain ⟨_, hsch, hop, hno⟩ := Parse_facts R u0 hR
  refine ⟨su, v, hs, hv, ?_⟩
  cases params with
  | some ps =>
    have hurl : req.URL = ({ u0 with RawQuery := ps.Encode }).Str := by rw [hform]
    rw [hurl] at hv
    simp only [Option.map_some', Option.getD_some]
    exact Parse_Str_query u0 hsch hop ps.Encode (Encode_no_hash ps) v hv
  | none =>
    have hurl : req.URL = ({ u0 with RawQuery := u0.RawQuery }).Str := by rw [hform]
    rw [hurl] at hv
    simp only [Option.map_none', Option.getD_none]
    rw [← hq]
    exact Parse_Str_query u0 hsch hop u0.RawQuery hno v hv

/-- C13 (the claim fails): an empty mapping that is not nil replaces the query of the
path, by the empty query. -/
theorem send_empty_params_drop_query :
    buildRequest demoClient "GET" "/rest/orgs?version=X" (some []) none =
        Except.ok demoRequest ∧
      buildRequest demoClient "GET" "/rest/orgs?version=X" none none =
        Except.ok { demoRequest with URL := "https://api.snyk.io/rest/orgs?version=X" } ∧
      (Parse demoRequest.URL).map (fun v => v.RawQuery) = some "" := by
  exact ⟨by decide!, by decide!, by decide!⟩

/-- C13 (amended): for every request that `send` builds from a path and a mapping
`params`: when `params` is not nil, empty or not, the query of the request URL is the
encoding of `params`, in place of any query of the path; when `params` is nil it is the
query of the path, unchanged. -/
theorem send_query_string (c : Client) (method urlPath : String) (params : Option Values)
    (body : Option (Except String String)) (req : Request)
    (h : buildRequest c method urlPath params body = Except.ok req) :
    ∃ su v, Parse urlPath = some su ∧ Parse req.URL = some v ∧
      (∀ ps, params = some ps → v.RawQuery = ps.Encode) ∧
      (params = none → v.RawQuery = su.RawQuery) := by
  obtain ⟨su, v, hs, hv, hq⟩ := buildRequest_query c method urlPath params body req h
  refine ⟨su, v, hs, hv, ?_, ?_⟩
  · intro ps hp
    rw [hq, hp]
    rfl
  · intro hp
    rw [hq, hp]
    rfl

theorem send_query_string_witness :
    ∃ su v, Parse "/rest/orgs/O/container_images" = some su ∧
      Parse demoPageRequest1.URL = some v ∧
      (∀ ps, some (firstParams demoClient none) = some ps → v.RawQuery = ps.Encode) ∧
      (some (firstParams demoClient none) = none → v.RawQuery = su.RawQuery) :=
  send_query_string demoClient "GET" "/rest/orgs/O/container_images"
    (some (firstParams demoClient none)) none demoPageRequest1 demo_page_buildRequest.1

/-- The queries of C13, evaluated: a mapping replaces the query of the path, a nil
mapping keeps it. -/
theorem send_query_string_evaluated :
    buildRequest demoClient "GET" "/rest/orgs?version=X&limit=5"
        (some [("slug", ["a b"]), ("limit", ["10"])]) none =
      Except.ok { demoRequest with URL := "https://api.snyk.io/rest/orgs?limit=10&slug=a+b" } ∧
    buildRequest demoClient "GET" "/rest/orgs?version=X&limit=5" none none =
      Except.ok { demoRequest with URL := "https://api.snyk.io/rest/orgs?version=X&limit=5" } := by
  exact ⟨by decide!, by decide!⟩

/-! ## A leading slash on the suffix -/

theorem isPrefixOf_slash_cut (sep : Char) (l : List Char) (h : ['/'].isPrefixOf l = false) :
    ['/'].isPrefixOf (cutChars sep l).1 = false := by
  cases l with
  | nil => simp [cutChars]
  | cons c rest =>
    by_cases hc : c = sep
    · simp [cutChars, hc]
    · have h1 : c ≠ '/' := by
        intro e
        subst e
        simp [List.isPrefixOf] at h
      simp only [cutChars, hc, if_false]
      simp [List.isPrefixOf]
      exact fun e => h1 e.symm

theorem isSuffixOf_cons_ne (x c : Char) (l : List Char) (hl : l ≠ []) :
    [x].isSuffixOf (c :: l) = [x].isSuffixOf l := by
  simp only [List.isSuffixOf, List.reverse_cons]
  cases hr : l.reverse with
  | nil => simp at hr; exact absurd hr hl
  | cons y ys => simp [List.isPrefixOf]

theorem setPath_some (u v : URL) (p : String) (h : u.setPath p = some v) :
    ∃ X, unescapeChars Encoding.encodePath p.toList = some X ∧ v.Path = String.mk X := by
  unfold URL.setPath unescape at h
  cases hx : unescapeChars Encoding.encodePath p.toList with
  | none => rw [hx] at h; simp at h
  | some X =>
    rw [hx] at h
    simp only [Option.map_some', Option.some.injEq] at h
    exact ⟨X, rfl, by rw [← h]⟩

/-- The parse of a text without scheme and without leading slash, with a slash put
before it: the same URL with the slash before its path. -/
theorem parseNoFragment_leading_slash (l : List Char) (u : URL)
    (h : parseNoFragment l = some u) (hsch : u.Scheme = "") (hpath : u.Path ≠ "")
    (hns : ['/'].isPrefixOf l = false) :
    ∃ u2, parseNoFragment ('/' :: l) = some u2 ∧ u2.Path = "/" ++ u.Path ∧
      u2.RawQuery = u.RawQuery := by
  by_cases hstar : l = ['*']
  · subst hstar
    have hu : u = { URL.zero with Path := "*" } := by
      have h2 : parseNoFragment ['*'] = some { URL.zero with Path := "*" } := by decide
      rw [h2] at h
      injection h with h
      exact h.symm
    subst hu
    exact ⟨{ URL.zero with Path := "/*", RawPath := "/*" }, by decide, by decide, rfl⟩
  · have hctl : stringContainsCTLByte l = false := by
      cases hc : stringContainsCTLByte l with
      | false => rfl
      | true => simp [parseNoFragment, hc] at h
    rcases parseNoFragment_shape l u h with ⟨hl, _⟩ | ⟨scheme, rest0, hg, hs, _, _, _⟩
    · exact absurd hl hstar
    · have hnil : scheme = [] := by
        rw [hs] at hsch
        have := congrArg String.data hsch
        simpa using this
      subst hnil
      have hrest0 : rest0 = l := by
        rcases getScheme_spec l [] rest0 hg with ⟨_, h2⟩ | ⟨h1, _⟩
        · exact h2
        · exact absurd rfl h1
      subst hrest0
      have hp1 : ['/'].isPrefixOf (cutChars '?' rest0).1 = false :=
        isPrefixOf_slash_cut '?' rest0 hns
      have hp2 : ['/', '/'].isPrefixOf (cutChars '?' rest0).1 = false := by
        cases hr : (cutChars '?' rest0).1 with
        | nil => rfl
        | cons a b =>
          rw [hr] at hp1
          have : ¬ '/' = a := by simpa [List.isPrefixOf] using hp1
          simp [List.isPrefixOf, this]
      unfold parseNoFragment at h
      simp only [hctl, hstar, hg, Bool.false_eq_true, if_false, List.map_nil, ne_eq,
        not_true_eq_false, decide_False, Bool.and_false, Bool.false_or, Bool.false_and,
        hp1, hp2, Bool.not_false, Bool.true_and] at h
      by_cases hcolon : (cutChars '/' (cutChars '?' rest0).1).1.contains ':' = true
      · rw [if_pos hcolon] at h
        cases h
      · rw [if_neg hcolon] at h
        obtain ⟨X, hX, hXp⟩ := setPath_some _ _ _ h
        obtain ⟨_, _, hrq, _⟩ := setPath_keeps _ _ _ h
        have hXne : X ≠ [] := by
          intro e
          rw [hXp, e] at hpath
          exact hpath rfl
        have hrest : (cutChars '?' rest0).1 ≠ [] := by
          intro e
          rw [show (String.mk (cutChars '?' rest0).1).toList = (cutChars '?' rest0).1 from rfl,
            e] at hX
          simp [unescapeChars] at hX
          exact hXne hX
        have hl : rest0 ≠ [] := by
          intro e
          rw [e] at hrest
          simp [cutChars] at hrest
        have hX1 : unescapeChars Encoding.encodePath (cutChars '?' rest0).1 = some X := hX
        have hX2 : unescapeChars Encoding.encodePath ('/' :: (cutChars '?' rest0).1) =
            some ('/' :: X) := by
          rw [unescapeChars_plain '/' (by decide) (by decide), hX1]
          rfl
        have hscheme2 : getScheme ('/' :: rest0) = some ([], '/' :: rest0) := by
          simp [getScheme, isAlpha, isDigit]
        have hctl2 : stringContainsCTLByte ('/' :: rest0) = false := by
          simp only [stringContainsCTLByte, List.any_cons] at hctl ⊢
          rw [hctl]
          decide
        have hcut2 : cutChars '?' ('/' :: rest0) =
            ('/' :: (cutChars '?' rest0).1, (cutChars '?' rest0).2.1, (cutChars '?' rest0).2.2) := by
          simp [cutChars]
        have hsuf : ['?'].isSuffixOf ('/' :: rest0) = ['?'].isSuffixOf rest0 :=
          isSuffixOf_cons_ne _ _ _ hl
        have hcount : ('/' :: rest0).count '?' = rest0.count '?' := by
          simp [List.count_cons]
        have hstar2 : ¬ ('/' :: rest0 = ['*']) := by simp
        have hparse : parseNoFragment ('/' :: rest0) =
            URL.setPath
              { URL.zero with
                Scheme := String.mk [],
                ForceQuery := (['?'].isSuffixOf rest0 && rest0.count '?' == 1),
                RawQuery := String.mk
                  (if (['?'].isSuffixOf rest0 && rest0.count '?' == 1) = true then []
                   else (cutChars '?' rest0).2.1) }
              (String.mk ('/' :: (cutChars '?' rest0).1)) := by
          unfold parseNoFragment
          simp only [hctl2, hstar2, hscheme2, hcut2, hsuf, hcount, Bool.false_eq_true, if_false,
            List.map_nil]
          have hp3 : ['/', '/'].isPrefixOf ('/' :: (cutChars '?' rest0).1) = false := by
            simpa [List.isPrefixOf] using hp1
          have hp4 : ['/'].isPrefixOf ('/' :: (cutChars '?' rest0).1) = true := by
            simp [List.isPrefixOf]
          simp [hp3, hp4]
        rw [hparse]
        unfold URL.setPath unescape
        rw [show (String.mk ('/' :: (cutChars '?' rest0).1)).toList =
          '/' :: (cutChars '?' rest0).1 from rfl, hX2]
        refine ⟨_, rfl, ?_, ?_⟩
        · rw [hXp]
          rfl
        · rw [hrq]


theorem Parse_leading_slash (P : List Char) (su : URL) (h : Parse (String.mk P) = some su)
    (hsch : su.Scheme = "") (hpath : su.Path ≠ "") (hns : ['/'].isPrefixOf P = false) :
    ∃ su2, Parse (String.mk ('/' :: P)) = some su2 ∧ su2.Path = "/" ++ su.Path ∧
      su2.RawQuery = su.RawQuery := by
  have hc : cutChars '#' ('/' :: P) =
      ('/' :: (cutChars '#' P).1, (cutChars '#' P).2.1, (cutChars '#' P).2.2) := by
    simp [cutChars]
  have hns2 : ['/'].isPrefixOf (cutChars '#' P).1 = false := isPrefixOf_slash_cut '#' P hns
  unfold Parse at h ⊢
  simp only [show (String.mk ('/' :: P)).toList = '/' :: P from rfl,
    show (String.mk P).toList = P from rfl, hc] at h ⊢
  cases hp : parseNoFragment (cutChars '#' P).1 with
  | none => rw [hp] at h; cases h
  | some u =>
    rw [hp] at h
    simp only at h
    by_cases hf : (cutChars '#' P).2.1 = []
    · simp only [hf, if_true, Option.some.injEq] at h
      subst h
      obtain ⟨u2, h2, h3, h4⟩ := parseNoFragment_leading_slash _ u hp hsch hpath hns2
      rw [h2]
      simp only [hf, if_true]
      exact ⟨u2, rfl, h3, h4⟩
    · simp only [hf, if_false] at h
      obtain ⟨k1, _, k3, k4, _, _⟩ := setFragment_keeps_all _ _ _ h
      obtain ⟨u2, h2, h3, h4⟩ := parseNoFragment_leading_slash _ u hp (k1 ▸ hsch)
        (k4 ▸ hpath) hns2
      rw [h2]
      simp only [hf, if_false]
      unfold URL.setFragment at h ⊢
      cases hx : unescape (String.mk (cutChars '#' P).2.1) Encoding.encodeFragment with
      | none => rw [hx] at h; cases h
      | some frag =>
        rw [hx] at h
        simp only [Option.some.injEq] at h ⊢
        refine ⟨_, rfl, ?_, ?_⟩
        · rw [← h]; exact h3
        · rw [← h]; exact h4

theorem pathJoin_leading_slash (a R : List Char) (ha : a ≠ []) (hR : R ≠ []) :
    pathJoin [a, '/' :: R] = pathJoin [a, R] := by
  have h1 : ∀ e : List Char, e ≠ [] → pathJoin [a, e] = Clean (a ++ '/' :: e) := by
    intro e he
    simp [pathJoin, joinBuf, he, ha]
  rw [h1 _ (by simp), h1 _ hR]
  exact Clean_double_slash a R

theorem joinPathText_leading_slash (u : URL) (R : List Char) (hR : R ≠ []) :
    joinPathText u (String.mk ('/' :: R)) = joinPathText u (String.mk R) := by
  unfold joinPathText
  simp only [show (String.mk ('/' :: R)).toList = '/' :: R from rfl,
    show (String.mk R).toList = R from rfl]
  rw [isSuffixOf_cons_ne '/' '/' R hR]
  by_cases hp : ['/'].isPrefixOf u.EscapedPath.toList = true
  · have hne : u.EscapedPath.toList ≠ [] := by
      intro e
      rw [e] at hp
      simp [List.isPrefixOf] at hp
    simp only [hp, Bool.not_true, Bool.false_eq_true, if_false]
    rw [pathJoin_leading_slash _ R hne hR]
  · simp only [hp, Bool.not_false, if_true]
    rw [pathJoin_leading_slash _ R (by simp) hR]


theorem URL_JoinPath_leading_slash (u : URL) (R : List Char) (hR : R ≠ []) :
    u.JoinPath (String.mk ('/' :: R)) = u.JoinPath (String.mk R) := by
  unfold URL.JoinPath URL.joinPath
  rw [joinPathText_leading_slash u R hR]

theorem JoinPath_leading_slash (base : String) (R : List Char) (hR : R ≠ []) :
    JoinPath base (String.mk ('/' :: R)) = JoinPath base (String.mk R) := by
  unfold JoinPath
  cases Parse base with
  | none => rfl
  | some u => simp only [URL.joinPath, joinPathText_leading_slash u R hR]

/-! ## The claims on `joinURLParts` -/

/-- C14: for every base and every suffix that parses, parsing the result of
`joinURLParts base suffix` gives the query of the suffix, which is the text of the suffix
between its first question mark and its first hash sign, character for character; the
query of the base has no part in it. -/
theorem joinURLParts_keeps_query (base suffix R : String) (su v : URL)
    (hs : Parse suffix = some su) (hj : joinURLParts base suffix = some R)
    (hp : Parse R = some v) :
    v.RawQuery = su.RawQuery ∧
      su.RawQuery = String.mk (cutChars '?' (cutChars '#' suffix.toList).1).2.1 :=
  ⟨joinURLParts_query base suffix R su v hs hj hp, (Parse_facts suffix su hs).1⟩

theorem joinURLParts_keeps_query_witness :
    demoJoinedURL.RawQuery = demoSuffixURL.RawQuery ∧
      demoSuffixURL.RawQuery =
        String.mk (cutChars '?' (cutChars '#' "/rest/orgs/ID?version=X".toList).1).2.1 :=
  joinURLParts_keeps_query "https://api.snyk.io/?x=1" "/rest/orgs/ID?version=X"
    "https://api.snyk.io/rest/orgs/ID?version=X" demoSuffixURL demoJoinedURL
    (by decide!) (by decide!) (by decide!)

/-- The example of C14, evaluated, with a query on the base and without. -/
theorem joinURLParts_query_evaluated :
    joinURLParts baseURL "/rest/orgs/ID?version=X" =
        some "https://api.snyk.io/rest/orgs/ID?version=X" ∧
      joinURLParts "https://api.snyk.io/?x=1" "/rest/orgs/ID?version=X" =
        some "https://api.snyk.io/rest/orgs/ID?version=X" ∧
      joinURLParts "https://api.snyk.io/?x=1" "/rest/orgs/ID" =
        some "https://api.snyk.io/rest/orgs/ID" ∧
      (getReqURL "/rest/orgs/ID?version=X").map (fun u => u.RawQuery) = some "version=X" := by
  exact ⟨by decide!, by decide!, by decide!, by decide!⟩

/-- C15 (the claim fails): a suffix whose first segment holds a colon is read as a scheme
or refused when it has no leading slash; the empty suffix gives the base as it is, the
suffix `/` adds a slash; the segments `..` are resolved against the base path, also
those of the base; an empty segment of the suffix is dropped; a byte that a path escapes
is written as its escape; and the path joined to an opaque base is not written at all. -/
theorem joinURLParts_slash_differs :
    joinURLParts baseURL "/a:b" = some "https://api.snyk.io/a:b" ∧
      joinURLParts baseURL "a:b" = some "https://api.snyk.io/" ∧
      joinURLParts baseURL "/1a:b" = some "https://api.snyk.io/1a:b" ∧
      joinURLParts baseURL "1a:b" = none ∧
      joinURLParts "https://api.snyk.io/v1" "/" = some "https://api.snyk.io/v1/" ∧
      joinURLParts "https://api.snyk.io/v1" "" = some "https://api.snyk.io/v1" ∧
      joinURLParts "https://api.snyk.io/v1" "../x" = some "https://api.snyk.io/x" ∧
      joinURLParts "https://api.snyk.io/a/../b" "x" = some "https://api.snyk.io/b/x" ∧
      joinURLParts "https://api.snyk.io/v1" "a//b" = some "https://api.snyk.io/v1/a/b" ∧
      joinURLParts "https://api.snyk.io/v1" "a b" = some "https://api.snyk.io/v1/a%20b" ∧
      joinURLParts "mailto:a" "x" = some "mailto:a" := by
  exact ⟨by decide!, by decide!, by decide!, by decide!, by decide!, by decide!, by decide!,
    by decide!, by decide!, by decide!, by decide!⟩

/-- A slash before the suffix changes nothing: for every base and every suffix `p` that
parses as a reference without scheme, with a path that is not empty, and that does not
begin with a slash, `joinURLParts base ("/" ++ p)` equals `joinURLParts base p`. -/
theorem joinURLParts_leading_slash (base p : String) (su : URL)
    (hs : Parse p = some su) (hsch : su.Scheme = "") (hpath : su.Path ≠ "")
    (hns : hasPrefix p "/" = false) :
    joinURLParts base ("/" ++ p) = joinURLParts base p := by
  obtain ⟨P⟩ := p
  obtain ⟨su2, h2, h3, h4⟩ := Parse_leading_slash P su hs hsch hpath hns
  have happ : "/" ++ String.mk P = String.mk ('/' :: P) := rfl
  have hR : su.Path.toList ≠ [] := by
    intro e
    apply hpath
    have : su.Path = String.mk su.Path.toList := rfl
    rw [this, e]
  have hj : JoinPath base su2.Path = JoinPath base su.Path := by
    rw [h3]
    exact JoinPath_leading_slash base su.Path.toList hR
  unfold joinURLParts
  rw [happ, h2, hs]
  simp only [hj, h4]

theorem joinURLParts_leading_slash_witness :
    joinURLParts "https://api.snyk.io" ("/" ++ "v1/org/X") =
      joinURLParts "https://api.snyk.io" "v1/org/X" :=
  joinURLParts_leading_slash "https://api.snyk.io" "v1/org/X" demoRelativeURL
    (by decide!) (by decide) (by decide) (by decide)

/-- The example of C15, evaluated, for a base with and without a slash at its end. -/
theorem joinURLParts_slash_evaluated :
    joinURLParts baseURL "v1/org/X" = some "https://api.snyk.io/v1/org/X" ∧
      joinURLParts baseURL "/v1/org/X" = some "https://api.snyk.io/v1/org/X" ∧
      joinURLParts "https://api.snyk.io" "v1/org/X" = some "https://api.snyk.io/v1/org/X" ∧
      joinURLParts "https://api.snyk.io" "/v1/org/X" = some "https://api.snyk.io/v1/org/X" ∧
      joinURLParts "https://api.snyk.io/api/" "v1/org/X" =
        some "https://api.snyk.io/api/v1/org/X" ∧
      joinURLParts "https://api.snyk.io/api" "/v1/org/X" =
        some "https://api.snyk.io/api/v1/org/X" := by
  exact ⟨by decide!, by decide!, by decide!, by decide!, by decide!, by decide!⟩

/-! ## Issues of the REST API as issues of the older API -/

/-- C21: for every `IssueV2` value `v`, `intoIssueV1 v` has `ID = v.Key`,
`IssueType = v.Type`, `IsIgnored = v.Ignored`, `orgID = v.OrgID`,
`projectID = v.ProjectID` and the client of `v`, and every other field of `Issue` is its
zero value; `GetIgnore`, `AddIgnore`, `ReplaceIgnore` and `DeleteIgnore` of `v` are those
of that issue, so their calls of `Get`, `Post`, `Put` and `Delete` go to the path
`v1/org/<v.OrgID>/project/<v.ProjectID>/ignore/<v.Key>` (written with a leading slash
by `GetIgnore`). -/
theorem intoIssueV1_shared_fields (v : IssueV2) :
    (v.intoIssueV1.ID = v.Key ∧ v.intoIssueV1.IssueType = v.Type_ ∧
      v.intoIssueV1.IsIgnored = v.Ignored ∧ v.intoIssueV1.orgID = v.OrgID ∧
      v.intoIssueV1.projectID = v.ProjectID ∧ v.intoIssueV1.client = v.client) ∧
    (v.intoIssueV1.PkgName = "" ∧ v.intoIssueV1.PkgVersions = [] ∧
      v.intoIssueV1.PriorityScore = 0 ∧ v.intoIssueV1.Priority = {} ∧
      v.intoIssueV1.IssueData = {} ∧ v.intoIssueV1.IsPatched = false ∧
      v.intoIssueV1.IgnoreReasons = [] ∧ v.intoIssueV1.FixInfo = {} ∧
      v.intoIssueV1.Link = {} ∧ v.intoIssueV1.projectOrigin = "") ∧
    (∀ (dec : String → Option Ignore) (t : Transport) (w : World),
      v.GetIgnore dec t w =
        decodeIgnore dec (v.client.Get t
          ("/v1/org/" ++ v.OrgID ++ "/project/" ++ v.ProjectID ++ "/ignore/" ++ v.Key) none w)) ∧
    (∀ (marshal : IgnoreOptions → String) (t : Transport) (opts : IgnoreOptions) (w : World),
      opts.ReasonType ∈ ["not-vulnerable", "wont-fix", "temporary-ignore"] →
      v.AddIgnore marshal t opts w =
          errorOnly (v.client.Post t
            ("v1/org/" ++ v.OrgID ++ "/project/" ++ v.ProjectID ++ "/ignore/" ++ v.Key) none
            (some (Except.ok (marshal opts))) w) ∧
        v.ReplaceIgnore marshal t opts w =
          errorOnly (v.client.Put t
            ("v1/org/" ++ v.OrgID ++ "/project/" ++ v.ProjectID ++ "/ignore/" ++ v.Key)
            (some (Except.ok (marshal opts))) w)) ∧
    (∀ (t : Transport) (w : World),
      v.DeleteIgnore t w =
        errorOnly (v.client.Delete t
          ("v1/org/" ++ v.OrgID ++ "/project/" ++ v.ProjectID ++ "/ignore/" ++ v.Key) none w)) := by
  refine ⟨⟨rfl, rfl, rfl, rfl, rfl, rfl⟩, ⟨rfl, rfl, rfl, rfl, rfl, rfl, rfl, rfl, rfl, rfl⟩,
    fun _ _ _ => rfl, ?_, fun _ _ => rfl⟩
  intro marshal t opts w h
  have h3 : ¬ (opts.ReasonType ≠ "not-vulnerable" ∧ opts.ReasonType ≠ "wont-fix" ∧
      opts.ReasonType ≠ "temporary-ignore") := by
    intro hn
    simp [hn.1, hn.2.1, hn.2.2] at h
  refine ⟨?_, ?_⟩
  · simp only [IssueV2.AddIgnore, Issue.AddIgnore]
    rw [if_neg h3]
    rfl
  · simp only [IssueV2.ReplaceIgnore, Issue.ReplaceIgnore]
    rw [if_neg h3]
    rfl

/-- The downgrade of C21 and the requests of the four operations, evaluated. -/
theorem intoIssueV1_evaluated :
    demoIssueV2.intoIssueV1 =
        { ID := "I", IssueType := "code", IsIgnored := true, orgID := "O", projectID := "P",
          client := demoClient } ∧
      (IssueV2.AddIgnore demoMarshal demoIssueV2 demoOk { ReasonType := "wont-fix" }
          World.init).2.sent = [demoIgnoreRequest] ∧
      (IssueV2.ReplaceIgnore demoMarshal demoIssueV2 demoOk { ReasonType := "wont-fix" }
          World.init).2.sent = [demoReplaceRequest] ∧
      (IssueV2.DeleteIgnore demoIssueV2 demoOk World.init).2.sent =
        [{ demoIgnoreRequest with Method := "DELETE", Body := none }] ∧
      (IssueV2.GetIgnore (fun _ => none) demoIssueV2 demoOk World.init).2.sent =
        [{ demoIgnoreRequest with Method := "GET", Body := none }] := by
  exact ⟨by decide!, by decide!, by decide!, by decide!, by decide!⟩

/-! ## Creating an organization, cloning an integration -/

/-- C22 (the code differs): `Create` with a nil `sourceOrgID` dereferences it while it
builds the body: the call aborts, and no request is issued. -/
theorem Create_nil_source_aborts (marshal : CreateOrgBody → String)
    (errText : GoError → String) (dec : String → Option NewOrg) (c : Client) (t : Transport)
    (groupID name : String) (w : World) :
    OrgsService.Create marshal errText dec c t groupID name none w = (Ret.nilDeref, w) := rfl

/-- The calls of C22 and C24, evaluated: with a source org ID, even an empty one, the
POST is issued and the org returned; its handles `ContainerImages` and `Issues` are
zero. -/
theorem Create_evaluated :
    OrgsService.Create demoMarshalOrg demoErrText demoNewOrgDecoder demoClient
        (demoServer "org") "G" "org1" (some "") World.init =
      (Ret.ok demoCreatedOrg, { sent := [demoCreateRequest], slept := [] }) ∧
    OrgsService.Create demoMarshalOrg demoErrText demoNewOrgDecoder demoClient
        (demoServer "org") "G" "org1" none World.init =
      (Ret.nilDeref, World.init) := by
  exact ⟨by decide!, by decide!⟩

/-- C23 (the code differs): when the `Post` of `CloneIntegration` returns an error, and
so no response, `CloneIntegration` dereferences the nil response: the call aborts,
whatever the error. -/
theorem CloneIntegration_failed_post_aborts (marshal : List (String × String) → String)
    (errText : GoError → String) (dec : String → Option (List (String × String)))
    (o : Org) (t : Transport) (integrationID destinationOrgID : String) (w w1 : World)
    (e : GoError)
    (h : o.client.Post t ("/v1/org/" ++ o.ID ++ "/integrations/" ++ integrationID ++ "/clone")
        none (some (Except.ok (marshal [("destinationOrgPublicId", destinationOrgID)]))) w =
      (Ret.error e, w1)) :
    Org.CloneIntegration marshal errText dec o t integrationID destinationOrgID w =
      (Ret.nilDeref, w1) := by
  simp only [Org.CloneIntegration, h]

theorem CloneIntegration_failed_post_aborts_witness :
    Org.CloneIntegration demoMarshalMap demoErrText demoMapDecoder demoCreatedOrg demoClosed
        "N" "D" World.init =
      (Ret.nilDeref, { sent := [demoCloneRequest], slept := [] }) :=
  CloneIntegration_failed_post_aborts demoMarshalMap demoErrText demoMapDecoder demoCreatedOrg
    demoClosed "N" "D" World.init { sent := [demoCloneRequest], slept := [] }
    (GoError.transport "closed") (by decide!)

/-- The calls of C23, evaluated: a closed connection and an answer 404 both end in the
dereference; an answer 200 that does not decode ends in an error value. -/
theorem CloneIntegration_evaluated :
    Org.CloneIntegration demoMarshalMap demoErrText demoMapDecoder demoCreatedOrg demoClosed
        "N" "D" World.init =
      (Ret.nilDeref, { sent := [demoCloneRequest], slept := [] }) ∧
    Org.CloneIntegration demoMarshalMap demoErrText demoMapDecoder demoCreatedOrg
        (scripted [Outcome.resp (plainResponse 404 "gone")] (Outcome.fail "closed"))
        "N" "D" World.init =
      (Ret.nilDeref, { sent := [demoCloneRequest], slept := [] }) ∧
    Org.CloneIntegration demoMarshalMap demoErrText demoMapDecoder demoCreatedOrg demoOk
        "N" "D" World.init =
      (Ret.error (GoError.errorf "Failed to clone integration; failed"),
        { sent := [demoCloneRequest], slept := [] }) := by
  exact ⟨by decide!, by decide!, by decide!⟩

/-- The orgs made by `intoOrg` have their four handles bound. -/
theorem intoOrg_handlesBound (r : Resource) (c : Client) : (r.intoOrg c).handlesBound :=
  ⟨⟨rfl, rfl⟩, ⟨rfl, rfl⟩, ⟨rfl, rfl⟩, ⟨rfl, rfl⟩⟩

/-- C24 (the code differs): every org that `Create` returns has the handles `Projects`
and `Targets` bound to its client and its ID, and the handles `ContainerImages` and
`Issues` at their zero value, with a nil client and an empty org ID: the invariant of
the orgs made by `intoOrg` does not hold for it. -/
theorem Create_handles_unbound (marshal : CreateOrgBody → String)
    (errText : GoError → String) (dec : String → Option NewOrg) (c : Client) (t : Transport)
    (groupID name : String) (sourceOrgID : Option String) (w w1 : World) (o : Org)
    (h : OrgsService.Create marshal errText dec c t groupID name sourceOrgID w =
      (Ret.ok o, w1)) :
    (o.Projects.client = some o.client ∧ o.Projects.orgID = o.ID) ∧
      (o.Targets.client = some o.client ∧ o.Targets.orgID = o.ID) ∧
      (o.ContainerImages.client = none ∧ o.ContainerImages.orgID = "") ∧
      (o.Issues.client = none ∧ o.Issues.orgID = "") ∧ ¬ o.handlesBound := by
  have key : (o.Projects.client = some o.client ∧ o.Projects.orgID = o.ID) ∧
      (o.Targets.client = some o.client ∧ o.Targets.orgID = o.ID) ∧
      (o.ContainerImages.client = none ∧ o.ContainerImages.orgID = "") ∧
      (o.Issues.client = none ∧ o.Issues.orgID = "") := by
    unfold OrgsService.Create at h
    cases sourceOrgID with
    | none => simp at h
    | some source =>
      simp only at h
      split at h
      · simp at h
      · simp at h
      · split at h
        · simp at h
        · simp only [Prod.mk.injEq, Ret.ok.injEq] at h
          rw [← h.1]
          exact ⟨⟨rfl, rfl⟩, ⟨rfl, rfl⟩, ⟨rfl, rfl⟩, ⟨rfl, rfl⟩⟩
  refine ⟨key.1, key.2.1, key.2.2.1, key.2.2.2, ?_⟩
  intro hb
  have h1 := hb.2.2.1.1
  rw [key.2.2.1.1] at h1
  cases h1

theorem Create_handles_unbound_witness :
    (demoCreatedOrg.Projects.client = some demoCreatedOrg.client ∧
        demoCreatedOrg.Projects.orgID = demoCreatedOrg.ID) ∧
      (demoCreatedOrg.Targets.client = some demoCreatedOrg.client ∧
        demoCreatedOrg.Targets.orgID = demoCreatedOrg.ID) ∧
      (demoCreatedOrg.ContainerImages.client = none ∧
        demoCreatedOrg.ContainerImages.orgID = "") ∧
      (demoCreatedOrg.Issues.client = none ∧ demoCreatedOrg.Issues.orgID = "") ∧
      ¬ demoCreatedOrg.handlesBound :=
  Create_handles_unbound demoMarshalOrg demoErrText demoNewOrgDecoder demoClient
    (demoServer "org") "G" "org1" (some "") World.init
    { sent := [demoCreateRequest], slept := [] } demoCreatedOrg (by decide!)

/-! ## The origin of the request URL -/

theorem afterAuthority_cut_hash (T : List Char) (h : afterAuthority T) :
    (cutChars '#' T).1 = [] ∨
      ∃ rest, (cutChars '#' T).1 = '/' :: rest ∨ (cutChars '#' T).1 = '?' :: rest := by
  rcases h with rfl | ⟨c, rest, rfl, rfl | rfl | rfl⟩
  · left; rfl
  · right; exact ⟨(cutChars '#' rest).1, Or.inl (by simp [cutChars])⟩
  · right; exact ⟨(cutChars '#' rest).1, Or.inr (by simp [cutChars])⟩
  · left; simp [cutChars]

theorem cut_query_start (T : List Char)
    (h : T = [] ∨ ∃ rest, T = '/' :: rest ∨ T = '?' :: rest) :
    (cutChars '?' T).1 = [] ∨ ∃ rest, (cutChars '?' T).1 = '/' :: rest := by
  rcases h with rfl | ⟨rest, rfl | rfl⟩
  · left; rfl
  · right; exact ⟨(cutChars '?' rest).1, by simp [cutChars]⟩
  · left; simp [cutChars]

theorem cut_slash_start (T : List Char) (h : T = [] ∨ ∃ rest, T = '/' :: rest) :
    (cutChars '/' T).1 = [] := by
  rcases h with rfl | ⟨rest, rfl⟩
  · rfl
  · simp [cutChars]

/-- The parse of a text that begins with `https://api.snyk.io` and goes on with a path or
a query is at the origin of the base. -/
theorem parseNoFragment_origin (T : List Char)
    (hT : T = [] ∨ ∃ rest, T = '/' :: rest ∨ T = '?' :: rest) (v : URL)
    (h : parseNoFragment (originText ++ T) = some v) : v.atBaseOrigin := by
  have hctl : stringContainsCTLByte (originText ++ T) = false := by
    cases hc : stringContainsCTLByte (originText ++ T) with
    | false => rfl
    | true => simp [parseNoFragment, hc] at h
  have hstar : ¬ (originText ++ T = ['*']) := by
    simp [originText]
  have hscheme : getScheme (originText ++ T) =
      some (['h', 't', 't', 'p', 's'],
        ['/', '/', 'a', 'p', 'i', '.', 's', 'n', 'y', 'k', '.', 'i', 'o'] ++ T) := by
    simp [originText, getScheme, getSchemeRest, isAlpha, isDigit]
  have hcut : cutChars '?' (['/', '/', 'a', 'p', 'i', '.', 's', 'n', 'y', 'k', '.', 'i', 'o'] ++ T) =
      (['/', '/', 'a', 'p', 'i', '.', 's', 'n', 'y', 'k', '.', 'i', 'o'] ++ (cutChars '?' T).1,
        (cutChars '?' T).2.1, (cutChars '?' T).2.2) :=
    cutChars_append '?' _ T (by decide)
  have hT2 := cut_query_start T hT
  have hcut2 : (cutChars '/'
      (['a', 'p', 'i', '.', 's', 'n', 'y', 'k', '.', 'i', 'o'] ++ (cutChars '?' T).1)).1 =
      ['a', 'p', 'i', '.', 's', 'n', 'y', 'k', '.', 'i', 'o'] := by
    rw [cutChars_append '/' _ _ (by decide), cut_slash_start _ hT2]
    rfl
  have hauth : parseAuthority ['a', 'p', 'i', '.', 's', 'n', 'y', 'k', '.', 'i', 'o'] =
      some (none, ['a', 'p', 'i', '.', 's', 'n', 'y', 'k', '.', 'i', 'o']) := by
    decide
  have hlower : List.map Char.toLower ['h', 't', 't', 'p', 's'] = ['h', 't', 't', 'p', 's'] := by
    decide
  have hp1 : ['/'].isPrefixOf
      (['/', '/', 'a', 'p', 'i', '.', 's', 'n', 'y', 'k', '.', 'i', 'o'] ++ (cutChars '?' T).1) =
      true := by simp [List.isPrefixOf]
  have hp2 : ['/', '/'].isPrefixOf
      (['/', '/', 'a', 'p', 'i', '.', 's', 'n', 'y', 'k', '.', 'i', 'o'] ++ (cutChars '?' T).1) =
      true := by simp [List.isPrefixOf]
  have hdrop : List.drop 2
      (['/', '/', 'a', 'p', 'i', '.', 's', 'n', 'y', 'k', '.', 'i', 'o'] ++ (cutChars '?' T).1) =
      ['a', 'p', 'i', '.', 's', 'n', 'y', 'k', '.', 'i', 'o'] ++ (cutChars '?' T).1 := by
    simp
  unfold parseNoFragment at h
  simp only [hctl, hstar, hscheme, Bool.false_eq_true, if_false, hcut, hlower, hp1, hp2, hdrop,
    hcut2, hauth, Bool.not_true, Bool.false_and, Bool.true_and, Bool.and_true, ne_eq,
    List.cons_ne_nil, not_false_eq_true, decide_True, Bool.true_or, if_true] at h
  obtain ⟨h1, h2, _, h4, h5, _, _⟩ := setPath_keeps _ _ _ h
  exact ⟨h1, h5, h4, h2⟩

theorem Parse_origin (s : String) (T : List Char) (hs : s.toList = originText ++ T)
    (hT : afterAuthority T) (v : URL) (h : Parse s = some v) : v.atBaseOrigin := by
  have hc : cutChars '#' (originText ++ T) =
      (originText ++ (cutChars '#' T).1, (cutChars '#' T).2.1, (cutChars '#' T).2.2) :=
    cutChars_append '#' _ T (by decide)
  unfold Parse at h
  simp only [hs, hc] at h
  cases hp : parseNoFragment (originText ++ (cutChars '#' T).1) with
  | none => rw [hp] at h; cases h
  | some u =>
    rw [hp] at h
    simp only at h
    have hu := parseNoFragment_origin _ (afterAuthority_cut_hash T hT) u hp
    split at h
    · injection h with h
      rw [← h]; exact hu
    · obtain ⟨h1, h2, _, _, h5, h6⟩ := setFragment_keeps_all _ _ _ h
      exact ⟨h1.trans hu.1, h5.trans hu.2.1, h6.trans hu.2.2.1, h2.trans hu.2.2.2⟩

theorem escape_host_origin : escape "api.snyk.io" Encoding.encodeHost = "api.snyk.io" := by
  decide

theorem Str_plain_origin (p : URL) (h1 : p.Scheme = "https") (h2 : p.Host = "api.snyk.io")
    (h3 : p.User = none) (h4 : p.Opaque = "") (h5 : p.ForceQuery = false)
    (h6 : p.RawQuery = "") (h7 : p.Fragment = "") :
    ∃ E, p.Str.toList = originText ++ E ∧ (E = [] ∨ ∃ rest, E = '/' :: rest) := by
  have hat : p.authorityText = "//api.snyk.io" := by
    simp [URL.authorityText, h1, h2, h3, escape_host_origin]
  unfold URL.Str
  simp only [hat, h1, h2, h4, h5, h6, h7]
  generalize p.EscapedPath = ep
  have f3 : ¬ ((if ("https" : String) ≠ "" then "https" ++ ":" else "") ++ "//api.snyk.io" ++ "/" =
      "") := by decide
  have f4 : ¬ ((if ("https" : String) ≠ "" then "https" ++ ":" else "") ++ "//api.snyk.io" =
      "") := by decide
  have f5 : ((if ("https" : String) ≠ "" then "https" ++ ":" else "") ++ "//api.snyk.io").toList =
      originText := by decide
  have f6 : ((if ("https" : String) ≠ "" then "https" ++ ":" else "") ++ "//api.snyk.io" ++
      "/").toList = originText ++ ['/'] := by decide
  have f7 : ¬ (("" : String) ≠ "") := by decide
  have f8 : ¬ (false = true ∨ ("" : String) ≠ "") := by decide
  rw [if_neg f7, if_neg f7, if_neg f8]
  by_cases hc : ep ≠ "" ∧ (!(['/'].isPrefixOf ep.toList)) = true ∧ ("api.snyk.io" : String) ≠ ""
  · rw [if_pos hc]
    rw [if_neg (fun h => f3 h.1)]
    refine ⟨'/' :: ep.toList, ?_, Or.inr ⟨_, rfl⟩⟩
    simp only [String.toList, String.data_append] at f6 ⊢
    rw [f6]
    simp
  · rw [if_neg hc]
    rw [if_neg (fun h => f4 h.1)]
    refine ⟨ep.toList, ?_, ?_⟩
    · simp only [String.toList, String.data_append] at f5 ⊢
      rw [f5]
      simp
    · by_cases he : ep = ""
      · left; rw [he]; rfl
      · right
        have hp : ['/'].isPrefixOf ep.toList = true := by
          cases hb : ['/'].isPrefixOf ep.toList with
          | true => rfl
          | false => exact absurd ⟨he, by rw [hb]; rfl, by decide⟩ hc
        cases hl : ep.toList with
        | nil => rw [hl] at hp; simp [List.isPrefixOf] at hp
        | cons a rest =>
          rw [hl] at hp
          have : '/' = a := by simpa [List.isPrefixOf] using hp
          exact ⟨rest, by rw [this]⟩

/-- The text written for a URL at the origin of the base begins with
`https://api.snyk.io` and goes on with a path, a query, a fragment, or ends. -/
theorem Str_origin (u : URL) (hu : u.atBaseOrigin) :
    ∃ T, u.Str.toList = originText ++ T ∧ afterAuthority T := by
  obtain ⟨h1, h2, h3, h4⟩ := hu
  have hq := Str_query u u.RawQuery
  obtain ⟨E, hE, hEs⟩ := Str_plain_origin
    { u with RawQuery := "", ForceQuery := false, Fragment := "" } h1 h2 h3 h4 rfl rfl rfl
  have hself : ({ u with RawQuery := u.RawQuery } : URL) = u := rfl
  rw [hself, hE] at hq
  rw [hq]
  by_cases hQ : u.ForceQuery = true ∨ u.RawQuery ≠ ""
  · rcases hEs with rfl | ⟨rest, rfl⟩
    · exact ⟨_, by rw [List.append_assoc, List.append_assoc], Or.inr ⟨'?', _, by simp [hQ]; rfl, Or.inr (Or.inl rfl)⟩⟩
    · exact ⟨_, by rw [List.append_assoc, List.append_assoc], Or.inr ⟨'/', _, by simp; rfl, Or.inl rfl⟩⟩
  · by_cases hF : u.Fragment ≠ ""
    · rcases hEs with rfl | ⟨rest, rfl⟩
      · exact ⟨_, by rw [List.append_assoc, List.append_assoc], Or.inr ⟨'#', _, by simp [hQ, hF]; rfl, Or.inr (Or.inr rfl)⟩⟩
      · exact ⟨_, by rw [List.append_assoc, List.append_assoc], Or.inr ⟨'/', _, by simp; rfl, Or.inl rfl⟩⟩
    · rcases hEs with rfl | ⟨rest, rfl⟩
      · exact ⟨_, by rw [List.append_assoc, List.append_assoc], Or.inl (by simp [hQ, hF])⟩
      · exact ⟨_, by rw [List.append_assoc, List.append_assoc], Or.inr ⟨'/', _, by simp; rfl, Or.inl rfl⟩⟩

theorem setPath_getD_origin (u : URL) (hu : u.atBaseOrigin) (s : String) :
    ((u.setPath s).getD u).atBaseOrigin := by
  cases hs : u.setPath s with
  | none => exact hu
  | some v =>
    obtain ⟨h1, h2, _, h4, h5, _, _⟩ := setPath_keeps _ _ _ hs
    exact ⟨h1.trans hu.1, h5.trans hu.2.1, h4.trans hu.2.2.1, h2.trans hu.2.2.2⟩

theorem URL_JoinPath_origin (u : URL) (hu : u.atBaseOrigin) (elem : String) :
    (u.JoinPath elem).atBaseOrigin := by
  unfold URL.JoinPath URL.joinPath
  exact setPath_getD_origin u hu _

/-- A result of `url.JoinPath` is the text of the base with the element joined to its
path. -/
theorem JoinPath_ok (base elem joined : String) (h : JoinPath base elem = some joined) :
    ∃ u, Parse base = some u ∧ joined = (u.JoinPath elem).Str := by
  unfold JoinPath at h
  cases hb : Parse base with
  | none => rw [hb] at h; cases h
  | some u =>
    rw [hb] at h
    simp only at h
    cases hj : u.joinPath elem with
    | none => rw [hj] at h; cases h
    | some v =>
      rw [hj] at h
      simp only [Option.map_some', Option.some.injEq] at h
      exact ⟨u, rfl, by simp only [URL.JoinPath, hj, Option.getD_some]; exact h.symm⟩

theorem Parse_baseURL :
    Parse baseURL = some { URL.zero with Scheme := "https", Host := "api.snyk.io", Path := "/" } := by
  decide!

/-- The URL that `getReqURL` composes is at the origin of the base, whatever the
suffix. -/
theorem getReqURL_atBaseOrigin (suffix : String) (u : URL) (h : getReqURL suffix = some u) :
    u.atBaseOrigin := by
  obtain ⟨su, R, hs, hj, hR, _⟩ := getReqURL_ok suffix u h
  obtain ⟨su2, joined, ju, _, hjp, hju, hRs⟩ := joinURLParts_ok _ _ _ hj
  obtain ⟨ub, hub, hjp⟩ := JoinPath_ok _ _ _ hjp
  rw [Parse_baseURL] at hub
  injection hub with hub
  subst hub
  have hjp := hjp.symm
  have hb : ({ URL.zero with Scheme := "https", Host := "api.snyk.io", Path := "/" } :
      URL).atBaseOrigin := ⟨rfl, rfl, rfl, rfl⟩
  have h1 := URL_JoinPath_origin _ hb su2.Path
  obtain ⟨T, hT, hTa⟩ := Str_origin _ h1
  rw [hjp] at hT
  have hjo : ju.atBaseOrigin := Parse_origin joined T hT hTa ju hju
  have hjo2 : ({ ju with RawQuery := su2.RawQuery } : URL).atBaseOrigin := hjo
  obtain ⟨T2, hT2, hTa2⟩ := Str_origin _ hjo2
  rw [← hRs] at hT2
  exact Parse_origin R T2 hT2 hTa2 u hR

/-- The URL of a built request begins with `https://api.snyk.io`, followed by a path, a
query or nothing, and its parse is at the origin of the base. -/
theorem buildRequest_origin (c : Client) (method urlPath : String) (params : Option Values)
    (body : Option (Except String String)) (req : Request)
    (h : buildRequest c method urlPath params body = Except.ok req) :
    ∃ T v, req.URL.toList = originText ++ T ∧ afterAuthority T ∧
      Parse req.URL = some v ∧ v.atBaseOrigin := by
  obtain ⟨u0, v, hg, hform, hv⟩ := buildRequest_ok c method urlPath params body req h
  have h0 := getReqURL_atBaseOrigin urlPath u0 hg
  have hsh : ∃ T, req.URL.toList = originText ++ T ∧ afterAuthority T := by
    cases params with
    | some ps =>
      have hurl : req.URL = ({ u0 with RawQuery := ps.Encode }).Str := by rw [hform]
      rw [hurl]
      exact Str_origin _ h0
    | none =>
      have hurl : req.URL = u0.Str := by rw [hform]
      rw [hurl]
      exact Str_origin _ h0
  obtain ⟨T, hT, hTa⟩ := hsh
  exact ⟨T, v, hT, hTa, hv, Parse_origin req.URL T hT hTa v hv⟩

theorem Parse_no_hash (s : String) (hs : '#' ∉ s.toList) (v : URL) (h : Parse s = some v) :
    v.Fragment = "" := by
  unfold Parse at h
  simp only [cutChars_no_sep '#' _ hs] at h
  cases hp : parseNoFragment s.toList with
  | none => rw [hp] at h; cases h
  | some u =>
    rw [hp] at h
    simp only [if_true, Option.some.injEq] at h
    rw [← h]
    rcases parseNoFragment_shape _ u hp with ⟨_, hv⟩ | ⟨_, _, _, _, _, _, hf⟩
    · rw [hv]; rfl
    · exact hf

theorem setPath_getD_plain (u : URL) (s : String) :
    ((u.setPath s).getD u).RawQuery = u.RawQuery ∧
      ((u.setPath s).getD u).ForceQuery = u.ForceQuery ∧
      ((u.setPath s).getD u).Fragment = u.Fragment := by
  cases hs : u.setPath s with
  | none => exact ⟨rfl, rfl, rfl⟩
  | some v =>
    obtain ⟨_, _, h3, _, _, h6, h7⟩ := setPath_keeps _ _ _ hs
    exact ⟨h3, h7, h6⟩

/-- The URL that `getReqURL` composes has no fragment. -/
theorem getReqURL_no_fragment (suffix : String) (u : URL) (h : getReqURL suffix = some u) :
    u.Fragment = "" := by
  obtain ⟨su, R, hs, hj, hR, _⟩ := getReqURL_ok suffix u h
  obtain ⟨su2, joined, ju, hs2, hjp, hju, hRs⟩ := joinURLParts_ok _ _ _ hj
  obtain ⟨ub, hub, hjp⟩ := JoinPath_ok _ _ _ hjp
  rw [Parse_baseURL] at hub
  injection hub with hub
  subst hub
  have hjp := hjp.symm
  have hb : ({ URL.zero with Scheme := "https", Host := "api.snyk.io", Path := "/" } :
      URL).atBaseOrigin := ⟨rfl, rfl, rfl, rfl⟩
  have h1 := URL_JoinPath_origin _ hb su2.Path
  have h2 : (({ URL.zero with Scheme := "https", Host := "api.snyk.io", Path := "/" } :
      URL).JoinPath su2.Path).RawQuery = "" ∧
      (({ URL.zero with Scheme := "https", Host := "api.snyk.io", Path := "/" } :
        URL).JoinPath su2.Path).ForceQuery = false ∧
      (({ URL.zero with Scheme := "https", Host := "api.snyk.io", Path := "/" } :
        URL).JoinPath su2.Path).Fragment = "" := by
    unfold URL.JoinPath URL.joinPath
    exact setPath_getD_plain _ _
  have hjoined : '#' ∉ joined.toList := by
    intro hm
    rw [← hjp] at hm
    have := Str_plain_no_mark _ (by rw [h1.1]; decide) (by rw [h1.2.2.2]; decide)
      h2.2.1 h2.1 h2.2.2 '#' hm
    exact this.2 rfl
  have hjf : ju.Fragment = "" := Parse_no_hash joined hjoined ju hju
  obtain ⟨_, hsch, hop, _⟩ := Parse_facts joined ju hju
  obtain ⟨_, _, _, hq⟩ := Parse_facts suffix su2 hs2
  have hRno : '#' ∉ R.toList := by
    intro hm
    rw [hRs, Str_query ju su2.RawQuery] at hm
    rcases List.mem_append.mp hm with hm | hm
    · rcases List.mem_append.mp hm with hm | hm
      · exact (Str_plain_no_mark { ju with RawQuery := "", ForceQuery := false, Fragment := "" }
          hsch hop rfl rfl rfl '#' hm).2 rfl
      · split at hm
        · rcases List.mem_cons.mp hm with e | e
          · exact absurd e (by decide)
          · exact hq _ e rfl
        · simp at hm
    · rw [hjf] at hm
      simp at hm
  exact Parse_no_hash R hRno u hR


/-- C25: for every suffix for which `getReqURL` succeeds, a full URL with another scheme
or host and a next link of the server included, the composed URL has the scheme `https`
and the host `api.snyk.io` of the base, no user information, no opaque part and no
fragment: the suffix decides the path and the query alone. The URL text of every request
built for the suffix begins with `https://api.snyk.io`, goes on with `/`, `?` or `#` or
ends there, and parses to a URL of that origin; the request carries the token of the
client. -/
theorem getReqURL_origin_confined (suffix : String) (u : URL)
    (h : getReqURL suffix = some u) :
    (u.Scheme = "https" ∧ u.Host = "api.snyk.io" ∧ u.User = none ∧ u.Opaque = "" ∧
      u.Fragment = "") ∧
    ∀ (c : Client) (method : String) (params : Option Values)
      (body : Option (Except String String)) (req : Request),
      buildRequest c method suffix params body = Except.ok req →
      req.Authorization = c.token ∧
        ∃ T v, req.URL.toList = "https://api.snyk.io".toList ++ T ∧
          (T = [] ∨ ∃ ch rest, T = ch :: rest ∧ (ch = '/' ∨ ch = '?' ∨ ch = '#')) ∧
          Parse req.URL = some v ∧
          v.Scheme = "https" ∧ v.Host = "api.snyk.io" ∧ v.User = none ∧ v.Opaque = "" := by
  obtain ⟨h1, h2, h3, h4⟩ := getReqURL_atBaseOrigin suffix u h
  refine ⟨⟨h1, h2, h3, h4, getReqURL_no_fragment suffix u h⟩, ?_⟩
  intro c method params body req hreq
  obtain ⟨T, v, hT, hTa, hv, hvo⟩ := buildRequest_origin c method suffix params body req hreq
  obtain ⟨u0, _, _, hform, _⟩ := buildRequest_ok c method suffix params body req hreq
  refine ⟨by rw [hform], T, v, hT, hTa, hv, hvo.1, hvo.2.1, hvo.2.2.1, hvo.2.2.2⟩

theorem getReqURL_origin_confined_witness :
    (demoConfinedURL.Scheme = "https" ∧ demoConfinedURL.Host = "api.snyk.io" ∧
      demoConfinedURL.User = none ∧ demoConfinedURL.Opaque = "" ∧
      demoConfinedURL.Fragment = "") ∧
    ∀ (c : Client) (method : String) (params : Option Values)
      (body : Option (Except String String)) (req : Request),
      buildRequest c method "http://evil.example/x?y=1" params body = Except.ok req →
      req.Authorization = c.token ∧
        ∃ T v, req.URL.toList = "https://api.snyk.io".toList ++ T ∧
          (T = [] ∨ ∃ ch rest, T = ch :: rest ∧ (ch = '/' ∨ ch = '?' ∨ ch = '#')) ∧
          Parse req.URL = some v ∧
          v.Scheme = "https" ∧ v.Host = "api.snyk.io" ∧ v.User = none ∧ v.Opaque = "" :=
  getReqURL_origin_confined "http://evil.example/x?y=1" demoConfinedURL (by decide!)

/-- The compositions of C25, evaluated: a full URL of another host, a reference with an
authority, a suffix with user information, and a next link of another host followed by
`getMultiResource`. -/
theorem getReqURL_origin_evaluated :
    (getReqURL "http://evil.example/x?y=1").map URL.Str = some "https://api.snyk.io/x?y=1" ∧
      (getReqURL "//evil.example/x").map URL.Str = some "https://api.snyk.io/x" ∧
      (getReqURL "https://user:pw@evil.example:8443/rest/orgs#frag").map URL.Str =
        some "https://api.snyk.io/rest/orgs" ∧
      nextCall "V" "https://evil.example/rest/orgs?version=V1" =
        some ("/rest/https://evil.example/rest/orgs?version=V1", none) ∧
      buildRequest demoClient "GET" "/rest/https://evil.example/rest/orgs?version=V1" none
          none =
        Except.ok { demoRequest with
          URL := "https://api.snyk.io/rest/https:/evil.example/rest/orgs?version=V1" } := by
  exact ⟨by decide!, by decide!, by decide!, by decide!, by decide!⟩

/-! ## Page fetches that end in a nil dereference -/

/-- `Get` when a retried round trip fails: no response and no error come back. -/
theorem Get_of_fetchAborts (c : Client) (t : Transport) (w : World) (urlPath : String)
    (params : Option Values) (h : fetchAborts c t w.sent.length urlPath params) :
    ∃ w1, c.Get t urlPath params w = (Ret.nilDeref, w1) := by
  suffices h1 : (c.Get t urlPath params w).1 = Ret.nilDeref from
    ⟨(c.Get t urlPath params w).2, Prod.ext h1 rfl⟩
  obtain ⟨req, r0, rs, e, hreq, hs, hfail, hcase⟩ := h
  have hdo : httpClientDo t req w = (Outcome.resp r0, (httpClientDo t req w).2) := by
    simp [httpClientDo, hs.1]
  rcases hcase with ⟨hlen, hret⟩ | ⟨hnil, h502⟩
  · have hr0 : isInSlice r0.StatusCode retryResponseCodes = true :=
      (isInSlice_retry_iff r0).2 (hret r0 (by simp))
    have hs1 : serves t req (httpClientDo t req w).2.sent.length rs := by
      simpa [httpClientDo] using hs.2
    have hf1 : t ((httpClientDo t req w).2.sent.length + rs.length) req = Outcome.fail e := by
      have : (httpClientDo t req w).2.sent.length + rs.length =
          w.sent.length + (rs.length + 1) := by simp [httpClientDo]; omega
      rw [this]; exact hfail
    have key := retryLoop_fail t req (List.range (defaultMaxRetries + 1)) r0
      (httpClientDo t req w).2 rs e (by simp [defaultMaxRetries]; omega) hs1 hf1
      (fun x hx => hret x (by simp [hx]))
    simp only [Client.Get, Client.send, hreq]
    unfold transmit
    rw [hdo]
    simp only [retryStage, hr0, if_true, key]
  · subst hnil
    have hnr : ¬ retryable r0 := by
      intro h
      exact retryable_ne_502 r0 h h502
    have hf1 : t (httpClientDo t req w).2.sent.length req = Outcome.fail e := by
      have : (httpClientDo t req w).2.sent.length =
          w.sent.length + (([] : List Response).length + 1) := by
        simp [httpClientDo]
      rw [this]; exact hfail
    simp only [Client.Get, Client.send, hreq]
    unfold transmit
    rw [hdo]
    simp only [retryStage_skip t req r0 _ hnr, gatewayStage_fail t req r0 _ e h502 hf1]

theorem getMultiResourceLoop_aborts (dec : PageDecoder) (c : Client) (t : Transport)
    (apiVersion : String) :
    ∀ (pages : List MultiResourceResp) (fuel : Nat) (urlPath : String)
      (params : Option Values) (resources : List Resource) (w : World),
      servesThenAborts dec c t apiVersion w.sent.length urlPath params pages →
      pages.length < fuel →
      ∃ w1, getMultiResourceLoop dec c t apiVersion fuel urlPath params resources w =
        some (Ret.nilDeref, w1) := by
  intro pages
  induction pages with
  | nil =>
    intro fuel urlPath params resources w h hfuel
    cases fuel with
    | zero => simp at hfuel
    | succ f =>
      obtain ⟨w1, hget⟩ := Get_of_fetchAborts c t w urlPath params h
      exact ⟨w1, by simp only [getMultiResourceLoop, hget]⟩
  | cons p rest ih =>
    intro fuel urlPath params resources w h hfuel
    cases fuel with
    | zero => simp at hfuel
    | succ f =>
      obtain ⟨hf, hmore, nextPath, nextParams, hnext, hrest⟩ := h
      obtain ⟨req, resp, hget, _, hdec⟩ := Get_of_fetches dec c t w urlPath params p hf
      have hrest2 : servesThenAborts dec c t apiVersion
          ({ sent := w.sent ++ [req], slept := w.slept } : World).sent.length
          nextPath nextParams rest := by
        simpa using hrest
      obtain ⟨w1, hloop⟩ := ih f nextPath nextParams (resources ++ p.Data)
        { sent := w.sent ++ [req], slept := w.slept } hrest2 (by simpa using hfuel)
      refine ⟨w1, ?_⟩
      simp only [getMultiResourceLoop, hget, hdec, hmore, if_false, hnext]
      exact hloop

/-- C12 (the code differs): a page fetch can fail without an error being returned. When
the pages `P1 .. P(k-1)` are fetched (the chain may be empty) and the fetch of page `k`
is answered 429, 500 or 502 and a round trip that repeats it fails at the network,
`getMultiResource` returns neither that page's error nor anything else: the call of
`client.Get` ends in the nil dereference of `send`. -/
theorem getMultiResource_page_abort (dec : PageDecoder) (c : Client) (t : Transport)
    (path : String) (addlParams : Option Values) (pages : List MultiResourceResp)
    (fuel : Nat) (w : World)
    (hserved : servesThenAborts dec c t (Values.Get (firstParams c addlParams) "version")
      w.sent.length path (some (firstParams c addlParams)) pages)
    (hfuel : pages.length < fuel) :
    (∃ w1, getMultiResource dec c t path addlParams fuel w = some (Ret.nilDeref, w1)) ∧
      ∀ (e : GoError) (w1 : World),
        getMultiResource dec c t path addlParams fuel w ≠ some (Ret.error e, w1) := by
  obtain ⟨w1, h⟩ := getMultiResourceLoop_aborts dec c t _ pages fuel path
    (some (firstParams c addlParams)) [] w hserved hfuel
  have h2 : getMultiResource dec c t path addlParams fuel w = some (Ret.nilDeref, w1) := by
    simp only [getMultiResource]; exact h
  refine ⟨⟨w1, h2⟩, ?_⟩
  intro e w2 he
  rw [h2] at he
  cases he

theorem getMultiResource_page_abort_witness :
    (∃ w1, getMultiResource (demoDecoder demoNext) demoClient demoPageThenReset
        "/rest/orgs/O/container_images" none 2 World.init = some (Ret.nilDeref, w1)) ∧
      ∀ (e : GoError) (w1 : World),
        getMultiResource (demoDecoder demoNext) demoClient demoPageThenReset
          "/rest/orgs/O/container_images" none 2 World.init ≠ some (Ret.error e, w1) :=
  getMultiResource_page_abort (demoDecoder demoNext) demoClient demoPageThenReset
    "/rest/orgs/O/container_images" none [demoPage1 demoNext] 2 World.init
    ⟨⟨demoPageRequest1, plainResponse 200 "page1", "page1", demo_page_buildRequest.1, rfl,
        by decide, rfl, by decide⟩,
      by decide, demoNext, none, demo_page_buildRequest.2.2,
      ⟨demoPageRequest2, plainResponse 500 "busy", [], "connection reset",
        demo_page_buildRequest.2.1, ⟨rfl, trivial⟩, rfl,
        Or.inl ⟨by decide, by intro x hx; simp at hx; rw [hx]; exact Or.inr rfl⟩⟩⟩
    (by decide)

/-- The run of the example, evaluated: the first page is fetched, the second request is
sent twice, one second apart, and the call ends in the nil dereference. -/
theorem getMultiResource_page_abort_evaluated :
    getMultiResource (demoDecoder demoNext) demoClient demoPageThenReset
        "/rest/orgs/O/container_images" none 2 World.init =
      some (Ret.nilDeref,
        { sent := [demoPageRequest1, demoPageRequest2, demoPageRequest2],
          slept := [1 * Second] }) := by
  decide!

/-! ## The first request of a pagination -/

theorem retryLoop_sent (t : Transport) (req : Request) :
    ∀ (is : List Nat) (resp : Response) (w : World),
      ∃ more, (retryLoop t req is resp w).2.sent = w.sent ++ more := by
  intro is
  induction is with
  | nil => intro resp w; exact ⟨[], by simp [retryLoop]⟩
  | cons i rest ih =>
    intro resp w
    simp only [retryLoop, httpClientDo]
    cases h : t (w.sleep (wrap64 (retryInterval resp i * Second))).sent.length req with
    | fail e => exact ⟨[req], by simp [World.sleep]⟩
    | resp r =>
      simp only
      split
      · exact ⟨[req], by simp [World.sleep]⟩
      · obtain ⟨more, hm⟩ := ih r
          { sent := (w.sleep (wrap64 (retryInterval resp i * Second))).sent ++ [req],
            slept := (w.sleep (wrap64 (retryInterval resp i * Second))).slept }
        exact ⟨req :: more, by rw [hm]; simp [World.sleep]⟩

/-- The requests `transmit` sends are sent after those already in the log, and the first
of them is `req`. -/
theorem transmit_sent (t : Transport) (req : Request) (w : World) :
    ∃ more, (transmit t req w).2.sent = w.sent ++ req :: more := by
  unfold transmit
  simp only [httpClientDo]
  cases h : t w.sent.length req with
  | fail e => exact ⟨[], rfl⟩
  | resp r0 =>
    simp only
    have h1 : ∃ more, (retryStage t req r0 { sent := w.sent ++ [req], slept := w.slept }).2.sent =
        (w.sent ++ [req]) ++ more := by
      unfold retryStage
      split
      · exact retryLoop_sent t req _ r0 _
      · exact ⟨[], by simp⟩
    obtain ⟨m1, hm1⟩ := h1
    cases hst : retryStage t req r0 { sent := w.sent ++ [req], slept := w.slept } with
    | mk a w2 =>
      rw [hst] at hm1
      simp only at hm1
      cases a with
      | error e => exact ⟨m1, by simp [hm1]⟩
      | nilDeref => exact ⟨m1, by simp [hm1]⟩
      | ok r1 =>
        simp only
        have h2 : ∃ more, (gatewayStage t req r1 w2).2.sent = w2.sent ++ more := by
          unfold gatewayStage
          split
          · simp only [httpClientDo]
            cases t (w2.sleep (wrap64 (30 * Second))).sent.length req with
            | fail e => exact ⟨[req], by simp [World.sleep]⟩
            | resp r => exact ⟨[req], by simp [World.sleep]⟩
          · exact ⟨[], by simp⟩
        obtain ⟨m2, hm2⟩ := h2
        cases hg : gatewayStage t req r1 w2 with
        | mk b w3 =>
          rw [hg] at hm2
          simp only at hm2
          cases b <;> exact ⟨m1 ++ m2, by simp [hm2, hm1]⟩

theorem getMultiResourceLoop_sent (dec : PageDecoder) (c : Client) (t : Transport)
    (apiVersion : String) :
    ∀ (fuel : Nat) (urlPath : String) (params : Option Values) (resources : List Resource)
      (w : World) (r : Ret (List Resource)) (w1 : World),
      getMultiResourceLoop dec c t apiVersion fuel urlPath params resources w = some (r, w1) →
      ∃ more, w1.sent = w.sent ++ more ∧
        ∀ req, buildRequest c "GET" urlPath params none = Except.ok req →
          ∃ rest, more = req :: rest := by
  intro fuel
  induction fuel with
  | zero => intro urlPath params resources w r w1 h; simp [getMultiResourceLoop] at h
  | succ f ih =>
    intro urlPath params resources w r w1 h
    have hget : ∃ more, (c.Get t urlPath params w).2.sent = w.sent ++ more ∧
        ∀ req, buildRequest c "GET" urlPath params none = Except.ok req →
          ∃ rest, more = req :: rest := by
      simp only [Client.Get, Client.send]
      cases hb : buildRequest c "GET" urlPath params none with
      | error e => exact ⟨[], by simp, by intro req hreq; cases hreq⟩
      | ok req0 =>
        obtain ⟨more, hm⟩ := transmit_sent t req0 w
        refine ⟨req0 :: more, hm, ?_⟩
        intro req hreq
        injection hreq with hreq
        exact ⟨more, by rw [hreq]⟩
    obtain ⟨m1, hm1, hfirst⟩ := hget
    simp only [getMultiResourceLoop] at h
    cases hg : c.Get t urlPath params w with
    | mk a w2 =>
      rw [hg] at h hm1
      simp only at hm1
      cases a with
      | error e =>
        simp only [Option.some.injEq, Prod.mk.injEq] at h
        exact ⟨m1, by rw [← h.2, hm1], hfirst⟩
      | nilDeref =>
        simp only [Option.some.injEq, Prod.mk.injEq] at h
        exact ⟨m1, by rw [← h.2, hm1], hfirst⟩
      | ok resp =>
        simp only at h
        cases hd : resp.Body.bind dec with
        | none =>
          rw [hd] at h
          simp only [Option.some.injEq, Prod.mk.injEq] at h
          exact ⟨m1, by rw [← h.2, hm1], hfirst⟩
        | some respBody =>
          rw [hd] at h
          simp only at h
          split at h
          · simp only [Option.some.injEq, Prod.mk.injEq] at h
            exact ⟨m1, by rw [← h.2, hm1], hfirst⟩
          · cases hn : nextCall apiVersion respBody.Links.Next with
            | none =>
              rw [hn] at h
              simp only [Option.some.injEq, Prod.mk.injEq] at h
              exact ⟨m1, by rw [← h.2, hm1], hfirst⟩
            | some nx =>
              obtain ⟨np, nps⟩ := nx
              rw [hn] at h
              simp only at h
              obtain ⟨m2, hm2, _⟩ := ih np nps _ w2 r w1 h
              refine ⟨m1 ++ m2, by rw [hm2, hm1, List.append_assoc], ?_⟩
              intro req hreq
              obtain ⟨rest, hrest⟩ := hfirst req hreq
              exact ⟨rest ++ m2, by rw [hrest]; rfl⟩

/-- The parameters of the first request for every caller mapping, nil or not. -/
theorem firstParams_lookup_all (c : Client) (p : Option Values)
    (hp : ((p.getD []).map Prod.fst).Nodup) (k : String) :
    Values.lookup (firstParams c p) k =
      (((Values.lookup (p.getD []) k).bind List.getLast?).map fun v => [v]).or
        (if k = "version" ∧ Values.Has (p.getD []) "version" = false then some [c.APIVersion]
         else if k = "limit" then some ["100"] else none) := by
  cases p with
  | some ps => exact firstParams_lookup c ps hp k
  | none =>
    by_cases h0 : k = "version"
    · subst h0
      simp [firstParams, Values.Has, Values.Set, Values.store, Values.lookup]
    · have h0b : ¬ "version" = k := fun e => h0 e.symm
      by_cases h1 : k = "limit"
      · subst h1
        simp [firstParams, Values.Has, Values.Set, Values.store, Values.lookup]
      · have h2 : ¬ "limit" = k := fun e => h1 e.symm
        simp [firstParams, Values.Has, Values.Set, Values.store, Values.lookup, h0, h0b, h1, h2]

theorem lookup_mem (k : String) :
    ∀ (p : Values) (vs : List String), Values.lookup p k = some vs → (k, vs) ∈ p := by
  intro p
  induction p with
  | nil => intro vs h; simp [Values.lookup] at h
  | cons a rest ih =>
    intro vs h
    obtain ⟨ka, va⟩ := a
    by_cases hk : ka = k
    · simp only [Values.lookup, hk, if_true, Option.some.injEq] at h
      simp [hk, h]
    · simp only [Values.lookup, hk, if_false] at h
      exact List.mem_cons_of_mem _ (ih vs h)

/-- For a caller mapping whose keys hold one value each, the parameters of the first
request are the mapping together with the defaults for the keys it does not have. -/
theorem firstParams_lookup_single (c : Client) (p : Option Values)
    (hp : ((p.getD []).map Prod.fst).Nodup)
    (hone : ∀ e ∈ p.getD [], ∃ v, e.2 = [v]) (k : String) :
    Values.lookup (firstParams c p) k =
      (Values.lookup (p.getD []) k).or
        (if k = "version" then some [c.APIVersion]
         else if k = "limit" then some ["100"] else none) := by
  rw [firstParams_lookup_all c p hp k]
  cases hl : Values.lookup (p.getD []) k with
  | some vs =>
    obtain ⟨v, hv⟩ := hone _ (lookup_mem k _ vs hl)
    simp only at hv
    subst hv
    simp
  | none =>
    by_cases h0 : k = "version"
    · subst h0
      simp [Values.Has, hl]
    · simp [h0]

/-- C11 (amended): the query parameters of the first request of `getMultiResource`, for
every caller mapping `p` (nil or not). The first request sent is the one built from the
path and `firstParams`, and its query is the encoding of `firstParams`. In `firstParams`
a key of `p` that holds at least one value is sent with its last value alone, `version`
is the client's configured version when `p` has no `version` key, `limit` is `100` when
`p` sends no limit, and there is nothing else. Hence, when every key of `p` holds exactly
one value, the parameters are exactly `p` together with the two defaults for the keys
that `p` does not have: every key is sent as supplied, and the caller's value wins over
a default. -/
theorem getMultiResource_first_request_params (dec : PageDecoder) (c : Client)
    (t : Transport) (path : String) (p : Option Values) (fuel : Nat) (w : World)
    (req : Request) (r : Ret (List Resource)) (w1 : World)
    (hp : ((p.getD []).map Prod.fst).Nodup)
    (hreq : buildRequest c "GET" path (some (firstParams c p)) none = Except.ok req)
    (hrun : getMultiResource dec c t path p fuel w = some (r, w1)) :
    (∃ more, w1.sent = w.sent ++ req :: more) ∧
      (∃ v, Parse req.URL = some v ∧ v.RawQuery = (firstParams c p).Encode) ∧
      (∀ k, Values.lookup (firstParams c p) k =
        (((Values.lookup (p.getD []) k).bind List.getLast?).map fun v => [v]).or
          (if k = "version" ∧ Values.Has (p.getD []) "version" = false
           then some [c.APIVersion]
           else if k = "limit" then some ["100"] else none)) ∧
      ((∀ e ∈ p.getD [], ∃ v, e.2 = [v]) →
        ∀ k, Values.lookup (firstParams c p) k =
          (Values.lookup (p.getD []) k).or
            (if k = "version" then some [c.APIVersion]
             else if k = "limit" then some ["100"] else none)) := by
  refine ⟨?_, ?_, firstParams_lookup_all c p hp, fun hone => firstParams_lookup_single c p hp hone⟩
  · simp only [getMultiResource] at hrun
    obtain ⟨more, hm, hfirst⟩ := getMultiResourceLoop_sent dec c t _ fuel path _ [] w r w1 hrun
    obtain ⟨rest, hrest⟩ := hfirst req hreq
    exact ⟨rest, by rw [hm, hrest]⟩
  · obtain ⟨su, v, _, hv, hq⟩ := buildRequest_query c "GET" path _ none req hreq
    exact ⟨v, hv, by rw [hq]; rfl⟩

theorem demo_params_run :
    buildRequest demoClient "GET" "/rest/orgs" (some (firstParams demoClient (some demoParams)))
        none = Except.ok demoParamsRequest ∧
      getMultiResource (demoDecoder demoNext) demoClient demoLastPage "/rest/orgs"
          (some demoParams) 1 World.init =
        some (Ret.ok demoPage2.Data, { sent := [demoParamsRequest], slept := [] }) := by
  exact ⟨by decide!, by decide!⟩

theorem getMultiResource_first_request_params_witness :
    (∃ more, ({ sent := [demoParamsRequest], slept := [] } : World).sent =
        World.init.sent ++ demoParamsRequest :: more) ∧
      (∃ v, Parse demoParamsRequest.URL = some v ∧
        v.RawQuery = (firstParams demoClient (some demoParams)).Encode) ∧
      (∀ k, Values.lookup (firstParams demoClient (some demoParams)) k =
        (((Values.lookup ((some demoParams).getD []) k).bind List.getLast?).map
            fun v => [v]).or
          (if k = "version" ∧ Values.Has ((some demoParams).getD []) "version" = false
           then some [demoClient.APIVersion]
           else if k = "limit" then some ["100"] else none)) ∧
      ((∀ e ∈ (some demoParams).getD [], ∃ v, e.2 = [v]) →
        ∀ k, Values.lookup (firstParams demoClient (some demoParams)) k =
          (Values.lookup ((some demoParams).getD []) k).or
            (if k = "version" then some [demoClient.APIVersion]
             else if k = "limit" then some ["100"] else none)) :=
  getMultiResource_first_request_params (demoDecoder demoNext) demoClient demoLastPage
    "/rest/orgs" (some demoParams) 1 World.init demoParamsRequest (Ret.ok demoPage2.Data)
    { sent := [demoParamsRequest], slept := [] } (by decide) demo_params_run.1
    demo_params_run.2

/-- The example of the amended C11, evaluated: each key of the mapping holds one value,
and the request carries the caller's version and limit with the caller's own key. -/
theorem firstParams_single_evaluated :
    (∀ e ∈ demoParams, ∃ v, e.2 = [v]) ∧
      firstParams demoClient (some demoParams) =
        [("limit", ["10"]), ("version", ["V"]), ("slug", ["s"])] ∧
      (firstParams demoClient (some demoParams)).Encode = "limit=10&slug=s&version=V" ∧
      firstParams demoClient (some [("slug", ["s"])]) =
        [("version", ["2023-09-14~beta"]), ("limit", ["100"]), ("slug", ["s"])] := by
  refine ⟨?_, by decide!, by decide!, by decide!⟩
  intro e he
  simp only [demoParams, List.mem_cons, List.mem_singleton, List.not_mem_nil, or_false] at he
  rcases he with h | h | h <;> subst h <;> exact ⟨_, rfl⟩

/-! ## Paths of plain segments: the joined URL in closed form -/

theorem char_le_iff (a b : Char) : a ≤ b ↔ a.toNat ≤ b.toNat := by
  simp only [Char.le_def, UInt32.le_def, BitVec.le_def]
  rfl

theorem alpha_range (c : Char) (h : isAlpha c = true) : 65 ≤ c.toNat ∧ c.toNat ≤ 122 := by
  simp only [isAlpha, Bool.or_eq_true, Bool.and_eq_true, decide_eq_true_eq, char_le_iff] at h
  have e1 : ('a' : Char).toNat = 97 := rfl
  have e2 : ('z' : Char).toNat = 122 := rfl
  have e3 : ('A' : Char).toNat = 65 := rfl
  have e4 : ('Z' : Char).toNat = 90 := rfl
  omega

theorem digit_range (c : Char) (h : isDigit c = true) : 48 ≤ c.toNat ∧ c.toNat ≤ 57 := by
  simp only [isDigit, Bool.and_eq_true, decide_eq_true_eq, char_le_iff] at h
  have e1 : ('0' : Char).toNat = 48 := rfl
  have e2 : ('9' : Char).toNat = 57 := rfl
  omega

/-- The bytes that `shouldEscape` leaves alone in a path. -/
theorem pathByte_cases (c : Char) (h : shouldEscape c Encoding.encodePath = false) :
    isAlpha c = true ∨ isDigit c = true ∨
      c ∈ ['-', '_', '.', '~', '$', '&', '+', ',', '/', ':', ';', '=', '@'] := by
  by_cases h1 : isAlpha c = true
  · exact Or.inl h1
  by_cases h2 : isDigit c = true
  · exact Or.inr (Or.inl h2)
  right; right
  by_cases h3 : c ∈ ['-', '_', '.', '~']
  · simp only [List.mem_cons, List.mem_singleton, List.not_mem_nil, or_false] at h3 ⊢
    rcases h3 with h | h | h | h <;> simp [h]
  by_cases h4 : c ∈ ['$', '&', '+', ',', '/', ':', ';', '=', '?', '@']
  · simp only [List.mem_cons, List.mem_singleton, List.not_mem_nil, or_false] at h4 ⊢
    rcases h4 with h | h | h | h | h | h | h | h | h | h <;> subst h <;>
      first
      | decide
      | (exfalso; revert h; decide)
  · exfalso
    have hm : ¬ ((Encoding.encodePath = Encoding.encodeHost ∨
        Encoding.encodePath = Encoding.encodeZone) ∧
      c ∈ ['!', '$', '&', Char.ofNat 39, '(', ')', '*', '+', ',', ';', '=', ':', '[', ']', '<',
        '>', Char.ofNat 34]) := by
      intro hh
      rcases hh.1 with e | e <;> cases e
    have hf : ¬ (Encoding.encodePath = Encoding.encodeFragment ∧ c ∈ ['!', '(', ')', '*']) := by
      intro hh
      cases hh.1
    unfold shouldEscape at h
    have h12 : (isAlpha c || isDigit c) = false := by
      simp [h1, h2]
    rw [h12] at h
    simp only [Bool.false_eq_true, if_false] at h
    rw [if_neg hm, if_neg h3, if_neg h4, if_neg hf] at h
    cases h

theorem pathByte_ne (c : Char) (h : shouldEscape c Encoding.encodePath = false) :
    c ≠ '%' ∧ c ≠ '?' ∧ c ≠ '#' ∧ c ≠ '*' ∧ 32 ≤ c.toNat ∧ c.toNat ≠ 127 := by
  rcases pathByte_cases c h with h1 | h1 | h1
  · have := alpha_range c h1
    refine ⟨?_, ?_, ?_, ?_, by omega, by omega⟩ <;> (intro e; subst e; revert h1; decide)
  · have := digit_range c h1
    refine ⟨?_, ?_, ?_, ?_, by omega, by omega⟩ <;> (intro e; subst e; revert h1; decide)
  · simp only [List.mem_cons, List.mem_singleton, List.not_mem_nil, or_false] at h1
    rcases h1 with h | h | h | h | h | h | h | h | h | h | h | h | h <;> subst h <;> decide

/-- A text of bytes that a path does not escape unescapes to itself. -/
theorem unescapeChars_pathText : ∀ l : List Char,
    (∀ c ∈ l, shouldEscape c Encoding.encodePath = false) →
    unescapeChars Encoding.encodePath l = some l := by
  intro l
  induction l with
  | nil => intro _; rfl
  | cons c rest ih =>
    intro h
    have hc := h c (by simp)
    have hrest := ih (fun x hx => h x (by simp [hx]))
    have h1 : c ≠ '%' := (pathByte_ne c hc).1
    by_cases h2 : c = '+'
    · subst h2
      unfold unescapeChars
      rw [if_neg (by decide), if_pos rfl, hrest]
      rfl
    · rw [unescapeChars_plain c h1 h2, hrest]
      rfl

/-- A text of bytes that a path does not escape is escaped to itself. -/
theorem escapeChars_pathText : ∀ l : List Char,
    (∀ c ∈ l, shouldEscape c Encoding.encodePath = false) →
    escapeChars Encoding.encodePath l = l := by
  intro l
  induction l with
  | nil => intro _; rfl
  | cons c rest ih =>
    intro h
    have hc := h c (by simp)
    have hrest := ih (fun x hx => h x (by simp [hx]))
    have hq : ¬ (c = ' ' ∧ Encoding.encodePath = Encoding.encodeQueryComponent) := by
      intro hh
      cases hh.2
    unfold escapeChars
    rw [if_neg hq, hc]
    simp only [Bool.false_eq_true, if_false]
    rw [hrest]

theorem pathText_no_CTL : ∀ l : List Char,
    (∀ c ∈ l, shouldEscape c Encoding.encodePath = false) →
    stringContainsCTLByte l = false := by
  intro l h
  simp only [stringContainsCTLByte, List.any_eq_false, Bool.or_eq_true, decide_eq_true_eq,
    not_or]
  intro c hc
  have := pathByte_ne c (h c hc)
  omega

/-- `setPath` with a text of bytes that a path does not escape: the path is the text and
there is no raw path. -/
theorem setPath_pathText (u : URL) (T : List Char)
    (hT : ∀ c ∈ T, shouldEscape c Encoding.encodePath = false) :
    u.setPath (String.mk T) = some { u with Path := String.mk T, RawPath := "" } := by
  have e1 : (String.mk T).toList = T := rfl
  unfold URL.setPath unescape escape
  rw [e1, unescapeChars_pathText T hT]
  simp only [Option.map_some']
  rw [e1, escapeChars_pathText T hT, if_pos rfl]

/-- The escaped path of a URL whose path is such a text and that has no raw path. -/
theorem EscapedPath_pathText (u : URL) (T : List Char)
    (hT : ∀ c ∈ T, shouldEscape c Encoding.encodePath = false)
    (hp : u.Path = String.mk T) (hr : u.RawPath = "") :
    u.EscapedPath = String.mk T := by
  have hstar : ¬ (String.mk T = "*") := by
    intro e
    have e2 : T = ['*'] := congrArg String.data e
    have := (pathByte_ne '*' (hT '*' (by rw [e2]; simp))).2.2.2.1
    exact this rfl
  unfold URL.EscapedPath
  rw [hr, hp]
  rw [if_neg (fun h => h.1 rfl), if_neg hstar]
  have e1 : (String.mk T).toList = T := rfl
  unfold escape
  rw [e1, escapeChars_pathText T hT]
theorem count_eq_zero_of_not_mem (x : Char) : ∀ l : List Char, x ∉ l → l.count x = 0 := by
  intro l h
  exact List.count_eq_zero.2 h

/-- The parse of `https://api.snyk.io` followed by a path of bytes that need no escape:
the scheme, the host and that path, nothing else. -/
theorem parseNoFragment_origin_path (T : List Char)
    (hT : ∀ c ∈ T, shouldEscape c Encoding.encodePath = false)
    (hs : T = [] ∨ ∃ rest, T = '/' :: rest) :
    parseNoFragment (originText ++ T) =
      some { URL.zero with Scheme := "https", Host := "api.snyk.io", Path := String.mk T } := by
  have hq : '?' ∉ T := fun hm => (pathByte_ne '?' (hT '?' hm)).2.1 rfl
  have hctl : stringContainsCTLByte (originText ++ T) = false := by
    have h1 := pathText_no_CTL T hT
    have h2 : stringContainsCTLByte originText = false := by decide
    simp only [stringContainsCTLByte, List.any_append, Bool.or_eq_false_iff] at h1 h2 ⊢
    exact ⟨h2, h1⟩
  have hstar : ¬ (originText ++ T = ['*']) := by
    simp [originText]
  have hscheme : getScheme (originText ++ T) =
      some (['h', 't', 't', 'p', 's'],
        ['/', '/', 'a', 'p', 'i', '.', 's', 'n', 'y', 'k', '.', 'i', 'o'] ++ T) := by
    simp [originText, getScheme, getSchemeRest, isAlpha, isDigit]
  have hnq : '?' ∉ ['/', '/', 'a', 'p', 'i', '.', 's', 'n', 'y', 'k', '.', 'i', 'o'] ++ T := by
    intro hm
    rcases List.mem_append.1 hm with h | h
    · revert h; decide
    · exact hq h
  have hcut : cutChars '?' (['/', '/', 'a', 'p', 'i', '.', 's', 'n', 'y', 'k', '.', 'i', 'o'] ++ T) =
      (['/', '/', 'a', 'p', 'i', '.', 's', 'n', 'y', 'k', '.', 'i', 'o'] ++ T, [], false) :=
    cutChars_no_sep '?' _ hnq
  have hcount : List.count '?'
      (['/', '/', 'a', 'p', 'i', '.', 's', 'n', 'y', 'k', '.', 'i', 'o'] ++ T) = 0 :=
    count_eq_zero_of_not_mem '?' _ hnq
  have hforce : (['?'].isSuffixOf
      (['/', '/', 'a', 'p', 'i', '.', 's', 'n', 'y', 'k', '.', 'i', 'o'] ++ T) &&
      List.count '?' (['/', '/', 'a', 'p', 'i', '.', 's', 'n', 'y', 'k', '.', 'i', 'o'] ++ T) == 1) =
      false := by
    rw [hcount]
    simp
  have hcut2 : cutChars '/' (['a', 'p', 'i', '.', 's', 'n', 'y', 'k', '.', 'i', 'o'] ++ T) =
      (['a', 'p', 'i', '.', 's', 'n', 'y', 'k', '.', 'i', 'o'],
        (cutChars '/' T).2.1, (cutChars '/' T).2.2) := by
    rw [cutChars_append '/' _ _ (by decide), cut_slash_start T hs]
    rfl
  have hrest2 : (if (cutChars '/' T).2.2 = true then '/' :: (cutChars '/' T).2.1 else []) = T := by
    rcases hs with rfl | ⟨rest, rfl⟩
    · rfl
    · simp [cutChars]
  have hauth : parseAuthority ['a', 'p', 'i', '.', 's', 'n', 'y', 'k', '.', 'i', 'o'] =
      some (none, ['a', 'p', 'i', '.', 's', 'n', 'y', 'k', '.', 'i', 'o']) := by
    decide
  have hlower : List.map Char.toLower ['h', 't', 't', 'p', 's'] = ['h', 't', 't', 'p', 's'] := by
    decide
  have hp1 : ['/'].isPrefixOf
      (['/', '/', 'a', 'p', 'i', '.', 's', 'n', 'y', 'k', '.', 'i', 'o'] ++ T) = true := by
    simp [List.isPrefixOf]
  have hp2 : ['/', '/'].isPrefixOf
      (['/', '/', 'a', 'p', 'i', '.', 's', 'n', 'y', 'k', '.', 'i', 'o'] ++ T) = true := by
    simp [List.isPrefixOf]
  have hdrop : List.drop 2
      (['/', '/', 'a', 'p', 'i', '.', 's', 'n', 'y', 'k', '.', 'i', 'o'] ++ T) =
      ['a', 'p', 'i', '.', 's', 'n', 'y', 'k', '.', 'i', 'o'] ++ T := by
    simp
  unfold parseNoFragment
  simp only [hctl, hstar, hscheme, Bool.false_eq_true, if_false, hcut, hforce, hlower, hp1, hp2,
    hdrop, hcut2, hauth, hrest2, Bool.not_true, Bool.false_and, Bool.true_and, Bool.and_true,
    Bool.and_false, ne_eq, List.cons_ne_nil, not_false_eq_true, decide_True, Bool.true_or,
    if_true, beq_iff_eq, OfNat.zero_ne_ofNat, zero_ne_one, decide_False]
  rw [setPath_pathText _ T hT]
  rfl

/-- The same for `url.Parse`. -/
theorem Parse_origin_path (T : List Char)
    (hT : ∀ c ∈ T, shouldEscape c Encoding.encodePath = false)
    (hs : T = [] ∨ ∃ rest, T = '/' :: rest) :
    Parse (String.mk (originText ++ T)) =
      some { URL.zero with Scheme := "https", Host := "api.snyk.io", Path := String.mk T } := by
  have hh : '#' ∉ originText ++ T := by
    intro hm
    rcases List.mem_append.1 hm with h | h
    · revert h; decide
    · exact (pathByte_ne '#' (hT '#' h)).2.2.1 rfl
  have e1 : (String.mk (originText ++ T)).toList = originText ++ T := rfl
  unfold Parse
  simp only [e1, cutChars_no_sep '#' _ hh, parseNoFragment_origin_path T hT hs, if_true]
theorem getSchemeRest_no_colon (whole : List Char) :
    ∀ (rest acc : List Char), ':' ∉ (cutChars '/' rest).1 →
      getSchemeRest whole rest acc = some ([], whole) := by
  intro rest
  induction rest with
  | nil => intro acc _; rfl
  | cons c rest ih =>
    intro acc h
    by_cases hsl : c = '/'
    · subst hsl
      simp [getSchemeRest, isAlpha, isDigit]
    · have hcut : (cutChars '/' (c :: rest)).1 = c :: (cutChars '/' rest).1 := by
        simp [cutChars, hsl]
      rw [hcut] at h
      have hc : c ≠ ':' := fun e => h (by simp [e])
      have hr : ':' ∉ (cutChars '/' rest).1 := fun hm => h (by simp [hm])
      unfold getSchemeRest
      by_cases h1 : isAlpha c = true
      · rw [if_pos h1]
        exact ih _ hr
      · rw [if_neg h1]
        by_cases h2 : (isDigit c || c == '+' || c == '-' || c == '.') = true
        · rw [if_pos h2]
          exact ih _ hr
        · rw [if_neg h2, if_neg hc]

theorem getScheme_no_colon (S : List Char) (h : ':' ∉ (cutChars '/' S).1) :
    getScheme S = some ([], S) := by
  cases S with
  | nil => rfl
  | cons c rest =>
    by_cases hsl : c = '/'
    · subst hsl
      simp [getScheme, isAlpha, isDigit]
    · have hcut : (cutChars '/' (c :: rest)).1 = c :: (cutChars '/' rest).1 := by
        simp [cutChars, hsl]
      have hc : c ≠ ':' := fun e => h (by rw [hcut]; simp [e])
      unfold getScheme
      simp only
      by_cases h1 : isAlpha c = true
      · rw [if_pos h1]
        exact getSchemeRest_no_colon _ _ _ (by rw [hcut] at h; exact fun hm => h (by simp [hm]))
      · rw [if_neg h1]
        by_cases h2 : (isDigit c || c == '+' || c == '-' || c == '.') = true
        · rw [if_pos h2]
        · rw [if_neg h2, if_neg hc]

/-- The parse of a path of bytes that need no escape, read as a reference without
scheme: it does not begin with two slashes, and its first segment has no colon. The
result is that path, nothing else. -/
theorem Parse_pathText (S : List Char)
    (hS : ∀ c ∈ S, shouldEscape c Encoding.encodePath = false)
    (hdbl : ['/', '/'].isPrefixOf S = false)
    (hcolon : ':' ∉ (cutChars '/' S).1) :
    Parse (String.mk S) = some { URL.zero with Path := String.mk S } := by
  have hq : '?' ∉ S := fun hm => (pathByte_ne '?' (hS '?' hm)).2.1 rfl
  have hh : '#' ∉ S := fun hm => (pathByte_ne '#' (hS '#' hm)).2.2.1 rfl
  have hctl := pathText_no_CTL S hS
  have hstar : ¬ (S = ['*']) := by
    intro e
    exact (pathByte_ne '*' (hS '*' (by rw [e]; simp))).2.2.2.1 rfl
  have hscheme := getScheme_no_colon S hcolon
  have hcut := cutChars_no_sep '?' S hq
  have hforce : (['?'].isSuffixOf S && List.count '?' S == 1) = false := by
    rw [count_eq_zero_of_not_mem '?' S hq]
    simp
  have hcon : (cutChars '/' S).1.contains ':' = false := by
    simpa using hcolon
  have e1 : (String.mk S).toList = S := rfl
  have hpn : parseNoFragment S = some { URL.zero with Path := String.mk S } := by
    unfold parseNoFragment
    simp only [hctl, hstar, hscheme, Bool.false_eq_true, if_false, hcut, hforce, hcon, hdbl,
      List.map_nil, ne_eq, not_true_eq_false, decide_False, Bool.and_false, Bool.false_and,
      Bool.or_false, Bool.false_or]
    rw [setPath_pathText _ S hS]
    rfl
  unfold Parse
  simp only [e1, cutChars_no_sep '#' _ hh, hpn, if_true]
theorem splitSlash_noSlash : ∀ s : List Char, '/' ∉ s → splitSlash s = [s] := by
  intro s
  induction s with
  | nil => intro _; rfl
  | cons c rest ih =>
    intro h
    have hc : c ≠ '/' := fun e => h (by simp [e])
    have hr := ih (fun hm => h (by simp [hm]))
    simp only [splitSlash, hc, if_false, hr]

theorem joinSlash_cons (s : List Char) (segs : List (List Char)) (h : segs ≠ []) :
    joinSlash (s :: segs) = s ++ '/' :: joinSlash segs := by
  cases segs with
  | nil => exact absurd rfl h
  | cons t rest => rfl

theorem joinSlash_append : ∀ (A B : List (List Char)), A ≠ [] → B ≠ [] →
    joinSlash (A ++ B) = joinSlash A ++ '/' :: joinSlash B := by
  intro A
  induction A with
  | nil => intro B h _; exact absurd rfl h
  | cons s rest ih =>
    intro B _ hB
    cases rest with
    | nil =>
      simp only [List.singleton_append]
      rw [joinSlash_cons s B hB]
      rfl
    | cons t rest2 =>
      have h1 : (t :: rest2) ++ B ≠ [] := by simp
      rw [List.cons_append, joinSlash_cons s _ h1, ih B (by simp) hB,
        joinSlash_cons s (t :: rest2) (by simp)]
      simp

theorem splitSlash_joinSlash : ∀ segs : List (List Char), segs ≠ [] →
    (∀ s ∈ segs, '/' ∉ s) → splitSlash (joinSlash segs) = segs := by
  intro segs
  induction segs with
  | nil => intro h _; exact absurd rfl h
  | cons s rest ih =>
    intro _ h
    cases rest with
    | nil => exact splitSlash_noSlash s (h s (by simp))
    | cons t rest2 =>
      rw [joinSlash_cons s (t :: rest2) (by simp), splitSlash_append,
        splitSlash_noSlash s (h s (by simp)), ih (by simp) (fun x hx => h x (by simp [hx]))]
      rfl

/-- `path.Clean` on elements that are empty or ordinary names: the empty ones are
dropped, the others kept in order. -/
theorem foldl_cleanStep (rooted : Bool) :
    ∀ (segs stack : List (List Char)),
      (∀ s ∈ segs, s = [] ∨ (s ≠ ['.'] ∧ s ≠ ['.', '.'])) →
      segs.foldl (cleanStep rooted) stack =
        (segs.filter fun s => !s.isEmpty).reverse ++ stack := by
  intro segs
  induction segs with
  | nil => intro stack _; rfl
  | cons s rest ih =>
    intro stack h
    have hrest := ih
    rcases h s (by simp) with he | ⟨h1, h2⟩
    · subst he
      rw [List.foldl_cons, ih _ (fun x hx => h x (by simp [hx]))]
      simp [cleanStep]
    · by_cases he : s = []
      · subst he
        rw [List.foldl_cons, ih _ (fun x hx => h x (by simp [hx]))]
        simp [cleanStep]
      · have hstep : cleanStep rooted stack s = s :: stack := by
          unfold cleanStep
          rw [if_neg (by simp [he, h1]), if_neg h2]
        have hemp : s.isEmpty = false := by
          cases s with
          | nil => exact absurd rfl he
          | cons a b => rfl
        rw [List.foldl_cons, hstep, ih _ (fun x hx => h x (by simp [hx]))]
        simp [List.filter_cons, hemp]

theorem Clean_joinSlash (rest : List (List Char)) (hne : rest ≠ [])
    (h : ∀ s ∈ rest, '/' ∉ s ∧ (s = [] ∨ (s ≠ ['.'] ∧ s ≠ ['.', '.']))) :
    Clean (joinSlash ([] :: rest)) = '/' :: joinSlash (rest.filter fun s => !s.isEmpty) := by
  have htext : joinSlash ([] :: rest) = '/' :: joinSlash rest := by
    rw [joinSlash_cons [] rest hne]
    rfl
  have hsplit : splitSlash (joinSlash ([] :: rest)) = [] :: rest :=
    splitSlash_joinSlash ([] :: rest) (by simp) (by
      intro s hs
      rcases List.mem_cons.1 hs with e | hm
      · rw [e]; simp
      · exact (h s hm).1)
  have hfold : ([] :: rest).foldl (cleanStep true) [] =
      (([] :: rest).filter fun s => !s.isEmpty).reverse ++ [] :=
    foldl_cleanStep true ([] :: rest) [] (by
      intro s hs
      rcases List.mem_cons.1 hs with e | hm
      · exact Or.inl e
      · exact (h s hm).2)
  unfold Clean
  rw [hsplit]
  rw [htext]
  have hp : ['/'].isPrefixOf ('/' :: joinSlash rest) = true := by simp [List.isPrefixOf]
  simp only [List.cons_ne_nil, if_false, hp, if_true]
  rw [hfold]
  simp [List.filter_cons]
theorem joinSlash_cons_slashed : ∀ (rest : List (List Char)) (s : List Char),
    joinSlash (s :: rest) = s ++ slashed rest := by
  intro rest
  induction rest with
  | nil => intro s; simp [joinSlash, slashed]
  | cons t r ih =>
    intro s
    rw [joinSlash_cons s (t :: r) (by simp), ih t]
    simp [slashed, List.flatMap_cons]

theorem slashed_eq (segs : List (List Char)) (h : segs ≠ []) :
    slashed segs = '/' :: joinSlash segs := by
  have h1 := joinSlash_cons_slashed segs []
  rw [joinSlash_cons [] segs h] at h1
  simpa using h1.symm

theorem slashed_append (A B : List (List Char)) : slashed (A ++ B) = slashed A ++ slashed B := by
  simp [slashed, List.flatMap_append]

theorem isSuffixOf_snoc (x c : Char) (X : List Char) :
    [x].isSuffixOf (X ++ [c]) = (x == c) := by
  simp [List.isSuffixOf, List.isPrefixOf]

theorem plainSegment_clean (s : List Char) (h : plainSegment s) :
    '/' ∉ s ∧ (s = [] ∨ (s ≠ ['.'] ∧ s ≠ ['.', '.'])) :=
  ⟨fun hm => (h.2.2.2 '/' hm).2 rfl, Or.inr ⟨h.2.1, h.2.2.1⟩⟩

theorem filter_plain : ∀ l : List (List Char), (∀ s ∈ l, plainSegment s) →
    (l.filter fun s => !s.isEmpty) = l := by
  intro l h
  apply List.filter_eq_self.2
  intro s hs
  have := (h s hs).1
  cases s with
  | nil => exact absurd rfl this
  | cons a b => rfl

/-- The last byte of a path of plain segments is not a slash. -/
theorem joinSlash_ends : ∀ ps : List (List Char), ps ≠ [] → (∀ s ∈ ps, plainSegment s) →
    ∃ X c, joinSlash ps = X ++ [c] ∧ c ≠ '/' := by
  intro ps
  induction ps with
  | nil => intro h _; exact absurd rfl h
  | cons s rest ih =>
    intro _ h
    cases rest with
    | nil =>
      have hs := h s (by simp)
      refine ⟨s.dropLast, s.getLast hs.1, ?_, ?_⟩
      · simp [joinSlash, List.dropLast_append_getLast]
      · exact (hs.2.2.2 _ (List.getLast_mem hs.1)).2
    | cons t r =>
      obtain ⟨X, c, hX, hc⟩ := ih (by simp) (fun x hx => h x (by simp [hx]))
      refine ⟨s ++ '/' :: X, c, ?_, hc⟩
      rw [joinSlash_cons s (t :: r) (by simp), hX]
      simp

theorem pathJoin_two (a E : List Char) (ha : a ≠ []) :
    pathJoin [a, E] = Clean (a ++ '/' :: E) := by
  have h1 : a.isEmpty = false := by
    cases a with
    | nil => exact absurd rfl ha
    | cons x y => rfl
  simp [pathJoin, joinBuf, h1, ha]

/-- The text of a suffix as a list of elements between slashes. -/
theorem suffix_text (ps : List (List Char)) (hne : ps ≠ []) (pslash ptrail : Bool) :
    slashIf pslash ++ joinSlash ps ++ slashIf ptrail =
      joinSlash ((if pslash then [[]] else []) ++ ps ++ (if ptrail then [[]] else [])) := by
  cases pslash <;> cases ptrail
  · simp [slashIf]
  · simp only [slashIf, Bool.false_eq_true, if_false, if_true, List.nil_append]
    rw [joinSlash_append ps [[]] hne (by simp)]
    rfl
  · simp only [slashIf, Bool.false_eq_true, if_false, if_true, List.append_nil]
    rw [joinSlash_append [[]] ps (by simp) hne]
    rfl
  · simp only [slashIf, if_true]
    rw [joinSlash_append ([[]] ++ ps) [[]] (by simp) (by simp),
      joinSlash_append [[]] ps (by simp) hne]
    rfl

/-- The path that `joinPath` hands to `setPath`, for a base path and an element made of
plain segments: the segments of the base, then those of the element, one slash before
each (none at the start when the base has no path at all), and the slash at the end of
the element. -/
theorem joinPathText_plain (u : URL) (bs ps : List (List Char)) (bslash pslash ptrail : Bool)
    (hbs : ∀ s ∈ bs, plainSegment s) (hps : ∀ s ∈ ps, plainSegment s) (hne : ps ≠ [])
    (hu : u.EscapedPath.toList = slashed bs ++ slashIf bslash) :
    joinPathText u (String.mk (slashIf pslash ++ joinSlash ps ++ slashIf ptrail)) =
      (if bs = [] ∧ bslash = false then joinSlash ps
       else slashed bs ++ '/' :: joinSlash ps) ++ slashIf ptrail := by
  obtain ⟨X, c, hX, hc⟩ := joinSlash_ends ps hne hps
  have hcb : ('/' == c) = false := by
    simpa using fun e => hc e.symm
  have e1 : (String.mk (slashIf pslash ++ joinSlash ps ++ slashIf ptrail)).toList =
      slashIf pslash ++ joinSlash ps ++ slashIf ptrail := rfl
  -- the element ends with a slash exactly when asked to
  have hE : ['/'].isSuffixOf (slashIf pslash ++ joinSlash ps ++ slashIf ptrail) = ptrail := by
    cases ptrail
    · have : slashIf pslash ++ joinSlash ps ++ slashIf false = (slashIf pslash ++ X) ++ [c] := by
        simp [slashIf, hX]
      rw [this, isSuffixOf_snoc, hcb]
    · have : slashIf pslash ++ joinSlash ps ++ slashIf true =
          (slashIf pslash ++ joinSlash ps) ++ ['/'] := by
        simp [slashIf]
      rw [this, isSuffixOf_snoc]
      rfl
  have hEsegs : ∀ s ∈ (if pslash then [[]] else []) ++ ps ++ (if ptrail then [[]] else []),
      '/' ∉ s ∧ (s = [] ∨ (s ≠ ['.'] ∧ s ≠ ['.', '.'])) := by
    intro s hs
    simp only [List.mem_append] at hs
    rcases hs with (hs | hs) | hs
    · cases pslash
      · simp at hs
      · simp at hs; subst hs; simp
    · exact plainSegment_clean s (hps s hs)
    · cases ptrail
      · simp at hs
      · simp at hs; subst hs; simp
  have hEne : (if pslash then [[]] else []) ++ ps ++ (if ptrail then [[]] else []) ≠ [] := by
    intro e
    simp only [List.append_eq_nil] at e
    exact hne e.1.2
  have hfE : (((if pslash then [[]] else []) ++ ps ++ (if ptrail then [[]] else [])).filter
      fun s => !s.isEmpty) = ps := by
    rw [List.filter_append, List.filter_append, filter_plain ps hps]
    cases pslash <;> cases ptrail <;> simp
  unfold joinPathText
  simp only [hu, e1, hE]
  by_cases hB : bs = [] ∧ bslash = false
  · obtain ⟨hb1, hb2⟩ := hB
    subst hb1
    subst hb2
    have hfirst : (slashed [] ++ slashIf false : List Char) = [] := rfl
    rw [hfirst]
    have hjoin : pathJoin [['/'], slashIf pslash ++ joinSlash ps ++ slashIf ptrail] =
        '/' :: joinSlash ps := by
      rw [pathJoin_two _ _ (by simp), suffix_text ps hne]
      have hW : ['/'] ++ '/' ::
          joinSlash ((if pslash then [[]] else []) ++ ps ++ (if ptrail then [[]] else [])) =
          joinSlash ([] :: ([[]] ++
            ((if pslash then [[]] else []) ++ ps ++ (if ptrail then [[]] else [])))) := by
        rw [joinSlash_cons [] _ (by simp), joinSlash_append [[]] _ (by simp) hEne]
        rfl
      rw [hW, Clean_joinSlash _ (by simp) (by
        intro s hs
        rcases List.mem_append.1 hs with h1 | h1
        · simp at h1; subst h1; simp
        · exact hEsegs s h1)]
      rw [List.filter_append, hfE]
      simp
    have hp : ['/'].isSuffixOf (joinSlash ps) = false := by
      rw [hX, isSuffixOf_snoc, hcb]
    simp only [List.isPrefixOf, Bool.not_false, if_true, hjoin, List.drop_succ_cons, List.drop_zero,
      hp, Bool.not_false, and_true, true_and]
    cases ptrail <;> simp [slashIf]
  · have hBsegs : bs ++ (if bslash then [[]] else []) ≠ [] := by
      intro e
      simp only [List.append_eq_nil] at e
      apply hB
      refine ⟨e.1, ?_⟩
      cases bslash
      · rfl
      · simp at e
    have hBtext : slashed bs ++ slashIf bslash =
        joinSlash ([] :: (bs ++ (if bslash then [[]] else []))) := by
      rw [joinSlash_cons_slashed, slashed_append]
      cases bslash <;> simp [slashIf, slashed]
    have hBstart : ['/'].isPrefixOf (slashed bs ++ slashIf bslash) = true := by
      rw [hBtext, joinSlash_cons [] _ hBsegs]
      simp [List.isPrefixOf]
    have hBne : slashed bs ++ slashIf bslash ≠ [] := by
      intro e
      rw [e] at hBstart
      simp [List.isPrefixOf] at hBstart
    have hres : '/' :: joinSlash (bs ++ ps) = slashed bs ++ '/' :: joinSlash ps := by
      rw [← slashed_eq (bs ++ ps) (by simp [hne]), slashed_append, slashed_eq ps hne]
    have hjoin : pathJoin [slashed bs ++ slashIf bslash,
        slashIf pslash ++ joinSlash ps ++ slashIf ptrail] =
        slashed bs ++ '/' :: joinSlash ps := by
      rw [pathJoin_two _ _ hBne, suffix_text ps hne, hBtext]
      have hW : joinSlash ([] :: (bs ++ (if bslash then [[]] else []))) ++ '/' ::
          joinSlash ((if pslash then [[]] else []) ++ ps ++ (if ptrail then [[]] else [])) =
          joinSlash ([] :: ((bs ++ (if bslash then [[]] else [])) ++
            ((if pslash then [[]] else []) ++ ps ++ (if ptrail then [[]] else [])))) :=
        (joinSlash_append ([] :: (bs ++ (if bslash then [[]] else []))) _ (by simp) hEne).symm
      rw [hW, Clean_joinSlash _ (by simp [hne]) (by
        intro s hs
        rcases List.mem_append.1 hs with h1 | h1
        · rcases List.mem_append.1 h1 with h2 | h2
          · exact plainSegment_clean s (hbs s h2)
          · cases bslash
            · simp at h2
            · simp at h2; subst h2; simp
        · exact hEsegs s h1)]
      rw [List.filter_append, hfE, List.filter_append, filter_plain bs hbs]
      have : ((if bslash then [[]] else [] : List (List Char)).filter fun s => !s.isEmpty) = [] := by
        cases bslash <;> simp
      rw [this, List.append_nil, hres]
    have hp : ['/'].isSuffixOf (slashed bs ++ '/' :: joinSlash ps) = false := by
      have : slashed bs ++ '/' :: joinSlash ps = (slashed bs ++ '/' :: X) ++ [c] := by
        rw [hX]; simp
      rw [this, isSuffixOf_snoc, hcb]
    rw [if_neg hB]
    simp only [hBstart, Bool.not_true, Bool.false_eq_true, if_false, hjoin, hp, Bool.not_false,
      and_true]
    cases ptrail <;> simp [slashIf]
/-- The text of a URL at `https://api.snyk.io` whose path is made of bytes that need no
escape: the origin and the path, with a slash between them when the path does not begin
with one. -/
theorem Str_origin_path (T : List Char)
    (hT : ∀ c ∈ T, shouldEscape c Encoding.encodePath = false) :
    (originURL T).Str =
      String.mk (originText ++
        (if T ≠ [] ∧ ['/'].isPrefixOf T = false then ['/'] else []) ++ T) := by
  have hep := EscapedPath_pathText (originURL T) T hT rfl rfl
  have hat : (originURL T).authorityText = "//api.snyk.io" := by
    simp [URL.authorityText, originURL, URL.zero, escape_host_origin]
  have f3 : ¬ ((if ("https" : String) ≠ "" then "https" ++ ":" else "") ++ "//api.snyk.io" ++ "/" =
      "") := by decide
  have f4 : ¬ ((if ("https" : String) ≠ "" then "https" ++ ":" else "") ++ "//api.snyk.io" =
      "") := by decide
  have f5 : ((if ("https" : String) ≠ "" then "https" ++ ":" else "") ++ "//api.snyk.io").toList =
      originText := by decide
  have f6 : ((if ("https" : String) ≠ "" then "https" ++ ":" else "") ++ "//api.snyk.io" ++
      "/").toList = originText ++ ['/'] := by decide
  have f7 : ¬ (("" : String) ≠ "") := by decide
  have f8 : ¬ (false = true ∨ ("" : String) ≠ "") := by decide
  have e1 : (String.mk T).toList = T := rfl
  have e2 : (String.mk T ≠ "") ↔ T ≠ [] := by
    constructor
    · intro h e; exact h (by rw [e])
    · intro h e; exact h (congrArg String.data e)
  unfold URL.Str
  simp only [hat, hep, e1]
  simp only [originURL, URL.zero]
  rw [if_neg f7, if_neg f7, if_neg f8]
  by_cases hc : T ≠ [] ∧ ['/'].isPrefixOf T = false
  · have hc2 : String.mk T ≠ "" ∧ (!(['/'].isPrefixOf T)) = true ∧
        ("api.snyk.io" : String) ≠ "" := ⟨e2.2 hc.1, by rw [hc.2]; rfl, by decide⟩
    rw [if_pos hc2, if_neg (fun h => f3 h.1), if_pos hc]
    apply String.ext
    simp only [String.toList, String.data_append] at f6 ⊢
    rw [f6]
    simp
  · have hc2 : ¬ (String.mk T ≠ "" ∧ (!(['/'].isPrefixOf T)) = true ∧
        ("api.snyk.io" : String) ≠ "") := by
      intro h
      apply hc
      refine ⟨e2.1 h.1, ?_⟩
      have := h.2.1
      simpa using this
    rw [if_neg hc2, if_neg (fun h => f4 h.1), if_neg hc]
    apply String.ext
    simp only [String.toList, String.data_append] at f5 ⊢
    rw [f5]
    simp
theorem slash_pathByte : shouldEscape '/' Encoding.encodePath = false := by decide

theorem slashed_bytes (bs : List (List Char)) (hbs : ∀ s ∈ bs, plainSegment s) :
    ∀ c ∈ slashed bs, shouldEscape c Encoding.encodePath = false := by
  intro c hc
  simp only [slashed, List.mem_flatMap, List.mem_cons] at hc
  obtain ⟨s, hs, h | h⟩ := hc
  · rw [h]; exact slash_pathByte
  · exact ((hbs s hs).2.2.2 c h).1

theorem slashIf_bytes (b : Bool) : ∀ c ∈ slashIf b, shouldEscape c Encoding.encodePath = false := by
  intro c hc
  cases b
  · simp [slashIf] at hc
  · simp [slashIf] at hc
    rw [hc]; exact slash_pathByte

theorem joinSlash_bytes (ps : List (List Char)) (hps : ∀ s ∈ ps, plainSegment s) :
    ∀ c ∈ joinSlash ps, shouldEscape c Encoding.encodePath = false := by
  cases ps with
  | nil => intro c hc; simp [joinSlash] at hc
  | cons s rest =>
    intro c hc
    rw [joinSlash_cons_slashed] at hc
    rcases List.mem_append.1 hc with h | h
    · exact ((hps s (by simp)).2.2.2 c h).1
    · exact slashed_bytes rest (fun x hx => hps x (by simp [hx])) c h

/-- A path of plain segments begins with a byte that is not a slash, and its first
segment ends at the first slash. -/
theorem joinSlash_starts (ps : List (List Char)) (hne : ps ≠ [])
    (hps : ∀ s ∈ ps, plainSegment s) (tail : List Char)
    (ht : tail = [] ∨ ∃ rest, tail = '/' :: rest) :
    ∃ c0 s0 Y, c0 ≠ '/' ∧ ps.head? = some (c0 :: s0) ∧
      joinSlash ps ++ tail = c0 :: (s0 ++ Y) ∧ '/' ∉ s0 ∧ (Y = [] ∨ ∃ rest, Y = '/' :: rest) := by
  cases ps with
  | nil => exact absurd rfl hne
  | cons s rest =>
    have hs := hps s (by simp)
    cases s with
    | nil => exact absurd rfl hs.1
    | cons c0 s0 =>
      refine ⟨c0, s0, slashed rest ++ tail, (hs.2.2.2 c0 (by simp)).2, rfl, ?_,
        fun hm => (hs.2.2.2 '/' (by simp [hm])).2 rfl, ?_⟩
      · rw [joinSlash_cons_slashed]
        simp
      · cases rest with
        | nil => simpa [slashed] using ht
        | cons t r => exact Or.inr ⟨t ++ slashed r ++ tail, by simp [slashed, List.flatMap_cons]⟩

theorem slashIf_start (b : Bool) : slashIf b = [] ∨ ∃ rest, slashIf b = '/' :: rest := by
  cases b
  · exact Or.inl rfl
  · exact Or.inr ⟨[], rfl⟩

/-- `joinURLParts` on paths of plain segments, in closed form: the result is the origin,
the segments of the base and the segments of the suffix, one slash before each, and the
slash at the end of the suffix if it has one. -/
theorem joinURLParts_plain (bs ps : List (List Char)) (bslash pslash ptrail : Bool)
    (hbs : ∀ s ∈ bs, plainSegment s) (hps : ∀ s ∈ ps, plainSegment s) (hne : ps ≠ [])
    (hcolon : pslash = false → ':' ∉ ps.headD []) :
    Parse (String.mk (originText ++ (slashed bs ++ slashIf bslash))) =
        some (originURL (slashed bs ++ slashIf bslash)) ∧
      Parse (String.mk (slashIf pslash ++ joinSlash ps ++ slashIf ptrail)) =
        some { URL.zero with Path := String.mk (slashIf pslash ++ joinSlash ps ++ slashIf ptrail) } ∧
      joinURLParts (String.mk (originText ++ (slashed bs ++ slashIf bslash)))
          (String.mk (slashIf pslash ++ joinSlash ps ++ slashIf ptrail)) =
        some (String.mk (originText ++
          (slashed bs ++ '/' :: (joinSlash ps ++ slashIf ptrail)))) ∧
      Parse (String.mk (originText ++ (slashed bs ++ '/' :: (joinSlash ps ++ slashIf ptrail)))) =
        some (originURL (slashed bs ++ '/' :: (joinSlash ps ++ slashIf ptrail))) := by
  -- the three texts are made of bytes that a path does not escape
  have hB : ∀ c ∈ slashed bs ++ slashIf bslash, shouldEscape c Encoding.encodePath = false := by
    intro c hc
    rcases List.mem_append.1 hc with h | h
    · exact slashed_bytes bs hbs c h
    · exact slashIf_bytes bslash c h
  have hE : ∀ c ∈ slashIf pslash ++ joinSlash ps ++ slashIf ptrail,
      shouldEscape c Encoding.encodePath = false := by
    intro c hc
    rcases List.mem_append.1 hc with h | h
    · rcases List.mem_append.1 h with h | h
      · exact slashIf_bytes pslash c h
      · exact joinSlash_bytes ps hps c h
    · exact slashIf_bytes ptrail c h
  have hR : ∀ c ∈ slashed bs ++ '/' :: (joinSlash ps ++ slashIf ptrail),
      shouldEscape c Encoding.encodePath = false := by
    intro c hc
    rcases List.mem_append.1 hc with h | h
    · exact slashed_bytes bs hbs c h
    · rcases List.mem_cons.1 h with h | h
      · rw [h]; exact slash_pathByte
      · rcases List.mem_append.1 h with h | h
        · exact joinSlash_bytes ps hps c h
        · exact slashIf_bytes ptrail c h
  have hBstart : slashed bs ++ slashIf bslash = [] ∨
      ∃ rest, slashed bs ++ slashIf bslash = '/' :: rest := by
    cases bs with
    | nil => simpa [slashed] using slashIf_start bslash
    | cons s r => exact Or.inr ⟨s ++ slashed r ++ slashIf bslash, by simp [slashed, List.flatMap_cons]⟩
  have hRstart : ∃ rest, slashed bs ++ '/' :: (joinSlash ps ++ slashIf ptrail) = '/' :: rest := by
    cases bs with
    | nil => exact ⟨joinSlash ps ++ slashIf ptrail, by simp [slashed]⟩
    | cons s r =>
      exact ⟨s ++ (slashed r ++ '/' :: (joinSlash ps ++ slashIf ptrail)), by
        simp [slashed, List.flatMap_cons]⟩
  obtain ⟨c0, s0, Y, hc0, hhead, htext, hs0, hY⟩ :=
    joinSlash_starts ps hne hps (slashIf ptrail) (slashIf_start ptrail)
  -- the suffix is read as a path
  have hdbl : ['/', '/'].isPrefixOf (slashIf pslash ++ joinSlash ps ++ slashIf ptrail) = false := by
    rw [List.append_assoc, htext]
    cases pslash
    · simp [slashIf, List.isPrefixOf]
      exact fun e => absurd e.symm hc0
    · simp [slashIf, List.isPrefixOf]
      exact fun e => absurd e.symm hc0
  have hcol : ':' ∉ (cutChars '/' (slashIf pslash ++ joinSlash ps ++ slashIf ptrail)).1 := by
    rw [List.append_assoc, htext]
    cases pslash
    · have h1 := hcolon rfl
      rw [List.headD_eq_head?_getD, hhead] at h1
      simp only [Option.getD_some] at h1
      have hcut : (cutChars '/' (slashIf false ++ c0 :: (s0 ++ Y))).1 = c0 :: s0 := by
        have : slashIf false ++ c0 :: (s0 ++ Y) = (c0 :: s0) ++ Y := by simp [slashIf]
        rw [this, cutChars_append '/' (c0 :: s0) Y (by
          intro hm
          rcases List.mem_cons.1 hm with e | e
          · exact hc0 e.symm
          · exact hs0 e), cut_slash_start Y hY]
        simp
      rw [hcut]
      exact h1
    · simp [slashIf, cutChars]
  have hPB : Parse (String.mk (originText ++ (slashed bs ++ slashIf bslash))) =
      some (originURL (slashed bs ++ slashIf bslash)) := Parse_origin_path _ hB hBstart
  have hPE := Parse_pathText _ hE hdbl hcol
  have hPR : Parse (String.mk (originText ++
      (slashed bs ++ '/' :: (joinSlash ps ++ slashIf ptrail)))) =
      some (originURL (slashed bs ++ '/' :: (joinSlash ps ++ slashIf ptrail))) :=
    Parse_origin_path _ hR (Or.inr hRstart)
  refine ⟨hPB, hPE, ?_, hPR⟩
  -- the joined path
  have hu : (originURL (slashed bs ++ slashIf bslash)).EscapedPath.toList =
      slashed bs ++ slashIf bslash := by
    rw [EscapedPath_pathText _ _ hB rfl rfl]
    rfl
  have hJ := joinPathText_plain (originURL (slashed bs ++ slashIf bslash)) bs ps bslash pslash
    ptrail hbs hps hne hu
  have hJbytes : ∀ c ∈ (if bs = [] ∧ bslash = false then joinSlash ps
      else slashed bs ++ '/' :: joinSlash ps) ++ slashIf ptrail,
      shouldEscape c Encoding.encodePath = false := by
    intro c hc
    rcases List.mem_append.1 hc with h | h
    · split at h
      · exact joinSlash_bytes ps hps c h
      · exact hR c (by
          rcases List.mem_append.1 h with h2 | h2
          · exact List.mem_append.2 (Or.inl h2)
          · rcases List.mem_cons.1 h2 with h3 | h3
            · exact List.mem_append.2 (Or.inr (by simp [h3]))
            · exact List.mem_append.2 (Or.inr (by simp [h3])))
    · exact slashIf_bytes ptrail c h
  have hjoined : JoinPath (String.mk (originText ++ (slashed bs ++ slashIf bslash)))
      (String.mk (slashIf pslash ++ joinSlash ps ++ slashIf ptrail)) =
      some (String.mk (originText ++
        (slashed bs ++ '/' :: (joinSlash ps ++ slashIf ptrail)))) := by
    unfold JoinPath
    rw [hPB]
    simp only [URL.joinPath]
    rw [hJ, setPath_pathText _ _ hJbytes]
    simp only [Option.map_some', Option.some.injEq]
    have hrec : ({ originURL (slashed bs ++ slashIf bslash) with
        Path := String.mk ((if bs = [] ∧ bslash = false then joinSlash ps
          else slashed bs ++ '/' :: joinSlash ps) ++ slashIf ptrail), RawPath := "" } : URL) =
        originURL ((if bs = [] ∧ bslash = false then joinSlash ps
          else slashed bs ++ '/' :: joinSlash ps) ++ slashIf ptrail) := rfl
    rw [hrec, Str_origin_path _ hJbytes]
    congr 1
    by_cases hb : bs = [] ∧ bslash = false
    · rw [if_pos hb, hb.1]
      have hne2 : joinSlash ps ++ slashIf ptrail ≠ [] := by rw [htext]; simp
      have hnp : ['/'].isPrefixOf (joinSlash ps ++ slashIf ptrail) = false := by
        rw [htext]
        simp [List.isPrefixOf]
        exact fun e => absurd e.symm hc0
      rw [if_pos ⟨hne2, hnp⟩]
      simp [slashed]
    · rw [if_neg hb]
      have hp : ['/'].isPrefixOf (slashed bs ++ '/' :: joinSlash ps ++ slashIf ptrail) = true := by
        cases bs with
        | nil => simp [slashed, List.isPrefixOf]
        | cons s r => simp [slashed, List.flatMap_cons, List.isPrefixOf]
      rw [if_neg (by rw [hp]; simp)]
      simp
  unfold joinURLParts
  rw [hPE]
  simp only
  rw [hjoined]
  simp only
  rw [hPR]
  simp only [Option.some.injEq]
  have hrec : ({ originURL (slashed bs ++ '/' :: (joinSlash ps ++ slashIf ptrail)) with
      RawQuery := URL.zero.RawQuery } : URL) =
      originURL (slashed bs ++ '/' :: (joinSlash ps ++ slashIf ptrail)) := rfl
  rw [hrec, Str_origin_path _ hR]
  obtain ⟨rest, hrest⟩ := hRstart
  congr 1
  rw [hrest]
  simp [List.isPrefixOf]
/-- C15 (amended): the leading slash and the joined path. For a base
`https://api.snyk.io` followed by plain segments `bs`, with or without a slash at its end,
and a suffix made of one or more plain segments `ps`, with or without a slash at its
start and at its end (without the slash at the start, the first segment has no colon),
`joinURLParts` returns the origin, the segments of the base and the segments of the
suffix with exactly one slash before each, and the slash at the end of the suffix: the
path of the result is the path of the base followed by the path of the suffix with one
separator between them, whatever the slashes at the end of the base and at the start of
the suffix. And for every base and every suffix `p` that parses as a reference without
scheme, with a path that is not empty, and that does not begin with a slash,
`joinURLParts base ("/" ++ p)` equals `joinURLParts base p`. -/
theorem joinURLParts_slash_and_path (bs ps : List (List Char)) (bslash pslash ptrail : Bool)
    (hbs : ∀ s ∈ bs, plainSegment s) (hps : ∀ s ∈ ps, plainSegment s) (hne : ps ≠ [])
    (hcolon : pslash = false → ':' ∉ ps.headD []) :
    joinURLParts (String.mk (originText ++ (slashed bs ++ slashIf bslash)))
        (String.mk (slashIf pslash ++ joinSlash ps ++ slashIf ptrail)) =
      some (String.mk (originText ++
        (slashed bs ++ '/' :: (joinSlash ps ++ slashIf ptrail)))) ∧
    (Parse (String.mk (originText ++ (slashed bs ++ slashIf bslash)))).map URL.Path =
      some (String.mk (slashed bs ++ slashIf bslash)) ∧
    (Parse (String.mk (slashIf pslash ++ joinSlash ps ++ slashIf ptrail))).map URL.Path =
      some (String.mk (slashIf pslash ++ joinSlash ps ++ slashIf ptrail)) ∧
    (Parse (String.mk (originText ++
        (slashed bs ++ '/' :: (joinSlash ps ++ slashIf ptrail))))).map URL.Path =
      some (String.mk (slashed bs ++ '/' :: (joinSlash ps ++ slashIf ptrail))) ∧
    (∀ (base p : String) (su : URL), Parse p = some su → su.Scheme = "" → su.Path ≠ "" →
      hasPrefix p "/" = false → joinURLParts base ("/" ++ p) = joinURLParts base p) := by
  obtain ⟨h1, h2, h3, h4⟩ := joinURLParts_plain bs ps bslash pslash ptrail hbs hps hne hcolon
  refine ⟨h3, ?_, ?_, ?_, ?_⟩
  · rw [h1]; rfl
  · rw [h2]; rfl
  · rw [h4]; rfl
  · intro base p su hs hsch hpath hns
    exact joinURLParts_leading_slash base p su hs hsch hpath hns

theorem joinURLParts_slash_and_path_witness :
    joinURLParts "https://api.snyk.io/api/" "/v1/org/X" =
      some "https://api.snyk.io/api/v1/org/X" ∧
    (Parse "https://api.snyk.io/api/").map URL.Path = some "/api/" ∧
    (Parse "/v1/org/X").map URL.Path = some "/v1/org/X" ∧
    (Parse "https://api.snyk.io/api/v1/org/X").map URL.Path = some "/api/v1/org/X" ∧
    joinURLParts "https://api.snyk.io" ("/" ++ "v1/org/X") =
      joinURLParts "https://api.snyk.io" "v1/org/X" :=
  have h := joinURLParts_slash_and_path [['a', 'p', 'i']] [['v', '1'], ['o', 'r', 'g'], ['X']]
    true true false (by decide) (by decide) (by decide) (by decide)
  ⟨h.1, h.2.1, h.2.2.1, h.2.2.2.1,
    h.2.2.2.2 "https://api.snyk.io" "v1/org/X" demoRelativeURL (by decide!) (by decide)
      (by decide) (by decide)⟩

/-- The closed form for the base the client uses and the path of an ignore, written
with and without the slash at its start: one and the same URL. -/
theorem joinURLParts_plain_evaluated :
    joinURLParts baseURL "v1/org/O/project/P/ignore/I" =
        some "https://api.snyk.io/v1/org/O/project/P/ignore/I" ∧
      joinURLParts baseURL "/v1/org/O/project/P/ignore/I" =
        some "https://api.snyk.io/v1/org/O/project/P/ignore/I" ∧
      joinURLParts "https://api.snyk.io" "v1/org/O/project/P/ignore/I" =
        some "https://api.snyk.io/v1/org/O/project/P/ignore/I" ∧
      joinURLParts "https://api.snyk.io" "/v1/org/O/project/P/ignore/I" =
        some "https://api.snyk.io/v1/org/O/project/P/ignore/I" :=
  have hP : ∀ s ∈ [['v', '1'], ['o', 'r', 'g'], ['O'], ['p', 'r', 'o', 'j', 'e', 'c', 't'],
      ['P'], ['i', 'g', 'n', 'o', 'r', 'e'], ['I']], plainSegment s := by decide
  ⟨(joinURLParts_plain [] _ true false false (by decide) hP (by decide) (by decide)).2.2.1,
    (joinURLParts_plain [] _ true true false (by decide) hP (by decide) (by decide)).2.2.1,
    (joinURLParts_plain [] _ false false false (by decide) hP (by decide) (by decide)).2.2.1,
    (joinURLParts_plain [] _ false true false (by decide) hP (by decide) (by decide)).2.2.1⟩

end Snyk
